import Mathlib

/-!
The config-reflector controllers: a shallow embedding of the two reconcilers.

The development follows the Go sources

* `pkg/utils/const.go`, `pkg/utils/utils.go`
* `pkg/controller/configmap/configmap_controller.go`
* `pkg/controller/secret/secret_controller.go`

Go strings are Lean `String`s, a Go `map[string]string` is an association list
with unique keys (`AList`), a Go `error` is a value of `GoError`, and the
controller-runtime `client.Client` is a record of state-passing functions over an
abstract store state.  A reconciler is a function from a client, a request key and
a store state to an outcome (`none` is Go's `nil` error) and the next store state.
-/

namespace ConfigReflector

/-! ## Strings and maps -/

/-- Go `map[string]string`. -/
abbrev GoMap := AList (fun _ : String => String)

/-- Go `map[string][]byte`. -/
abbrev ByteMap := AList (fun _ : String => List (Fin 256))

/-- Go index expression `m[k]` on a `map[string]string`: the zero value `""` when
the key is absent. -/
def mapIndex (m : GoMap) (k : String) : String :=
  (m.lookup k).getD ""

/-- Go `unicode.IsSpace`: the code points with the `White_Space` property. -/
def isSpace (c : Char) : Bool :=
  let n := c.toNat
  (0x09 ≤ n && n ≤ 0x0d) || n == 0x20 || n == 0x85 || n == 0xA0 || n == 0x1680 ||
    (0x2000 ≤ n && n ≤ 0x200a) || n == 0x2028 || n == 0x2029 || n == 0x202f ||
    n == 0x205f || n == 0x3000

/-- Go `strings.TrimSpace`: all leading and trailing white space removed. -/
def TrimSpace (s : String) : String :=
  ⟨((s.data.dropWhile isSpace).reverse.dropWhile isSpace).reverse⟩

/-- The pieces of a character sequence between its commas. -/
def splitComma : List Char → List (List Char)
  | [] => [[]]
  | c :: cs =>
    if c = ',' then [] :: splitComma cs
    else
      match splitComma cs with
      | [] => [[c]]
      | p :: ps => (c :: p) :: ps

/-- Go `strings.Split(s, ",")`. -/
def Split (s : String) : List String :=
  (splitComma s.data).map String.mk

/-- Go `strings.HasPrefix(s, p)`. -/
def HasPrefix (s p : String) : Bool :=
  p.data.isPrefixOf s.data

/-! ## `pkg/utils/const.go` -/

def Prefix : String := "configreflector.github.io/"

def AnnotationReflectAnnotations : String := Prefix ++ "reflect-annotations"

def AnnotationReflectLabels : String := Prefix ++ "reflect-labels"

def AnnotationReflectNamespaces : String := Prefix ++ "reflect-namespaces"

def LabelSourceNamespace : String := Prefix ++ "source-namespace"

def LabelSourceName : String := Prefix ++ "source-name"

/-! ## Kubernetes object metadata -/

/-- The part of `metav1.OwnerReference` that `SetControllerReference` fills in. -/
structure OwnerReference where
  Kind : String
  Name : String
  UID : String
  Controller : Bool
deriving DecidableEq

/-- The part of `metav1.ObjectMeta` the reconcilers read or write. -/
structure ObjectMeta where
  Name : String
  Namespace : String
  UID : String
  Labels : GoMap
  Annotations : GoMap
  OwnerReferences : List OwnerReference

/-- Go `types.NamespacedName`, the key of an object in the store. -/
structure NamespacedName where
  Namespace : String
  Name : String
deriving DecidableEq

/-- The store key of an object with the given metadata. -/
def ObjectMeta.key (m : ObjectMeta) : NamespacedName :=
  ⟨m.Namespace, m.Name⟩

/-- Go `corev1.ConfigMap`. -/
structure ConfigMap where
  ObjectMeta : ObjectMeta
  Data : GoMap
  BinaryData : ByteMap

/-- Go `corev1.Secret`. -/
structure Secret where
  ObjectMeta : ObjectMeta
  Type_ : String
  Data : ByteMap
  StringData : GoMap

/-! ## `pkg/utils/utils.go` -/

/-- CopyAnnotationsFromMeta will copy all relevant annotations from source ObjectMeta. -/
def CopyAnnotationsFromMeta (src : ObjectMeta) : GoMap :=
  let annotations : GoMap := ∅
  if mapIndex src.Annotations AnnotationReflectAnnotations ≠ "" then
    src.Annotations.foldl
      (fun annotations key value =>
        if HasPrefix key Prefix then annotations else annotations.insert key value)
      annotations
  else annotations

/-- CopyLabelsFromMeta will copy all labels from source ObjectMeta. -/
def CopyLabelsFromMeta (src : ObjectMeta) : GoMap :=
  let labels : GoMap := ∅
  let labels :=
    if mapIndex src.Annotations AnnotationReflectLabels ≠ "" then
      src.Labels.foldl (fun labels key value => labels.insert key value) labels
    else labels
  let labels := labels.insert LabelSourceName src.Name
  let labels := labels.insert LabelSourceNamespace src.Namespace
  labels

/-- GetReflectNamespaceList splits annotation value into a namespace list; `none` is
Go's `nil` slice. -/
def GetReflectNamespaceList (reflectNamespaces : String) : Option (List String) :=
  if reflectNamespaces = "" then none
  else some ((Split reflectNamespaces).map TrimSpace)

/-- The elements a Go `range` visits on a slice that may be `nil`. -/
def sliceItems (xs : Option (List String)) : List String :=
  xs.getD []

/-- StringSliceContains returns if a string slice contains a particular string. -/
def StringSliceContains : List String → String → Bool
  | [], _ => false
  | str :: haystack, needle =>
    if str = needle then true else StringSliceContains haystack needle

/-- HasControllerAnnotations checks if ObjectMeta has reflect-namespaces annotation. -/
def HasControllerAnnotations (m : ObjectMeta) : Bool :=
  decide (mapIndex m.Annotations AnnotationReflectNamespaces ≠ "")

/-- HasSourceLabels checks if ObjectMeta has source-namespace and source-name labels. -/
def HasSourceLabels (m : ObjectMeta) : Bool :=
  let labels := m.Labels
  decide (mapIndex labels LabelSourceName ≠ "") && decide (mapIndex labels LabelSourceNamespace ≠ "")

/-- Modelled from the spec: `utils.DeleteSourceLabels`, called by the Secret reconciler
but absent from `pkg/utils/utils.go`.  The spec (section 4.4, step 6) has the pass
"strip the copy's provenance labels": both provenance label keys are deleted from the
label map, everything else is kept. -/
def DeleteSourceLabels (m : ObjectMeta) : ObjectMeta :=
  { m with Labels := (m.Labels.erase LabelSourceName).erase LabelSourceNamespace }

/-! ## Errors and the object store port (`client.Client`) -/

/-- A Go `error` returned by a store call or by `SetControllerReference`. -/
inductive GoError where
  | NotFound
  | AlreadyExists
  | Conflict
  | Other (msg : String)
deriving DecidableEq

/-- Go `errors.IsNotFound`. -/
def IsNotFound : GoError → Bool
  | .NotFound => true
  | _ => false

/-- The controller-runtime `client.Client` over a store state `σ` holding objects of
kind `α`.  Every call returns its result together with the next store state. -/
structure Client (σ α : Type) where
  Get : NamespacedName → σ → Except GoError α × σ
  List : GoMap → σ → Except GoError (List α) × σ
  Create : α → σ → Option GoError × σ
  Update : α → σ → Option GoError × σ
  Delete : α → σ → Option GoError × σ

/-- One store call together with what it returned. -/
inductive Event (α : Type) where
  | Get (key : NamespacedName) (res : Except GoError α)
  | List (labelSelector : GoMap) (res : Except GoError (List α))
  | Create (obj : α) (err : Option GoError)
  | Update (obj : α) (err : Option GoError)
  | Delete (obj : α) (err : Option GoError)

/-- The client `c` with a log of the calls issued so far next to its state. -/
def traced {σ α : Type} (c : Client σ α) : Client (σ × List (Event α)) α where
  Get key st := ((c.Get key st.1).1, ((c.Get key st.1).2, st.2 ++ [Event.Get key (c.Get key st.1).1]))
  List sel st := ((c.List sel st.1).1, ((c.List sel st.1).2, st.2 ++ [Event.List sel (c.List sel st.1).1]))
  Create obj st :=
    ((c.Create obj st.1).1, ((c.Create obj st.1).2, st.2 ++ [Event.Create obj (c.Create obj st.1).1]))
  Update obj st :=
    ((c.Update obj st.1).1, ((c.Update obj st.1).2, st.2 ++ [Event.Update obj (c.Update obj st.1).1]))
  Delete obj st :=
    ((c.Delete obj st.1).1, ((c.Delete obj st.1).2, st.2 ++ [Event.Delete obj (c.Delete obj st.1).1]))

/-- The error a store call failed with, the benign `NotFound` of a `Get` or `List`
apart (both reconcilers test it with `errors.IsNotFound`). -/
def Event.failure {α : Type} : Event α → Option GoError
  | .Get _ (.error e) => if IsNotFound e then none else some e
  | .Get _ (.ok _) => none
  | .List _ (.error e) => if IsNotFound e then none else some e
  | .List _ (.ok _) => none
  | .Create _ e => e
  | .Update _ e => e
  | .Delete _ e => e

/-! ## Label selectors

Both reconcilers pass `client.MatchingLabels{...}` to `List`.  The sources are written
against the early controller-runtime API (`Reconcile(request)` without a context,
`e.MetaOld` in the predicates), where `MatchingLabels` builds its selector with
`labels.SelectorFromSet`: one equality requirement for each pair of the map, and the
empty selector, which matches every object, as soon as one pair is not a valid
requirement. -/

/-- A character of `[A-Za-z0-9]`. -/
def isAlnum (c : Char) : Bool :=
  let n := c.toNat
  (0x30 ≤ n && n ≤ 0x39) || (0x41 ≤ n && n ≤ 0x5a) || (0x61 ≤ n && n ≤ 0x7a)

/-- A character of `[a-z0-9]`. -/
def isLowerAlnum (c : Char) : Bool :=
  let n := c.toNat
  (0x30 ≤ n && n ≤ 0x39) || (0x61 ≤ n && n ≤ 0x7a)

/-- The pieces of a character sequence between the occurrences of `sep`. -/
def splitChar (sep : Char) : List Char → List (List Char)
  | [] => [[]]
  | c :: cs =>
    if c = sep then [] :: splitChar sep cs
    else
      match splitChar sep cs with
      | [] => [[c]]
      | p :: ps => (c :: p) :: ps

/-- The whole sequence matches `([A-Za-z0-9][-A-Za-z0-9_.]*)?[A-Za-z0-9]`. -/
def matchesQualifiedName (cs : List Char) : Bool :=
  match cs with
  | [] => false
  | c :: _ =>
    isAlnum c && cs.all (fun c => isAlnum c || c == '-' || c == '_' || c == '.') &&
      (cs.getLast?.map isAlnum).getD false

/-- The whole sequence matches `[a-z0-9]([-a-z0-9]*[a-z0-9])?`. -/
def matchesDNS1123Label (cs : List Char) : Bool :=
  match cs with
  | [] => false
  | c :: _ =>
    isLowerAlnum c && cs.all (fun c => isLowerAlnum c || c == '-') &&
      (cs.getLast?.map isLowerAlnum).getD false

/-- Library `validation.IsDNS1123Subdomain` reports no error: at most 253 bytes, and
labels of `[a-z0-9]([-a-z0-9]*[a-z0-9])?` joined by dots. -/
def IsDNS1123Subdomain (value : String) : Bool :=
  decide (value.utf8ByteSize ≤ 253) && (splitChar '.' value.data).all matchesDNS1123Label

/-- Library `validation.IsQualifiedName` reports no error: a name part of at most 63
bytes matching `([A-Za-z0-9][-A-Za-z0-9_.]*)?[A-Za-z0-9]`, after an optional DNS subdomain
and a slash. -/
def IsQualifiedName (value : String) : Bool :=
  match splitChar '/' value.data with
  | [name] => decide ((String.mk name).utf8ByteSize ≤ 63) && matchesQualifiedName name
  | [pre, name] =>
    IsDNS1123Subdomain (String.mk pre) &&
      decide ((String.mk name).utf8ByteSize ≤ 63) && matchesQualifiedName name
  | _ => false

/-- Library `validation.IsValidLabelValue` reports no error: at most 63 bytes, and empty
or matching `([A-Za-z0-9][-A-Za-z0-9_.]*)?[A-Za-z0-9]`. -/
def IsValidLabelValue (value : String) : Bool :=
  decide (value.utf8ByteSize ≤ 63) && (value.data.isEmpty || matchesQualifiedName value.data)

/-- Library `labels.SelectorFromSet`, the selector behind `client.MatchingLabels`: the
requirements `key = value` of the set when `labels.NewRequirement` accepts every pair
(a qualified name as key, a valid label value as value), and the empty selector
otherwise. -/
def SelectorFromSet (ls : GoMap) : GoMap :=
  if ls.entries.all (fun e => IsQualifiedName e.1 && IsValidLabelValue e.2) then ls else ∅

/-! ## The in-memory store

A finite map keyed by (namespace, name), kept as a list of objects with pairwise
distinct keys.  No call fails for a reason of its own: `Get`, `Update` and `Delete`
report `NotFound` exactly when the key is absent, `Create` reports `AlreadyExists`
exactly when it is present. -/

/-- The selector's `Matches`: every requirement of the selector is a label of the object
with that very value.  The empty selector matches every object. -/
def matchesLabels (labelSelector labels : GoMap) : Bool :=
  labelSelector.entries.all (fun e => decide (labels.lookup e.1 = some e.2))

/-- The object stored under a key. -/
def storeLookup {α : Type} (getMeta : α → ObjectMeta) (s : List α) (k : NamespacedName) : Option α :=
  s.find? (fun o => decide ((getMeta o).key = k))

/-- The keys of a store are pairwise distinct. -/
def StoreWF {α : Type} (getMeta : α → ObjectMeta) (s : List α) : Prop :=
  (s.map (fun o => (getMeta o).key)).Nodup

instance {α : Type} (getMeta : α → ObjectMeta) (s : List α) : Decidable (StoreWF getMeta s) :=
  inferInstanceAs (Decidable (List.Nodup _))

/-- The in-memory client. -/
def memClient {α : Type} (getMeta : α → ObjectMeta) : Client (List α) α where
  Get key s :=
    match storeLookup getMeta s key with
    | some o => (.ok o, s)
    | none => (.error .NotFound, s)
  List sel s := (.ok (s.filter (fun o => matchesLabels (SelectorFromSet sel) (getMeta o).Labels)), s)
  Create obj s :=
    match storeLookup getMeta s (getMeta obj).key with
    | some _ => (some .AlreadyExists, s)
    | none => (none, s ++ [obj])
  Update obj s :=
    match storeLookup getMeta s (getMeta obj).key with
    | some _ => (none, s.map (fun o => if (getMeta o).key = (getMeta obj).key then obj else o))
    | none => (some .NotFound, s)
  Delete obj s :=
    match storeLookup getMeta s (getMeta obj).key with
    | some _ => (none, s.filter (fun o => decide ((getMeta o).key ≠ (getMeta obj).key)))
    | none => (some .NotFound, s)

/-- The in-memory client losing every create race: `Create` always reports
`AlreadyExists`, as if another writer had stored the object just before. -/
def createRaceClient {α : Type} (getMeta : α → ObjectMeta) : Client (List α) α :=
  { memClient getMeta with Create := fun _ s => (some .AlreadyExists, s) }

/-- The in-memory client losing every delete race: `Delete` always reports `NotFound`,
as if another writer had removed the object just before. -/
def deleteRaceClient {α : Type} (getMeta : α → ObjectMeta) : Client (List α) α :=
  { memClient getMeta with Delete := fun _ s => (some .NotFound, s) }

/-! ## `controllerutil.SetControllerReference` -/

/-- The owner references `a` and `b` name the same owner. -/
def referSameObject (a b : OwnerReference) : Bool :=
  decide (a.Kind = b.Kind) && decide (a.Name = b.Name)

/-- The loop of `SetControllerReference` over the existing references: the index of
the reference to the same owner, or the error when another controller owns the object. -/
def findControllerRef (ref : OwnerReference) : List OwnerReference → Nat → Option Nat → Except GoError (Option Nat)
  | [], _, fi => .ok fi
  | r :: rs, i, fi =>
    if referSameObject ref r then findControllerRef ref rs (i + 1) (some i)
    else if r.Controller then .error (.Other "object is already owned by another controller")
    else findControllerRef ref rs (i + 1) fi

/-- The library call `controllerutil.SetControllerReference(owner, object, scheme)` for
an owner of the given kind: the owner becomes the controller reference of `object`,
replacing an earlier reference to the same owner; the call fails only when another
controller already owns `object`. -/
def SetControllerReference (owner : ObjectMeta) (kind : String) (object : ObjectMeta) :
    Except GoError ObjectMeta :=
  let ref : OwnerReference := { Kind := kind, Name := owner.Name, UID := owner.UID, Controller := true }
  let existingRefs := object.OwnerReferences
  match findControllerRef ref existingRefs 0 none with
  | .error err => .error err
  | .ok none => .ok { object with OwnerReferences := existingRefs ++ [ref] }
  | .ok (some fi) => .ok { object with OwnerReferences := existingRefs.set fi ref }

/-! ## `pkg/controller/configmap/configmap_controller.go` -/

/-- newConfigMapFrom returns a DeepCopy of source ConfigMap with Namespace set to nil. -/
def newConfigMapFrom (src : ConfigMap) : ConfigMap :=
  { ObjectMeta :=
      { Name := src.ObjectMeta.Name
        Namespace := ""
        UID := ""
        Labels := CopyLabelsFromMeta src.ObjectMeta
        Annotations := CopyAnnotationsFromMeta src.ObjectMeta
        OwnerReferences := [] }
    Data := src.Data
    BinaryData := src.BinaryData }

/-- The assignment `configMap.Namespace = namespace`. -/
def ConfigMap.setNamespace (configMap : ConfigMap) (ns : String) : ConfigMap :=
  { configMap with ObjectMeta := { configMap.ObjectMeta with Namespace := ns } }

namespace ReconcileConfigMap

/-- The loop "create/update ConfigMaps in reflect namespaces" of `Reconcile`. -/
def reflectLoop {σ : Type} (c : Client σ ConfigMap) :
    ConfigMap → List String → σ → Option GoError × σ
  | _, [], s => (none, s)
  | configMap, ns :: namespaces, s =>
    if ns = "" then reflectLoop c configMap namespaces s
    else
      let configMap := configMap.setNamespace ns
      -- Check if ConfigMap already exists
      match c.Get ⟨configMap.ObjectMeta.Namespace, configMap.ObjectMeta.Name⟩ s with
      | (.error err, s) =>
        if IsNotFound err then
          match c.Create configMap s with
          | (some err, s) => (some err, s)
          | (none, s) =>
            match c.Update configMap s with
            | (some err, s) => (some err, s)
            | (none, s) => reflectLoop c configMap namespaces s
        else (some err, s)
      | (.ok _, s) =>
        -- ConfigMap already exists - perform update
        match c.Update configMap s with
        | (some err, s) => (some err, s)
        | (none, s) => reflectLoop c configMap namespaces s

/-- The loop "delete any dangling ConfigMaps" of `Reconcile`. -/
def deleteLoop {σ : Type} (c : Client σ ConfigMap) (namespaces : List String) :
    List ConfigMap → σ → Option GoError × σ
  | [], s => (none, s)
  | configMap :: items, s =>
    if !StringSliceContains namespaces configMap.ObjectMeta.Namespace then
      match c.Delete configMap s with
      | (some err, s) => (some err, s)
      | (none, s) => deleteLoop c namespaces items s
    else deleteLoop c namespaces items s

/-- The label selector of the dangling-copy `List`. -/
def labelSelector (inst : ObjectMeta) : GoMap :=
  ((∅ : GoMap).insert LabelSourceName inst.Name).insert LabelSourceNamespace inst.Namespace

/-- `(r *ReconcileConfigMap) Reconcile`: the returned error (`none` is `nil`) and the
store state after the pass. -/
def Reconcile {σ : Type} (c : Client σ ConfigMap) (request : NamespacedName) (s : σ) :
    Option GoError × σ :=
  -- Fetch the ConfigMap instance
  match c.Get request s with
  | (.error err, s) => if IsNotFound err then (none, s) else (some err, s)
  | (.ok inst, s) =>
    -- check if ConfigMap needs to be reflected
    match GetReflectNamespaceList (mapIndex inst.ObjectMeta.Annotations AnnotationReflectNamespaces) with
    | none => (none, s)
    | some namespaces =>
      let configMap := newConfigMapFrom inst
      -- Set ConfigMap instance as the owner and controller
      match SetControllerReference inst.ObjectMeta "ConfigMap" configMap.ObjectMeta with
      | .error err => (some err, s)
      | .ok m =>
        let configMap := { configMap with ObjectMeta := m }
        match reflectLoop c configMap namespaces s with
        | (some err, s) => (some err, s)
        | (none, s) =>
          match c.List (labelSelector inst.ObjectMeta) s with
          | (.error err, s) => if IsNotFound err then (none, s) else (some err, s)
          | (.ok items, s) => deleteLoop c namespaces items s

end ReconcileConfigMap

/-! ## `pkg/controller/secret/secret_controller.go` -/

/-- newSecretFrom returns a DeepCopy of source Secret with Namespace set to nil. -/
def newSecretFrom (src : Secret) : Secret :=
  { ObjectMeta :=
      { Name := src.ObjectMeta.Name
        Namespace := ""
        UID := ""
        Labels := CopyLabelsFromMeta src.ObjectMeta
        Annotations := CopyAnnotationsFromMeta src.ObjectMeta
        OwnerReferences := [] }
    Type_ := src.Type_
    Data := src.Data
    StringData := src.StringData }

/-- The assignment `secret.Namespace = namespace`. -/
def Secret.setNamespace (secret : Secret) (ns : String) : Secret :=
  { secret with ObjectMeta := { secret.ObjectMeta with Namespace := ns } }

namespace ReconcileSecret

/-- The loop "create/update Secrets in reflect namespaces" of `Reconcile`. -/
def reflectLoop {σ : Type} (c : Client σ Secret) (inst : Secret) :
    Secret → List String → σ → Option GoError × σ
  | _, [], s => (none, s)
  | secret, ns :: namespaces, s =>
    if ns = "" then reflectLoop c inst secret namespaces s
    else if ns = inst.ObjectMeta.Namespace then reflectLoop c inst secret namespaces s
    else
      let secret := secret.setNamespace ns
      -- Check if Secret already exists
      match c.Get ⟨secret.ObjectMeta.Namespace, secret.ObjectMeta.Name⟩ s with
      | (.error err, s) =>
        if IsNotFound err then
          match c.Create secret s with
          | (some err, s) => (some err, s)
          | (none, s) => reflectLoop c inst secret namespaces s
        else (some err, s)
      | (.ok _, s) =>
        -- Secret already exists - perform update
        match c.Update secret s with
        | (some err, s) => (some err, s)
        | (none, s) => reflectLoop c inst secret namespaces s

/-- The loop "delete any dangling Secrets" of `Reconcile`. -/
def deleteLoop {σ : Type} (c : Client σ Secret) (namespaces : List String) :
    List Secret → σ → Option GoError × σ
  | [], s => (none, s)
  | secret :: items, s =>
    if !StringSliceContains namespaces secret.ObjectMeta.Namespace then
      -- ensure that delete event doesn't reconcile the source secret
      let secret := { secret with ObjectMeta := DeleteSourceLabels secret.ObjectMeta }
      match c.Update secret s with
      | (some err, s) => (some err, s)
      | (none, s) =>
        match c.Delete secret s with
        | (some err, s) => (some err, s)
        | (none, s) => deleteLoop c namespaces items s
    else deleteLoop c namespaces items s

/-- The label selector of the dangling-copy `List`. -/
def labelSelector (inst : ObjectMeta) : GoMap :=
  ((∅ : GoMap).insert LabelSourceName inst.Name).insert LabelSourceNamespace inst.Namespace

/-- `(r *ReconcileSecret) Reconcile`: the returned error (`none` is `nil`) and the
store state after the pass. -/
def Reconcile {σ : Type} (c : Client σ Secret) (request : NamespacedName) (s : σ) :
    Option GoError × σ :=
  -- Fetch the Secret instance
  match c.Get request s with
  | (.error err, s) => if IsNotFound err then (none, s) else (some err, s)
  | (.ok inst, s) =>
    let secret := newSecretFrom inst
    -- Set Secret instance as the owner and controller
    match SetControllerReference inst.ObjectMeta "Secret" secret.ObjectMeta with
    | .error err => (some err, s)
    | .ok m =>
      let secret := { secret with ObjectMeta := m }
      -- create/update Secrets in reflect namespaces
      let namespaces :=
        GetReflectNamespaceList (mapIndex inst.ObjectMeta.Annotations AnnotationReflectNamespaces)
      match reflectLoop c inst secret (sliceItems namespaces) s with
      | (some err, s) => (some err, s)
      | (none, s) =>
        match c.List (labelSelector inst.ObjectMeta) s with
        | (.error err, s) => if IsNotFound err then (none, s) else (some err, s)
        | (.ok items, s) => deleteLoop c (sliceItems namespaces) items s

end ReconcileSecret


/-! ## Reference definitions and observations used by the specification -/

/-- The projected labels as the specification words them: the source's labels when the
reflect-labels annotation is set, the empty map otherwise, overlaid with the two
provenance labels. -/
def referenceLabels (src : ObjectMeta) : GoMap :=
  let inherited : GoMap :=
    if mapIndex src.Annotations AnnotationReflectLabels ≠ "" then src.Labels else ∅
  (inherited.insert LabelSourceName src.Name).insert LabelSourceNamespace src.Namespace

/-- The object carries the provenance labels of the source `src`: what the selector of
the dangling-copy `List` tests as long as it keeps its two requirements. -/
def carriesSourceLabels (src o : ObjectMeta) : Bool :=
  decide (o.Labels.lookup LabelSourceName = some src.Name) &&
    decide (o.Labels.lookup LabelSourceNamespace = some src.Namespace)

/-- The name and the namespace of the source are valid label values, so that the
selector of the dangling-copy `List` keeps its two requirements. -/
def validSelector (src : ObjectMeta) : Bool :=
  IsValidLabelValue src.Name && IsValidLabelValue src.Namespace

/-- The dangling-copy `List` for the source `src` returns the object: it carries the
provenance labels of `src`, or the selector has lost its requirements. -/
def selectedBy (src o : ObjectMeta) : Bool :=
  !validSelector src || carriesSourceLabels src o

/-- The entries of the parsed reflect-namespaces list of the source, as they stand. -/
def reflectEntries (src : ObjectMeta) : List String :=
  sliceItems (GetReflectNamespaceList (mapIndex src.Annotations AnnotationReflectNamespaces))

/-- The desired set of the specification: the entries of the reflect-namespaces
annotation, minus empty strings and minus the source's own namespace. -/
def desiredSet (src : ObjectMeta) : List String :=
  (sliceItems (GetReflectNamespaceList (mapIndex src.Annotations AnnotationReflectNamespaces))).filter
    (fun n => decide (n ≠ "") && decide (n ≠ src.Namespace))

/-- A client whose every call fails with the given error. -/
def failingClient {α : Type} (err : GoError) : Client Unit α where
  Get _ s := (.error err, s)
  List _ s := (.error err, s)
  Create _ s := (some err, s)
  Update _ s := (some err, s)
  Delete _ s := (some err, s)

/-! ## Sample objects -/

/-- A map built from a list of pairs. -/
def mapOf (entries : List (String × String)) : GoMap :=
  entries.foldr (fun e m => m.insert e.1 e.2) ∅

/-- Metadata with the given key, labels and annotations. -/
def sampleMeta (ns name : String) (labels annotations : List (String × String)) : ObjectMeta :=
  { Name := name, Namespace := ns, UID := "", Labels := mapOf labels,
    Annotations := mapOf annotations, OwnerReferences := [] }

/-- A ConfigMap with the given key, labels and annotations and one data entry. -/
def sampleConfigMap (ns name : String) (labels annotations : List (String × String)) : ConfigMap :=
  { ObjectMeta := sampleMeta ns name labels annotations, Data := mapOf [("k", "v")], BinaryData := ∅ }

/-- A Secret with the given key, labels and annotations and one data entry. -/
def sampleSecret (ns name : String) (labels annotations : List (String × String)) : Secret :=
  { ObjectMeta := sampleMeta ns name labels annotations, Type_ := "Opaque", Data := ∅,
    StringData := mapOf [("k", "v")] }

/-- The provenance labels of a copy of the source `name` in namespace `ns`. -/
def provenance (ns name : String) : List (String × String) :=
  [(LabelSourceName, name), (LabelSourceNamespace, ns)]

/-- Every failed call in the event list is its last call, and `res` is its error. -/
def AbortsOnFailure {α : Type} (evs : List (Event α)) (res : Option GoError) : Prop :=
  ∀ pre ev post e, evs = pre ++ ev :: post → ev.failure = some e → post = [] ∧ res = some e

/-- The object the ConfigMap pass writes into namespace `ns`: the projection of the
source `inst` with `inst` as its controller reference. -/
def ReconcileConfigMap.projection (inst : ConfigMap) (ns : String) : ConfigMap :=
  ({ newConfigMapFrom inst with
      ObjectMeta :=
        { (newConfigMapFrom inst).ObjectMeta with
          OwnerReferences :=
            [{ Kind := "ConfigMap", Name := inst.ObjectMeta.Name, UID := inst.ObjectMeta.UID,
               Controller := true }] } } : ConfigMap).setNamespace ns

/-- The object the Secret pass writes into namespace `ns`: the projection of the source
`inst` with `inst` as its controller reference. -/
def ReconcileSecret.projection (inst : Secret) (ns : String) : Secret :=
  ({ newSecretFrom inst with
      ObjectMeta :=
        { (newSecretFrom inst).ObjectMeta with
          OwnerReferences :=
            [{ Kind := "Secret", Name := inst.ObjectMeta.Name, UID := inst.ObjectMeta.UID,
               Controller := true }] } } : Secret).setNamespace ns

/-- The ConfigMap `ns-a/cm1` reflected into the namespaces of `reflectNamespaces`. -/
def cmSource (reflectNamespaces : String) : ConfigMap :=
  sampleConfigMap "ns-a" "cm1" [] [(AnnotationReflectNamespaces, reflectNamespaces)]

/-- A reflected copy of `ns-a/cm1` in namespace `ns`. -/
def cmCopy (ns : String) : ConfigMap :=
  sampleConfigMap ns "cm1" (provenance "ns-a" "cm1") []

/-- The Secret `ns-a/s1` reflected into the namespaces of `reflectNamespaces`. -/
def secSource (reflectNamespaces : String) : Secret :=
  sampleSecret "ns-a" "s1" [] [(AnnotationReflectNamespaces, reflectNamespaces)]

/-- A reflected copy of `ns-a/s1` in namespace `ns`. -/
def secCopy (ns : String) : Secret :=
  sampleSecret ns "s1" (provenance "ns-a" "s1") []

/-- The copy `secCopy ns` with its provenance labels stripped. -/
def secCopyStripped (ns : String) : Secret :=
  { secCopy ns with ObjectMeta := DeleteSourceLabels (secCopy ns).ObjectMeta }

/-- An object in the source's own namespace `ns-a`, under another name, that carries the
provenance labels of the Secret `ns-a/s1`. -/
def secStray : Secret :=
  sampleSecret "ns-a" "s1-old" (provenance "ns-a" "s1") []

/-- The ConfigMap `ns-a/cm1` without any annotation. -/
def cmPlain : ConfigMap :=
  sampleConfigMap "ns-a" "cm1" [] []

/-- The Secret `ns-a/s1` without any annotation. -/
def secPlain : Secret :=
  sampleSecret "ns-a" "s1" [] []

/-! ## The watches registered by `add`

Both `add` functions register a watch on source objects, whose events are filtered by
predicates on the object metadata, and a watch on deletions of reflected copies, whose
events are mapped to the reconcile request of the copy's source. -/

namespace ReconcileConfigMap

/-- The `CreateFunc` of the source watch. -/
def sourceCreateFunc (meta : ObjectMeta) : Bool :=
  HasControllerAnnotations meta

/-- The `UpdateFunc` of the source watch, on `e.MetaOld` and `e.MetaNew`. -/
def sourceUpdateFunc (metaOld _metaNew : ObjectMeta) : Bool :=
  HasControllerAnnotations metaOld

/-- The `DeleteFunc` of the source watch. -/
def sourceDeleteFunc (meta : ObjectMeta) : Bool :=
  HasControllerAnnotations meta

/-- The `mapper` of the watch on reflected ConfigMaps: the requests enqueued for an
object. -/
def mapper (meta : ObjectMeta) : List NamespacedName :=
  let labels := meta.Labels
  [{ Name := mapIndex labels LabelSourceName, Namespace := mapIndex labels LabelSourceNamespace }]

/-- The `DeleteFunc` of the watch on reflected ConfigMaps. -/
def reflectedDeleteFunc (meta : ObjectMeta) : Bool :=
  HasSourceLabels meta && !HasControllerAnnotations meta

end ReconcileConfigMap

namespace ReconcileSecret

/-- The `CreateFunc` of the source watch. -/
def sourceCreateFunc (meta : ObjectMeta) : Bool :=
  HasControllerAnnotations meta

/-- The `UpdateFunc` of the source watch, on `e.MetaOld` and `e.MetaNew`. -/
def sourceUpdateFunc (metaOld metaNew : ObjectMeta) : Bool :=
  HasControllerAnnotations metaOld || HasControllerAnnotations metaNew

/-- The `DeleteFunc` of the source watch. -/
def sourceDeleteFunc (meta : ObjectMeta) : Bool :=
  HasControllerAnnotations meta

/-- The `mapper` of the watch on reflected Secrets: the requests enqueued for an
object. -/
def mapper (meta : ObjectMeta) : List NamespacedName :=
  let labels := meta.Labels
  [{ Name := mapIndex labels LabelSourceName, Namespace := mapIndex labels LabelSourceNamespace }]

/-- The `DeleteFunc` of the watch on reflected Secrets. -/
def reflectedDeleteFunc (meta : ObjectMeta) : Bool :=
  HasSourceLabels meta && !HasControllerAnnotations meta

end ReconcileSecret

/-! ## Further observations used by the specification -/

/-- The sequence `t` is `p` with its leading and trailing white space removed: `p` is
`t` between two runs of white space, and `t` neither starts nor ends with white space. -/
def IsTrimOf (t p : List Char) : Prop :=
  (∃ a b, p = a ++ t ++ b ∧ (∀ c ∈ a, isSpace c = true) ∧ (∀ c ∈ b, isSpace c = true)) ∧
  (∀ c, t.head? = some c → isSpace c = false) ∧
  (∀ c, t.getLast? = some c → isSpace c = false)

/-- The name of the store operation of an event. -/
def Event.opName {α : Type} : Event α → String
  | .Get _ _ => "Get"
  | .List _ _ => "List"
  | .Create _ _ => "Create"
  | .Update _ _ => "Update"
  | .Delete _ _ => "Delete"

/-- The key a store operation addresses, `none` for `List`. -/
def Event.key {α : Type} (getMeta : α → ObjectMeta) : Event α → Option NamespacedName
  | .Get key _ => some key
  | .List _ _ => none
  | .Create obj _ => some (getMeta obj).key
  | .Update obj _ => some (getMeta obj).key
  | .Delete obj _ => some (getMeta obj).key

/-- The key a `Delete` call addresses, `none` for every other call. -/
def Event.deletedKey {α : Type} (getMeta : α → ObjectMeta) : Event α → Option NamespacedName
  | .Delete obj _ => some (getMeta obj).key
  | _ => none

/-- The keys the `Delete` calls of an event list address, in the order of the calls. -/
def deletedKeys {α : Type} (getMeta : α → ObjectMeta) (evs : List (Event α)) :
    List NamespacedName :=
  evs.filterMap (Event.deletedKey getMeta)

/-- The store state after the call of an event is issued on `s`. -/
def Event.apply {σ α : Type} (c : Client σ α) : Event α → σ → σ
  | .Get key _, s => (c.Get key s).2
  | .List sel _, s => (c.List sel s).2
  | .Create obj _, s => (c.Create obj s).2
  | .Update obj _, s => (c.Update obj s).2
  | .Delete obj _, s => (c.Delete obj s).2

/-- The store state after the calls of an event list are issued in order on `s`. -/
def replay {σ α : Type} (c : Client σ α) (evs : List (Event α)) (s : σ) : σ :=
  evs.foldl (fun s ev => ev.apply c s) s

/-- The in-memory client whose `List` reports `NotFound`. -/
def listNotFoundClient {α : Type} (getMeta : α → ObjectMeta) : Client (List α) α :=
  { memClient getMeta with List := fun _ s => (.error .NotFound, s) }

/-- The calls the ConfigMap delete loop issues for the listed items when none of them
fails: one `Delete` for each item whose namespace is not an entry of the list. -/
def ReconcileConfigMap.danglingCalls (namespaces : List String) (items : List ConfigMap) :
    List (Event ConfigMap) :=
  (items.filter (fun o => !StringSliceContains namespaces o.ObjectMeta.Namespace)).map
    (fun o => Event.Delete o none)

/-- The calls the Secret delete loop issues for the listed items when none of them
fails: for each item whose namespace is not an entry of the list, an `Update` and a
`Delete` of the item with its provenance labels stripped. -/
def ReconcileSecret.danglingCalls (namespaces : List String) (items : List Secret) :
    List (Event Secret) :=
  ((items.filter (fun o => !StringSliceContains namespaces o.ObjectMeta.Namespace)).map
    (fun o =>
      [Event.Update { o with ObjectMeta := DeleteSourceLabels o.ObjectMeta } none,
       Event.Delete { o with ObjectMeta := DeleteSourceLabels o.ObjectMeta } none])).flatten

/-- The in-memory client whose `Update` fails with a server error. -/
def updateFailClient {α : Type} (getMeta : α → ObjectMeta) : Client (List α) α :=
  { memClient getMeta with Update := fun _ s => (some (.Other "internal error"), s) }

/-- An object in the source's own namespace `ns-a`, under another name, that carries the
provenance labels of the ConfigMap `ns-a/cm1`. -/
def cmStray : ConfigMap :=
  sampleConfigMap "ns-a" "cm1-old" (provenance "ns-a" "cm1") []

/-- A name of 64 characters: a valid object name, but one character too long for a label
value. -/
def longName : String :=
  "a123456789b123456789c123456789d123456789e123456789f123456789g123"

/-- A ConfigMap `ns-b/cm1` that no reconciler wrote: no labels, a payload of its own. -/
def cmUnrelated : ConfigMap :=
  { ObjectMeta := sampleMeta "ns-b" "cm1" [] [], Data := mapOf [("old", "data")], BinaryData := ∅ }

/-- A Secret `ns-b/s1` that no reconciler wrote: no labels, a payload of its own. -/
def secUnrelated : Secret :=
  { ObjectMeta := sampleMeta "ns-b" "s1" [] [], Type_ := "kubernetes.io/tls", Data := ∅,
    StringData := mapOf [("old", "data")] }
/-! ## The in-memory store: lookups after each call -/

theorem storeLookup_key {α : Type} (getMeta : α → ObjectMeta) {s : List α} {k : NamespacedName}
    {o : α} (h : storeLookup getMeta s k = some o) : (getMeta o).key = k := by
  have := List.find?_some h
  simpa using this

theorem storeLookup_eq_none {α : Type} (getMeta : α → ObjectMeta) (s : List α)
    (k : NamespacedName) :
    storeLookup getMeta s k = none ↔ ∀ o ∈ s, (getMeta o).key ≠ k := by
  simp [storeLookup, List.find?_eq_none]

theorem storeLookup_of_mem {α : Type} (getMeta : α → ObjectMeta) {s : List α} {o : α}
    (hwf : StoreWF getMeta s) (h : o ∈ s) : storeLookup getMeta s (getMeta o).key = some o := by
  induction s with
  | nil => cases h
  | cons x t ih =>
    unfold StoreWF at hwf
    rw [List.map_cons, List.nodup_cons] at hwf
    rcases List.mem_cons.mp h with rfl | ht
    · simp [storeLookup]
    · have hne : (getMeta x).key ≠ (getMeta o).key := by
        intro e
        exact hwf.1 (e ▸ List.mem_map_of_mem (fun o => (getMeta o).key) ht)
      have := ih hwf.2 ht
      simpa [storeLookup, List.find?_cons, hne] using this

theorem storeWF_filter {α : Type} (getMeta : α → ObjectMeta) (q : α → Bool) {s : List α}
    (hwf : StoreWF getMeta s) : StoreWF getMeta (s.filter q) :=
  List.Nodup.sublist (List.Sublist.map _ (List.filter_sublist s)) hwf

theorem storeLookup_filter {α : Type} (getMeta : α → ObjectMeta) (q : α → Bool) {s : List α}
    (hwf : StoreWF getMeta s) (k : NamespacedName) :
    storeLookup getMeta (s.filter q) k = (storeLookup getMeta s k).filter q := by
  induction s with
  | nil => simp [storeLookup]
  | cons x t ih =>
    unfold StoreWF at hwf
    rw [List.map_cons, List.nodup_cons] at hwf
    by_cases hk : (getMeta x).key = k
    · have hs : storeLookup getMeta (x :: t) k = some x := by simp [storeLookup, hk]
      rw [hs]
      by_cases hq : q x = true
      · simp [storeLookup, List.filter_cons, hq, hk, Option.filter]
      · have hnone : storeLookup getMeta (t.filter q) k = none := by
          rw [storeLookup_eq_none]
          intro o ho e
          exact hwf.1 (hk ▸ e ▸ List.mem_map_of_mem (fun o => (getMeta o).key) (List.mem_filter.mp ho).1)
        simp [List.filter_cons, hq, hnone, Option.filter]
    · have hs : storeLookup getMeta (x :: t) k = storeLookup getMeta t k := by
        simp [storeLookup, List.find?_cons, hk]
      rw [hs, ← ih hwf.2]
      by_cases hq : q x = true
      · simp [storeLookup, List.filter_cons, hq, List.find?_cons, hk]
      · simp [List.filter_cons, hq]

theorem storeWF_replace {α : Type} (getMeta : α → ObjectMeta) (o : α) {s : List α}
    (hwf : StoreWF getMeta s) :
    StoreWF getMeta (s.map (fun x => if (getMeta x).key = (getMeta o).key then o else x)) := by
  unfold StoreWF at *
  have : (s.map (fun x => if (getMeta x).key = (getMeta o).key then o else x)).map
      (fun o => (getMeta o).key) = s.map (fun o => (getMeta o).key) := by
    rw [List.map_map]
    apply List.map_congr_left
    intro x _
    by_cases h : (getMeta x).key = (getMeta o).key <;> simp [h]
  rw [this]; exact hwf

theorem storeLookup_replace {α : Type} (getMeta : α → ObjectMeta) (o : α) (s : List α)
    (k : NamespacedName) (hpres : storeLookup getMeta s (getMeta o).key ≠ none) :
    storeLookup getMeta (s.map (fun x => if (getMeta x).key = (getMeta o).key then o else x)) k
      = if k = (getMeta o).key then some o else storeLookup getMeta s k := by
  induction s with
  | nil => simp [storeLookup] at hpres
  | cons x t ih =>
    by_cases hx : (getMeta x).key = (getMeta o).key
    · by_cases hk : k = (getMeta o).key
      · simp [storeLookup, hx, hk]
      · have hk2 : ¬ (getMeta o).key = k := fun e => hk e.symm
        have hk3 : ¬ (getMeta x).key = k := fun e => hk (hx ▸ e.symm)
        simp only [List.map_cons, hx, if_true, storeLookup, List.find?_cons, hk2, hk3, hk,
          decide_False, if_false]
        by_cases hp : storeLookup getMeta t (getMeta o).key = none
        · have h1 : t.map (fun x => if (getMeta x).key = (getMeta o).key then o else x) = t := by
            rw [storeLookup_eq_none] at hp
            conv_rhs => rw [← List.map_id t]
            apply List.map_congr_left
            intro y hy
            simp [hp y hy]
          rw [h1]
        · have := ih hp
          simpa [storeLookup, hk] using this
    · have hp : storeLookup getMeta t (getMeta o).key ≠ none := by
        simpa [storeLookup, List.find?_cons, hx] using hpres
      have := ih hp
      by_cases hk : (getMeta x).key = k
      · have hk' : ¬ k = (getMeta o).key := fun e => hx (hk.trans e)
        simp [storeLookup, hx, hk, hk']
      · simpa [storeLookup, hx, hk, List.find?_cons] using this

theorem storeWF_append {α : Type} (getMeta : α → ObjectMeta) (o : α) {s : List α}
    (hwf : StoreWF getMeta s) (habs : storeLookup getMeta s (getMeta o).key = none) :
    StoreWF getMeta (s ++ [o]) := by
  unfold StoreWF at *
  rw [List.map_append, List.nodup_append]
  refine ⟨hwf, by simp, ?_⟩
  rw [storeLookup_eq_none] at habs
  intro k hk hk2
  simp at hk2
  rcases List.mem_map.mp hk with ⟨y, hy, rfl⟩
  exact habs y hy hk2

theorem storeLookup_append {α : Type} (getMeta : α → ObjectMeta) (o : α) (s : List α)
    (k : NamespacedName) (habs : storeLookup getMeta s (getMeta o).key = none) :
    storeLookup getMeta (s ++ [o]) k
      = if k = (getMeta o).key then some o else storeLookup getMeta s k := by
  by_cases hk : k = (getMeta o).key
  · subst hk
    simp only [storeLookup, List.find?_append, if_true] at *
    simp [habs]
  · have hk2 : ¬ (getMeta o).key = k := fun e => hk e.symm
    simp only [storeLookup, List.find?_append, hk, if_false]
    simp [hk2]

theorem storeLookup_remove {α : Type} (getMeta : α → ObjectMeta) (k0 : NamespacedName)
    (s : List α) (k : NamespacedName) :
    storeLookup getMeta (s.filter (fun x => decide ((getMeta x).key ≠ k0))) k
      = if k = k0 then none else storeLookup getMeta s k := by
  induction s with
  | nil => simp [storeLookup]
  | cons x t ih =>
    by_cases hx : (getMeta x).key = k0
    · by_cases hk : k = k0
      · simpa [List.filter_cons, hx, hk] using ih
      · have h2 : ¬ k0 = k := fun e => hk e.symm
        simpa [List.filter_cons, hx, hk, h2, storeLookup, List.find?_cons] using ih
    · by_cases hk : (getMeta x).key = k
      · have : ¬ k = k0 := fun e => hx (hk.trans e)
        simp [List.filter_cons, hx, hk, storeLookup, this]
      · simpa [List.filter_cons, hx, hk, storeLookup, List.find?_cons] using ih

/-! ## The projected labels and annotations -/

theorem lookup_foldl_insert (l : List (Sigma (fun _ : String => String))) (h : l.NodupKeys)
    (acc : GoMap) (k : String) :
    (l.foldl (fun r a => r.insert a.1 a.2) acc).lookup k
      = (l.dlookup k).or (acc.lookup k) := by
  induction l generalizing acc with
  | nil => simp
  | cons a t ih =>
    rw [List.nodupKeys_cons] at h
    rw [List.foldl_cons, ih h.2]
    rcases a with ⟨a1, a2⟩
    by_cases hk : k = a1
    · subst hk
      have : List.dlookup k t = none := List.dlookup_eq_none.mpr h.1
      simp [this, List.dlookup_cons_eq]
    · rw [AList.lookup_insert_ne hk, List.dlookup_cons_ne t ⟨a1, a2⟩ hk]

theorem lookup_foldl_filter (l : List (Sigma (fun _ : String => String))) (h : l.NodupKeys)
    (acc : GoMap) (k : String) :
    (l.foldl (fun r a => if HasPrefix a.1 Prefix then r else r.insert a.1 a.2) acc).lookup k
      = if HasPrefix k Prefix then acc.lookup k else (l.dlookup k).or (acc.lookup k) := by
  induction l generalizing acc with
  | nil => simp
  | cons a t ih =>
    rw [List.nodupKeys_cons] at h
    rw [List.foldl_cons, ih h.2]
    rcases a with ⟨a1, a2⟩
    by_cases hp : HasPrefix k Prefix
    · simp only [hp, if_true]
      by_cases hq : HasPrefix a1 Prefix
      · simp [hq]
      · have hk : k ≠ a1 := fun e => hq (e ▸ hp)
        simp only [hq]
        simp [AList.lookup_insert_ne hk]
    · simp only [hp]
      by_cases hk : k = a1
      · subst hk
        have : List.dlookup k t = none := List.dlookup_eq_none.mpr h.1
        simp [this, hp, List.dlookup_cons_eq]
      · rw [List.dlookup_cons_ne t ⟨a1, a2⟩ hk]
        by_cases hq : HasPrefix a1 Prefix
        · simp [hq]
        · simp [hq, AList.lookup_insert_ne hk]

theorem lookup_CopyLabelsFromMeta (src : ObjectMeta) (k : String) :
    (CopyLabelsFromMeta src).lookup k =
      if k = LabelSourceNamespace then some src.Namespace
      else if k = LabelSourceName then some src.Name
      else if mapIndex src.Annotations AnnotationReflectLabels ≠ "" then src.Labels.lookup k
      else none := by
  unfold CopyLabelsFromMeta
  by_cases h1 : k = LabelSourceNamespace
  · subst h1; simp
  · by_cases h2 : k = LabelSourceName
    · subst h2; simp [AList.lookup_insert_ne h1, h1]
    · simp only [h1, h2, if_false]
      rw [AList.lookup_insert_ne h1, AList.lookup_insert_ne h2]
      split
      · rw [AList.foldl, lookup_foldl_insert _ src.Labels.nodupKeys]
        simp [AList.lookup]
      · simp

theorem lookup_CopyAnnotationsFromMeta (src : ObjectMeta) (k : String) :
    (CopyAnnotationsFromMeta src).lookup k =
      if mapIndex src.Annotations AnnotationReflectAnnotations ≠ "" ∧ HasPrefix k Prefix = false
      then src.Annotations.lookup k else none := by
  unfold CopyAnnotationsFromMeta
  by_cases h : mapIndex src.Annotations AnnotationReflectAnnotations ≠ ""
  · rw [if_pos h, AList.foldl, lookup_foldl_filter _ src.Annotations.nodupKeys]
    by_cases hp : HasPrefix k Prefix <;> simp [hp, AList.lookup, h]
  · simp [h]


/-! ## Claims on the projection builder -/

/-- C9: for every source metadata, `CopyLabelsFromMeta` returns the reference map (the
source labels when reflect-labels is non-empty, else the empty map, overlaid with the
two provenance labels): both maps agree on every key; source-name and source-namespace
always map to the source's name and namespace, whatever labels the source carries; and
when reflect-labels is unset the result has exactly those two keys. -/
theorem CopyLabelsFromMeta_eq_referenceLabels (src : ObjectMeta) :
    (∀ k, (CopyLabelsFromMeta src).lookup k = (referenceLabels src).lookup k) ∧
    (CopyLabelsFromMeta src).lookup LabelSourceName = some src.Name ∧
    (CopyLabelsFromMeta src).lookup LabelSourceNamespace = some src.Namespace ∧
    (mapIndex src.Annotations AnnotationReflectLabels = "" →
      ∀ k, k ∈ CopyLabelsFromMeta src ↔ k = LabelSourceName ∨ k = LabelSourceNamespace) := by
  have hne : LabelSourceName ≠ LabelSourceNamespace := by decide
  refine ⟨?_, ?_, ?_, ?_⟩
  · intro k
    rw [lookup_CopyLabelsFromMeta]
    unfold referenceLabels
    by_cases h1 : k = LabelSourceNamespace
    · subst h1; simp
    · by_cases h2 : k = LabelSourceName
      · subst h2; simp [AList.lookup_insert_ne h1, h1]
      · simp only [h1, h2, if_false]
        rw [AList.lookup_insert_ne h1, AList.lookup_insert_ne h2]
        split <;> simp
  · rw [lookup_CopyLabelsFromMeta]; simp [hne]
  · rw [lookup_CopyLabelsFromMeta]; simp
  · intro h k
    rw [← AList.lookup_isSome, lookup_CopyLabelsFromMeta]
    by_cases h1 : k = LabelSourceNamespace
    · simp [h1]
    · by_cases h2 : k = LabelSourceName
      · simp [h2, hne]
      · simp [h1, h2, h]

/-- Witness for C9: a source that carries a label under the key source-name and has
reflect-labels set still projects its own name, and a source without reflect-labels
projects exactly the two provenance keys. -/
theorem CopyLabelsFromMeta_eq_referenceLabels_witness :
    (CopyLabelsFromMeta (sampleMeta "ns-a" "cm1" [(LabelSourceName, "other"), ("app", "x")]
        [(AnnotationReflectLabels, "true")])).lookup LabelSourceName = some "cm1" ∧
    (∀ k, k ∈ CopyLabelsFromMeta (sampleMeta "ns-a" "cm1" [("app", "x")] []) ↔
      k = LabelSourceName ∨ k = LabelSourceNamespace) :=
  ⟨(CopyLabelsFromMeta_eq_referenceLabels _).2.1,
   (CopyLabelsFromMeta_eq_referenceLabels _).2.2.2 (by decide)⟩

/-- C10: for every source metadata, `CopyAnnotationsFromMeta` returns a map with no
key that starts with the control prefix; when reflect-annotations is non-empty the
result is the source annotations restricted to the keys without that prefix, with the
same values; when it is absent or empty the result is the empty map. -/
theorem CopyAnnotationsFromMeta_no_control_keys (src : ObjectMeta) :
    (∀ k, k ∈ CopyAnnotationsFromMeta src → HasPrefix k Prefix = false) ∧
    (mapIndex src.Annotations AnnotationReflectAnnotations ≠ "" →
      ∀ k, (CopyAnnotationsFromMeta src).lookup k =
        if HasPrefix k Prefix then none else src.Annotations.lookup k) ∧
    (mapIndex src.Annotations AnnotationReflectAnnotations = "" →
      CopyAnnotationsFromMeta src = ∅) := by
  refine ⟨?_, ?_, ?_⟩
  · intro k hk
    rw [← AList.lookup_isSome, lookup_CopyAnnotationsFromMeta] at hk
    by_cases hp : HasPrefix k Prefix = false
    · exact hp
    · simp [hp] at hk
  · intro h k
    rw [lookup_CopyAnnotationsFromMeta]
    by_cases hp : HasPrefix k Prefix <;> simp [hp, h]
  · intro h
    simp [CopyAnnotationsFromMeta, h]

/-- Witness for C10: with reflect-annotations set, the control annotations are dropped
and the other annotation is kept; without it the projection is empty. -/
theorem CopyAnnotationsFromMeta_no_control_keys_witness :
    (∀ k, (CopyAnnotationsFromMeta (sampleMeta "ns-a" "cm1" []
        [(AnnotationReflectAnnotations, "yes"), (AnnotationReflectNamespaces, "ns-b"),
          ("team", "core")])).lookup k =
        if HasPrefix k Prefix then none
        else (mapOf [(AnnotationReflectAnnotations, "yes"), (AnnotationReflectNamespaces, "ns-b"),
          ("team", "core")]).lookup k) ∧
    CopyAnnotationsFromMeta (sampleMeta "ns-a" "cm1" [] [(AnnotationReflectNamespaces, "ns-b"),
        ("team", "core")]) = ∅ :=
  ⟨(CopyAnnotationsFromMeta_no_control_keys _).2.1 (by decide),
   (CopyAnnotationsFromMeta_no_control_keys _).2.2 (by decide)⟩

/-! ## Claims on the source fetch -/

/-- C6: for both reconcilers, every client and every request key: when `Get` of the
source fails with `err`, the pass issues that `Get` and no other store call, and it
returns success if `err` is `NotFound` and exactly `err` otherwise. -/
theorem Reconcile_source_fetch_outcome {σ τ : Type} (cm : Client σ ConfigMap)
    (sc : Client τ Secret) (request : NamespacedName) (s : σ) (t : τ) (err : GoError) :
    ((cm.Get request s).1 = .error err →
      ReconcileConfigMap.Reconcile (traced cm) request (s, []) =
        (if IsNotFound err then none else some err,
          ((cm.Get request s).2, [Event.Get request (.error err)]))) ∧
    ((sc.Get request t).1 = .error err →
      ReconcileSecret.Reconcile (traced sc) request (t, []) =
        (if IsNotFound err then none else some err,
          ((sc.Get request t).2, [Event.Get request (.error err)]))) := by
  constructor
  · intro h
    simp only [ReconcileConfigMap.Reconcile, traced, h]
    split <;> simp
  · intro h
    simp only [ReconcileSecret.Reconcile, traced, h]
    split <;> simp

/-- Witness for C6: a source absent from the in-memory store ends the ConfigMap pass
with success after one `Get`; a `Get` failing with a timeout ends the Secret pass with
that timeout after one `Get`. -/
theorem Reconcile_source_fetch_outcome_witness :
    ReconcileConfigMap.Reconcile (traced (memClient ConfigMap.ObjectMeta)) ⟨"ns-a", "cm1"⟩ ([], []) =
        (none, ([], [Event.Get ⟨"ns-a", "cm1"⟩ (.error .NotFound)])) ∧
    ReconcileSecret.Reconcile (traced (failingClient (GoError.Other "timeout"))) ⟨"ns-a", "s1"⟩ ((), []) =
        (some (GoError.Other "timeout"), ((), [Event.Get ⟨"ns-a", "s1"⟩ (.error (GoError.Other "timeout"))])) :=
  ⟨(Reconcile_source_fetch_outcome (memClient ConfigMap.ObjectMeta)
      (failingClient (GoError.Other "timeout")) ⟨"ns-a", "cm1"⟩ [] () GoError.NotFound).1 rfl,
   (Reconcile_source_fetch_outcome (memClient ConfigMap.ObjectMeta)
      (failingClient (GoError.Other "timeout")) ⟨"ns-a", "s1"⟩ [] () (GoError.Other "timeout")).2 rfl⟩

/-! ## The abort discipline of a pass, for every client -/

theorem abortsOnFailure_nil {α : Type} (res : Option GoError) :
    AbortsOnFailure ([] : List (Event α)) res := by
  intro pre ev post e h
  simp at h

theorem abortsOnFailure_cons {α : Type} {ev : Event α} {evs : List (Event α)}
    {res : Option GoError} (hev : ev.failure = none) (h : AbortsOnFailure evs res) :
    AbortsOnFailure (ev :: evs) res := by
  intro pre x post e hx hf
  cases pre with
  | nil =>
    simp only [List.nil_append, List.cons.injEq] at hx
    rw [← hx.1, hev] at hf
    cases hf
  | cons y pre =>
    simp only [List.cons_append, List.cons.injEq] at hx
    exact h pre x post e hx.2 hf

theorem abortsOnFailure_single {α : Type} {ev : Event α} {res : Option GoError}
    (h : ∀ e, ev.failure = some e → res = some e) : AbortsOnFailure [ev] res := by
  intro pre x post e hx hf
  cases pre with
  | nil =>
    simp only [List.nil_append, List.cons.injEq] at hx
    exact ⟨hx.2.symm, h e (hx.1 ▸ hf)⟩
  | cons y pre =>
    simp at hx

theorem traced_Get {σ α : Type} (c : Client σ α) (k : NamespacedName) (s : σ)
    (tr : List (Event α)) :
    (traced c).Get k (s, tr) = ((c.Get k s).1, ((c.Get k s).2, tr ++ [Event.Get k (c.Get k s).1])) :=
  rfl

theorem traced_List {σ α : Type} (c : Client σ α) (sel : GoMap) (s : σ) (tr : List (Event α)) :
    (traced c).List sel (s, tr) =
      ((c.List sel s).1, ((c.List sel s).2, tr ++ [Event.List sel (c.List sel s).1])) :=
  rfl

theorem traced_Create {σ α : Type} (c : Client σ α) (o : α) (s : σ) (tr : List (Event α)) :
    (traced c).Create o (s, tr) =
      ((c.Create o s).1, ((c.Create o s).2, tr ++ [Event.Create o (c.Create o s).1])) :=
  rfl

theorem traced_Update {σ α : Type} (c : Client σ α) (o : α) (s : σ) (tr : List (Event α)) :
    (traced c).Update o (s, tr) =
      ((c.Update o s).1, ((c.Update o s).2, tr ++ [Event.Update o (c.Update o s).1])) :=
  rfl

theorem traced_Delete {σ α : Type} (c : Client σ α) (o : α) (s : σ) (tr : List (Event α)) :
    (traced c).Delete o (s, tr) =
      ((c.Delete o s).1, ((c.Delete o s).2, tr ++ [Event.Delete o (c.Delete o s).1])) :=
  rfl

theorem configMap_reflectLoop_trace {σ : Type} (c : Client σ ConfigMap)
    (l : List String) : ∀ (p : ConfigMap) (s : σ) (tr : List (Event ConfigMap)),
    ∃ evs, (ReconcileConfigMap.reflectLoop (traced c) p l (s, tr)).2.2 = tr ++ evs ∧
      AbortsOnFailure evs (ReconcileConfigMap.reflectLoop (traced c) p l (s, tr)).1 := by
  induction l with
  | nil =>
    intro p s tr
    exact ⟨[], by simp [ReconcileConfigMap.reflectLoop], abortsOnFailure_nil _⟩
  | cons n rest ih =>
    intro p s tr
    rw [ReconcileConfigMap.reflectLoop]
    by_cases hn : n = ""
    · rw [if_pos hn]; exact ih p s tr
    · rw [if_neg hn]
      simp only [traced_Get]
      rcases c.Get ⟨(p.setNamespace n).ObjectMeta.Namespace, (p.setNamespace n).ObjectMeta.Name⟩ s
        with ⟨rG, s1⟩
      cases rG with
      | error e =>
        simp only []
        by_cases hnf : IsNotFound e = true
        · simp only [hnf, if_true, traced_Create]
          rcases c.Create (p.setNamespace n) s1 with ⟨rC, s2⟩
          cases rC with
          | some e2 =>
            refine ⟨_, by first | rfl | (simp only [List.append_assoc]; rfl), ?_⟩
            exact abortsOnFailure_cons (by simp [Event.failure, hnf])
              (abortsOnFailure_single (by simp [Event.failure]))
          | none =>
            simp only [traced_Update]
            rcases c.Update (p.setNamespace n) s2 with ⟨rU, s3⟩
            cases rU with
            | some e3 =>
              refine ⟨_, by first | rfl | (simp only [List.append_assoc]; rfl), ?_⟩
              exact abortsOnFailure_cons (by simp [Event.failure, hnf])
                (abortsOnFailure_cons (by simp [Event.failure])
                  (abortsOnFailure_single (by simp [Event.failure])))
            | none =>
              simp only []
              obtain ⟨evs, h1, h2⟩ := ih (p.setNamespace n) s3
                (tr ++ [Event.Get ⟨(p.setNamespace n).ObjectMeta.Namespace,
                  (p.setNamespace n).ObjectMeta.Name⟩ (.error e)] ++
                  [Event.Create (p.setNamespace n) none] ++ [Event.Update (p.setNamespace n) none])
              refine ⟨_, by rw [h1]; simp only [List.append_assoc]; rfl, ?_⟩
              exact abortsOnFailure_cons (by simp [Event.failure, hnf])
                (abortsOnFailure_cons (by simp [Event.failure])
                  (abortsOnFailure_cons (by simp [Event.failure]) h2))
        · simp only [hnf]
          refine ⟨_, rfl, ?_⟩
          exact abortsOnFailure_single (by simp [Event.failure, hnf])
      | ok o =>
        simp only [traced_Update]
        rcases c.Update (p.setNamespace n) s1 with ⟨rU, s3⟩
        cases rU with
        | some e3 =>
          refine ⟨_, by first | rfl | (simp only [List.append_assoc]; rfl), ?_⟩
          exact abortsOnFailure_cons (by simp [Event.failure])
            (abortsOnFailure_single (by simp [Event.failure]))
        | none =>
          simp only []
          obtain ⟨evs, h1, h2⟩ := ih (p.setNamespace n) s3
            (tr ++ [Event.Get ⟨(p.setNamespace n).ObjectMeta.Namespace,
              (p.setNamespace n).ObjectMeta.Name⟩ (.ok o)] ++ [Event.Update (p.setNamespace n) none])
          refine ⟨_, by rw [h1]; simp only [List.append_assoc]; rfl, ?_⟩
          exact abortsOnFailure_cons (by simp [Event.failure])
            (abortsOnFailure_cons (by simp [Event.failure]) h2)

theorem configMap_deleteLoop_trace {σ : Type} (c : Client σ ConfigMap)
    (namespaces : List String) (items : List ConfigMap) :
    ∀ (s : σ) (tr : List (Event ConfigMap)),
    ∃ evs, (ReconcileConfigMap.deleteLoop (traced c) namespaces items (s, tr)).2.2 = tr ++ evs ∧
      AbortsOnFailure evs (ReconcileConfigMap.deleteLoop (traced c) namespaces items (s, tr)).1 := by
  induction items with
  | nil =>
    intro s tr
    exact ⟨[], by simp [ReconcileConfigMap.deleteLoop], abortsOnFailure_nil _⟩
  | cons o rest ih =>
    intro s tr
    rw [ReconcileConfigMap.deleteLoop]
    by_cases hd : (!StringSliceContains namespaces o.ObjectMeta.Namespace) = true
    · rw [if_pos hd]
      simp only [traced_Delete]
      rcases c.Delete o s with ⟨rD, s1⟩
      cases rD with
      | some e =>
        refine ⟨_, rfl, ?_⟩
        exact abortsOnFailure_single (by simp [Event.failure])
      | none =>
        simp only []
        obtain ⟨evs, h1, h2⟩ := ih s1 (tr ++ [Event.Delete o none])
        refine ⟨_, by rw [h1]; simp only [List.append_assoc]; rfl, ?_⟩
        exact abortsOnFailure_cons (by simp [Event.failure]) h2
    · rw [if_neg hd]; exact ih s tr

theorem secret_reflectLoop_trace {σ : Type} (c : Client σ Secret) (inst : Secret)
    (l : List String) : ∀ (p : Secret) (s : σ) (tr : List (Event Secret)),
    ∃ evs, (ReconcileSecret.reflectLoop (traced c) inst p l (s, tr)).2.2 = tr ++ evs ∧
      AbortsOnFailure evs (ReconcileSecret.reflectLoop (traced c) inst p l (s, tr)).1 := by
  induction l with
  | nil =>
    intro p s tr
    exact ⟨[], by simp [ReconcileSecret.reflectLoop], abortsOnFailure_nil _⟩
  | cons n rest ih =>
    intro p s tr
    rw [ReconcileSecret.reflectLoop]
    by_cases hn : n = ""
    · rw [if_pos hn]; exact ih p s tr
    · rw [if_neg hn]
      by_cases hself : n = inst.ObjectMeta.Namespace
      · rw [if_pos hself]; exact ih p s tr
      · rw [if_neg hself]
        simp only [traced_Get]
        rcases c.Get ⟨(p.setNamespace n).ObjectMeta.Namespace, (p.setNamespace n).ObjectMeta.Name⟩ s
          with ⟨rG, s1⟩
        cases rG with
        | error e =>
          simp only []
          by_cases hnf : IsNotFound e = true
          · simp only [hnf, if_true, traced_Create]
            rcases c.Create (p.setNamespace n) s1 with ⟨rC, s2⟩
            cases rC with
            | some e2 =>
              refine ⟨_, by simp only [List.append_assoc]; rfl, ?_⟩
              exact abortsOnFailure_cons (by simp [Event.failure, hnf])
                (abortsOnFailure_single (by simp [Event.failure]))
            | none =>
              simp only []
              obtain ⟨evs, h1, h2⟩ := ih (p.setNamespace n) s2
                (tr ++ [Event.Get ⟨(p.setNamespace n).ObjectMeta.Namespace,
                  (p.setNamespace n).ObjectMeta.Name⟩ (.error e)] ++
                  [Event.Create (p.setNamespace n) none])
              refine ⟨_, by rw [h1]; simp only [List.append_assoc]; rfl, ?_⟩
              exact abortsOnFailure_cons (by simp [Event.failure, hnf])
                (abortsOnFailure_cons (by simp [Event.failure]) h2)
          · simp only [hnf]
            refine ⟨_, rfl, ?_⟩
            exact abortsOnFailure_single (by simp [Event.failure, hnf])
        | ok o =>
          simp only [traced_Update]
          rcases c.Update (p.setNamespace n) s1 with ⟨rU, s3⟩
          cases rU with
          | some e3 =>
            refine ⟨_, by simp only [List.append_assoc]; rfl, ?_⟩
            exact abortsOnFailure_cons (by simp [Event.failure])
              (abortsOnFailure_single (by simp [Event.failure]))
          | none =>
            simp only []
            obtain ⟨evs, h1, h2⟩ := ih (p.setNamespace n) s3
              (tr ++ [Event.Get ⟨(p.setNamespace n).ObjectMeta.Namespace,
                (p.setNamespace n).ObjectMeta.Name⟩ (.ok o)] ++ [Event.Update (p.setNamespace n) none])
            refine ⟨_, by rw [h1]; simp only [List.append_assoc]; rfl, ?_⟩
            exact abortsOnFailure_cons (by simp [Event.failure])
              (abortsOnFailure_cons (by simp [Event.failure]) h2)

theorem secret_deleteLoop_trace {σ : Type} (c : Client σ Secret)
    (namespaces : List String) (items : List Secret) :
    ∀ (s : σ) (tr : List (Event Secret)),
    ∃ evs, (ReconcileSecret.deleteLoop (traced c) namespaces items (s, tr)).2.2 = tr ++ evs ∧
      AbortsOnFailure evs (ReconcileSecret.deleteLoop (traced c) namespaces items (s, tr)).1 := by
  induction items with
  | nil =>
    intro s tr
    exact ⟨[], by simp [ReconcileSecret.deleteLoop], abortsOnFailure_nil _⟩
  | cons o rest ih =>
    intro s tr
    rw [ReconcileSecret.deleteLoop]
    by_cases hd : (!StringSliceContains namespaces o.ObjectMeta.Namespace) = true
    · rw [if_pos hd]
      simp only [traced_Update]
      rcases c.Update { o with ObjectMeta := DeleteSourceLabels o.ObjectMeta } s with ⟨rU, s1⟩
      cases rU with
      | some e =>
        refine ⟨_, rfl, ?_⟩
        exact abortsOnFailure_single (by simp [Event.failure])
      | none =>
        simp only [traced_Delete]
        rcases c.Delete { o with ObjectMeta := DeleteSourceLabels o.ObjectMeta } s1 with ⟨rD, s2⟩
        cases rD with
        | some e =>
          refine ⟨_, by simp only [List.append_assoc]; rfl, ?_⟩
          exact abortsOnFailure_cons (by simp [Event.failure])
            (abortsOnFailure_single (by simp [Event.failure]))
        | none =>
          simp only []
          obtain ⟨evs, h1, h2⟩ := ih s2
            (tr ++ [Event.Update { o with ObjectMeta := DeleteSourceLabels o.ObjectMeta } none] ++
              [Event.Delete { o with ObjectMeta := DeleteSourceLabels o.ObjectMeta } none])
          refine ⟨_, by rw [h1]; simp only [List.append_assoc]; rfl, ?_⟩
          exact abortsOnFailure_cons (by simp [Event.failure])
            (abortsOnFailure_cons (by simp [Event.failure]) h2)
    · rw [if_neg hd]; exact ih s tr

theorem abortsOnFailure_append {α : Type} {evs₁ evs₂ : List (Event α)} {res : Option GoError}
    (h₁ : AbortsOnFailure evs₁ none) (h₂ : AbortsOnFailure evs₂ res) :
    AbortsOnFailure (evs₁ ++ evs₂) res := by
  intro pre ev post e h hf
  rcases List.append_eq_append_iff.mp h with ⟨a, ha, hb⟩ | ⟨b, ha, hb⟩
  · exact h₂ a ev post e hb hf
  · cases b with
    | nil =>
      simp only [List.nil_append] at hb
      exact h₂ [] ev post e (by simpa using hb.symm) hf
    | cons x b =>
      simp only [List.cons_append, List.cons.injEq] at hb
      have := (h₁ pre x b e (by simpa using ha) (hb.1 ▸ hf)).2
      cases this

theorem configMap_Reconcile_abortsOnFailure {σ : Type} (c : Client σ ConfigMap)
    (request : NamespacedName) (s : σ) :
    AbortsOnFailure (ReconcileConfigMap.Reconcile (traced c) request (s, [])).2.2
      (ReconcileConfigMap.Reconcile (traced c) request (s, [])).1 := by
  unfold ReconcileConfigMap.Reconcile
  simp only [traced_Get]
  rcases c.Get request s with ⟨rG, s1⟩
  cases rG with
  | error e =>
    simp only [List.nil_append]
    by_cases hnf : IsNotFound e = true
    · simp only [hnf, if_true]
      exact abortsOnFailure_single (by simp [Event.failure, hnf])
    · simp only [hnf]
      exact abortsOnFailure_single (by simp [Event.failure, hnf])
  | ok inst =>
    simp only [List.nil_append]
    cases GetReflectNamespaceList (mapIndex inst.ObjectMeta.Annotations AnnotationReflectNamespaces) with
    | none => exact abortsOnFailure_single (by simp [Event.failure])
    | some namespaces =>
      simp only []
      cases SetControllerReference inst.ObjectMeta "ConfigMap" (newConfigMapFrom inst).ObjectMeta with
      | error err => exact abortsOnFailure_single (by simp [Event.failure])
      | ok m =>
        simp only []
        obtain ⟨evs, h1, h2⟩ := configMap_reflectLoop_trace c namespaces
          { newConfigMapFrom inst with ObjectMeta := m } s1 [Event.Get request (.ok inst)]
        rcases hL : ReconcileConfigMap.reflectLoop (traced c)
          { newConfigMapFrom inst with ObjectMeta := m } namespaces
          (s1, [Event.Get request (.ok inst)]) with ⟨r, s2, tr2⟩
        rw [hL] at h1 h2
        simp only [] at h1 h2
        subst h1
        cases r with
        | some err =>
          exact abortsOnFailure_cons (by simp [Event.failure]) h2
        | none =>
          simp only [traced_List]
          rcases c.List (ReconcileConfigMap.labelSelector inst.ObjectMeta) s2 with ⟨rL, s3⟩
          have hpre : AbortsOnFailure (Event.Get request (.ok inst) :: evs) none :=
            abortsOnFailure_cons (by simp [Event.failure]) h2
          cases rL with
          | error e =>
            simp only []
            by_cases hnf : IsNotFound e = true
            · simp only [hnf, if_true]
              exact abortsOnFailure_append hpre (abortsOnFailure_single (by simp [Event.failure, hnf]))
            · simp only [hnf]
              exact abortsOnFailure_append hpre (abortsOnFailure_single (by simp [Event.failure, hnf]))
          | ok items =>
            simp only []
            obtain ⟨evs2, h3, h4⟩ := configMap_deleteLoop_trace c namespaces items s3
              ([Event.Get request (.ok inst)] ++ evs ++
                [Event.List (ReconcileConfigMap.labelSelector inst.ObjectMeta) (.ok items)])
            rw [h3, List.append_assoc]
            exact abortsOnFailure_append hpre
              (abortsOnFailure_cons (by simp [Event.failure]) h4)

theorem secret_Reconcile_abortsOnFailure {σ : Type} (c : Client σ Secret)
    (request : NamespacedName) (s : σ) :
    AbortsOnFailure (ReconcileSecret.Reconcile (traced c) request (s, [])).2.2
      (ReconcileSecret.Reconcile (traced c) request (s, [])).1 := by
  unfold ReconcileSecret.Reconcile
  simp only [traced_Get]
  rcases c.Get request s with ⟨rG, s1⟩
  cases rG with
  | error e =>
    simp only [List.nil_append]
    by_cases hnf : IsNotFound e = true
    · simp only [hnf, if_true]
      exact abortsOnFailure_single (by simp [Event.failure, hnf])
    · simp only [hnf]
      exact abortsOnFailure_single (by simp [Event.failure, hnf])
  | ok inst =>
    simp only [List.nil_append]
    cases SetControllerReference inst.ObjectMeta "Secret" (newSecretFrom inst).ObjectMeta with
    | error err => exact abortsOnFailure_single (by simp [Event.failure])
    | ok m =>
      simp only []
      generalize sliceItems (GetReflectNamespaceList
        (mapIndex inst.ObjectMeta.Annotations AnnotationReflectNamespaces)) = namespaces
      obtain ⟨evs, h1, h2⟩ := secret_reflectLoop_trace c inst namespaces
        { newSecretFrom inst with ObjectMeta := m } s1 [Event.Get request (.ok inst)]
      rcases hL : ReconcileSecret.reflectLoop (traced c) inst
        { newSecretFrom inst with ObjectMeta := m } namespaces
        (s1, [Event.Get request (.ok inst)]) with ⟨r, s2, tr2⟩
      rw [hL] at h1 h2
      simp only [] at h1 h2
      subst h1
      cases r with
      | some err =>
        exact abortsOnFailure_cons (by simp [Event.failure]) h2
      | none =>
        simp only [traced_List]
        rcases c.List (ReconcileSecret.labelSelector inst.ObjectMeta) s2 with ⟨rL, s3⟩
        have hpre : AbortsOnFailure (Event.Get request (.ok inst) :: evs) none :=
          abortsOnFailure_cons (by simp [Event.failure]) h2
        cases rL with
        | error e =>
          simp only []
          by_cases hnf : IsNotFound e = true
          · simp only [hnf, if_true]
            exact abortsOnFailure_append hpre (abortsOnFailure_single (by simp [Event.failure, hnf]))
          · simp only [hnf]
            exact abortsOnFailure_append hpre (abortsOnFailure_single (by simp [Event.failure, hnf]))
        | ok items =>
          simp only []
          obtain ⟨evs2, h3, h4⟩ := secret_deleteLoop_trace c namespaces items s3
            ([Event.Get request (.ok inst)] ++ evs ++
              [Event.List (ReconcileSecret.labelSelector inst.ObjectMeta) (.ok items)])
          rw [h3, List.append_assoc]
          exact abortsOnFailure_append hpre
            (abortsOnFailure_cons (by simp [Event.failure]) h4)

/-! ## Claims on the create and delete races -/

/-- Counterexample to C7: with the source `ns-a/cm1` (`ns-a/s1`) reflected into
`ns-b,ns-c` and a store that loses the create race, `Get` at `ns-b` reports `NotFound`,
`Create` fails with `AlreadyExists`, and each pass stops there: it returns
`AlreadyExists`, issues no `Update` and never reaches `ns-c`. -/
theorem create_race_not_benign :
    ReconcileConfigMap.Reconcile (traced (createRaceClient ConfigMap.ObjectMeta)) ⟨"ns-a", "cm1"⟩
        ([cmSource "ns-b,ns-c"], []) =
      (some GoError.AlreadyExists,
        ([cmSource "ns-b,ns-c"],
          [Event.Get ⟨"ns-a", "cm1"⟩ (.ok (cmSource "ns-b,ns-c")),
           Event.Get ⟨"ns-b", "cm1"⟩ (.error GoError.NotFound),
           Event.Create (ReconcileConfigMap.projection (cmSource "ns-b,ns-c") "ns-b")
             (some GoError.AlreadyExists)])) ∧
    ReconcileSecret.Reconcile (traced (createRaceClient Secret.ObjectMeta)) ⟨"ns-a", "s1"⟩
        ([secSource "ns-b,ns-c"], []) =
      (some GoError.AlreadyExists,
        ([secSource "ns-b,ns-c"],
          [Event.Get ⟨"ns-a", "s1"⟩ (.ok (secSource "ns-b,ns-c")),
           Event.Get ⟨"ns-b", "s1"⟩ (.error GoError.NotFound),
           Event.Create (ReconcileSecret.projection (secSource "ns-b,ns-c") "ns-b")
             (some GoError.AlreadyExists)])) :=
  ⟨rfl, rfl⟩

/-- C7, amended: for both reconcilers, every client and every store state, a `Create`
that fails with any error, `AlreadyExists` and `Conflict` included, is the last store
call of the pass (no `Update` follows and no further namespace is visited), and
`Reconcile` returns exactly that error. -/
theorem create_failure_aborts {σ τ : Type} (cm : Client σ ConfigMap) (sc : Client τ Secret)
    (request : NamespacedName) (s : σ) (t : τ) :
    (∀ pre obj e post,
      (ReconcileConfigMap.Reconcile (traced cm) request (s, [])).2.2
          = pre ++ Event.Create obj (some e) :: post →
        post = [] ∧ (ReconcileConfigMap.Reconcile (traced cm) request (s, [])).1 = some e) ∧
    (∀ pre obj e post,
      (ReconcileSecret.Reconcile (traced sc) request (t, [])).2.2
          = pre ++ Event.Create obj (some e) :: post →
        post = [] ∧ (ReconcileSecret.Reconcile (traced sc) request (t, [])).1 = some e) :=
  ⟨fun pre _ e post h =>
      configMap_Reconcile_abortsOnFailure cm request s pre _ post e h rfl,
   fun pre _ e post h =>
      secret_Reconcile_abortsOnFailure sc request t pre _ post e h rfl⟩

/-- Witness for C7, amended: on the store that loses the create race both passes
return `AlreadyExists`. -/
theorem create_failure_aborts_witness :
    (ReconcileConfigMap.Reconcile (traced (createRaceClient ConfigMap.ObjectMeta)) ⟨"ns-a", "cm1"⟩
        ([cmSource "ns-b,ns-c"], [])).1 = some GoError.AlreadyExists ∧
    (ReconcileSecret.Reconcile (traced (createRaceClient Secret.ObjectMeta)) ⟨"ns-a", "s1"⟩
        ([secSource "ns-b,ns-c"], [])).1 = some GoError.AlreadyExists :=
  ⟨((create_failure_aborts (createRaceClient ConfigMap.ObjectMeta)
        (createRaceClient Secret.ObjectMeta) ⟨"ns-a", "cm1"⟩ [cmSource "ns-b,ns-c"]
        [secSource "ns-b,ns-c"]).1
      [Event.Get ⟨"ns-a", "cm1"⟩ (.ok (cmSource "ns-b,ns-c")),
        Event.Get ⟨"ns-b", "cm1"⟩ (.error GoError.NotFound)]
      (ReconcileConfigMap.projection (cmSource "ns-b,ns-c") "ns-b") GoError.AlreadyExists [] rfl).2,
   ((create_failure_aborts (createRaceClient ConfigMap.ObjectMeta)
        (createRaceClient Secret.ObjectMeta) ⟨"ns-a", "s1"⟩ [cmSource "ns-b,ns-c"]
        [secSource "ns-b,ns-c"]).2
      [Event.Get ⟨"ns-a", "s1"⟩ (.ok (secSource "ns-b,ns-c")),
        Event.Get ⟨"ns-b", "s1"⟩ (.error GoError.NotFound)]
      (ReconcileSecret.projection (secSource "ns-b,ns-c") "ns-b") GoError.AlreadyExists [] rfl).2⟩

/-- Counterexample to C8: with the source reflected into `ns-b` only, dangling copies
in `ns-c` and `ns-d`, and a store that loses the delete race, `Delete` of the copy in
`ns-c` reports `NotFound` and each pass stops there: it returns `NotFound` and never
reaches the copy in `ns-d`. -/
theorem delete_race_not_benign :
    ReconcileConfigMap.Reconcile (traced (deleteRaceClient ConfigMap.ObjectMeta)) ⟨"ns-a", "cm1"⟩
        ([cmSource "ns-b", cmCopy "ns-b", cmCopy "ns-c", cmCopy "ns-d"], []) =
      (some GoError.NotFound,
        ([cmSource "ns-b", ReconcileConfigMap.projection (cmSource "ns-b") "ns-b", cmCopy "ns-c",
            cmCopy "ns-d"],
          [Event.Get ⟨"ns-a", "cm1"⟩ (.ok (cmSource "ns-b")),
           Event.Get ⟨"ns-b", "cm1"⟩ (.ok (cmCopy "ns-b")),
           Event.Update (ReconcileConfigMap.projection (cmSource "ns-b") "ns-b") none,
           Event.List (ReconcileConfigMap.labelSelector (cmSource "ns-b").ObjectMeta)
             (.ok [ReconcileConfigMap.projection (cmSource "ns-b") "ns-b", cmCopy "ns-c",
               cmCopy "ns-d"]),
           Event.Delete (cmCopy "ns-c") (some GoError.NotFound)])) ∧
    ReconcileSecret.Reconcile (traced (deleteRaceClient Secret.ObjectMeta)) ⟨"ns-a", "s1"⟩
        ([secSource "ns-b", secCopy "ns-b", secCopy "ns-c", secCopy "ns-d"], []) =
      (some GoError.NotFound,
        ([secSource "ns-b", ReconcileSecret.projection (secSource "ns-b") "ns-b",
            secCopyStripped "ns-c", secCopy "ns-d"],
          [Event.Get ⟨"ns-a", "s1"⟩ (.ok (secSource "ns-b")),
           Event.Get ⟨"ns-b", "s1"⟩ (.ok (secCopy "ns-b")),
           Event.Update (ReconcileSecret.projection (secSource "ns-b") "ns-b") none,
           Event.List (ReconcileSecret.labelSelector (secSource "ns-b").ObjectMeta)
             (.ok [ReconcileSecret.projection (secSource "ns-b") "ns-b", secCopy "ns-c",
               secCopy "ns-d"]),
           Event.Update (secCopyStripped "ns-c") none,
           Event.Delete (secCopyStripped "ns-c") (some GoError.NotFound)])) :=
  ⟨rfl, rfl⟩

/-- C8, amended: for both reconcilers, every client and every store state, a `Delete`
of a dangling copy that fails with any error, `NotFound` included, is the last store
call of the pass (the remaining listed copies are not processed), and `Reconcile`
returns exactly that error. -/
theorem delete_failure_aborts {σ τ : Type} (cm : Client σ ConfigMap) (sc : Client τ Secret)
    (request : NamespacedName) (s : σ) (t : τ) :
    (∀ pre obj e post,
      (ReconcileConfigMap.Reconcile (traced cm) request (s, [])).2.2
          = pre ++ Event.Delete obj (some e) :: post →
        post = [] ∧ (ReconcileConfigMap.Reconcile (traced cm) request (s, [])).1 = some e) ∧
    (∀ pre obj e post,
      (ReconcileSecret.Reconcile (traced sc) request (t, [])).2.2
          = pre ++ Event.Delete obj (some e) :: post →
        post = [] ∧ (ReconcileSecret.Reconcile (traced sc) request (t, [])).1 = some e) :=
  ⟨fun pre _ e post h =>
      configMap_Reconcile_abortsOnFailure cm request s pre _ post e h rfl,
   fun pre _ e post h =>
      secret_Reconcile_abortsOnFailure sc request t pre _ post e h rfl⟩

/-- Witness for C8, amended: on the store that loses the delete race both passes
return `NotFound`. -/
theorem delete_failure_aborts_witness :
    (ReconcileConfigMap.Reconcile (traced (deleteRaceClient ConfigMap.ObjectMeta)) ⟨"ns-a", "cm1"⟩
        ([cmSource "ns-b", cmCopy "ns-b", cmCopy "ns-c", cmCopy "ns-d"], [])).1
      = some GoError.NotFound ∧
    (ReconcileSecret.Reconcile (traced (deleteRaceClient Secret.ObjectMeta)) ⟨"ns-a", "s1"⟩
        ([secSource "ns-b", secCopy "ns-b", secCopy "ns-c", secCopy "ns-d"], [])).1
      = some GoError.NotFound :=
  ⟨((delete_failure_aborts (deleteRaceClient ConfigMap.ObjectMeta)
        (deleteRaceClient Secret.ObjectMeta) ⟨"ns-a", "cm1"⟩
        [cmSource "ns-b", cmCopy "ns-b", cmCopy "ns-c", cmCopy "ns-d"]
        [secSource "ns-b", secCopy "ns-b", secCopy "ns-c", secCopy "ns-d"]).1
      [Event.Get ⟨"ns-a", "cm1"⟩ (.ok (cmSource "ns-b")),
       Event.Get ⟨"ns-b", "cm1"⟩ (.ok (cmCopy "ns-b")),
       Event.Update (ReconcileConfigMap.projection (cmSource "ns-b") "ns-b") none,
       Event.List (ReconcileConfigMap.labelSelector (cmSource "ns-b").ObjectMeta)
         (.ok [ReconcileConfigMap.projection (cmSource "ns-b") "ns-b", cmCopy "ns-c",
           cmCopy "ns-d"])]
      (cmCopy "ns-c") GoError.NotFound [] rfl).2,
   ((delete_failure_aborts (deleteRaceClient ConfigMap.ObjectMeta)
        (deleteRaceClient Secret.ObjectMeta) ⟨"ns-a", "s1"⟩
        [cmSource "ns-b", cmCopy "ns-b", cmCopy "ns-c", cmCopy "ns-d"]
        [secSource "ns-b", secCopy "ns-b", secCopy "ns-c", secCopy "ns-d"]).2
      [Event.Get ⟨"ns-a", "s1"⟩ (.ok (secSource "ns-b")),
       Event.Get ⟨"ns-b", "s1"⟩ (.ok (secCopy "ns-b")),
       Event.Update (ReconcileSecret.projection (secSource "ns-b") "ns-b") none,
       Event.List (ReconcileSecret.labelSelector (secSource "ns-b").ObjectMeta)
         (.ok [ReconcileSecret.projection (secSource "ns-b") "ns-b", secCopy "ns-c",
           secCopy "ns-d"]),
       Event.Update (secCopyStripped "ns-c") none]
      (secCopyStripped "ns-c") GoError.NotFound [] rfl).2⟩

/-! ## The passes on the in-memory store -/

theorem memClient_Get {α : Type} (getMeta : α → ObjectMeta) (k : NamespacedName) (s : List α) :
    (memClient getMeta).Get k s =
      match storeLookup getMeta s k with
      | some o => (.ok o, s)
      | none => (.error .NotFound, s) :=
  rfl

theorem memClient_Create_absent {α : Type} (getMeta : α → ObjectMeta) (o : α) (s : List α)
    (h : storeLookup getMeta s (getMeta o).key = none) :
    (memClient getMeta).Create o s = (none, s ++ [o]) := by
  simp [memClient, h]

theorem memClient_Update_present {α : Type} (getMeta : α → ObjectMeta) (o : α) (s : List α)
    (h : storeLookup getMeta s (getMeta o).key ≠ none) :
    (memClient getMeta).Update o s =
      (none, s.map (fun x => if (getMeta x).key = (getMeta o).key then o else x)) := by
  cases h' : storeLookup getMeta s (getMeta o).key with
  | none => exact absurd h' h
  | some x => simp [memClient, h']

theorem memClient_Delete_present {α : Type} (getMeta : α → ObjectMeta) (o : α) (s : List α)
    (h : storeLookup getMeta s (getMeta o).key ≠ none) :
    (memClient getMeta).Delete o s =
      (none, s.filter (fun x => decide ((getMeta x).key ≠ (getMeta o).key))) := by
  cases h' : storeLookup getMeta s (getMeta o).key with
  | none => exact absurd h' h
  | some x => simp [memClient, h']

theorem memClient_List {α : Type} (getMeta : α → ObjectMeta) (sel : GoMap) (s : List α) :
    (memClient getMeta).List sel s =
      (.ok (s.filter (fun o => matchesLabels (SelectorFromSet sel) (getMeta o).Labels)), s) :=
  rfl

theorem configMap_setNamespace_setNamespace (p : ConfigMap) (a b : String) :
    (p.setNamespace a).setNamespace b = p.setNamespace b :=
  rfl

theorem secret_setNamespace_setNamespace (p : Secret) (a b : String) :
    (p.setNamespace a).setNamespace b = p.setNamespace b :=
  rfl

theorem configMap_reflectLoop_mem_step (p : ConfigMap) (n : String)
    (rest : List String) (s : List ConfigMap) (hn : n ≠ "")
    (hwf : StoreWF ConfigMap.ObjectMeta s) :
    ∃ s1, StoreWF ConfigMap.ObjectMeta s1 ∧
      (∀ k, storeLookup ConfigMap.ObjectMeta s1 k =
        if k = ⟨n, p.ObjectMeta.Name⟩ then some (p.setNamespace n)
        else storeLookup ConfigMap.ObjectMeta s k) ∧
      ReconcileConfigMap.reflectLoop (memClient ConfigMap.ObjectMeta) p (n :: rest) s =
        ReconcileConfigMap.reflectLoop (memClient ConfigMap.ObjectMeta) (p.setNamespace n) rest s1 := by
  rw [ReconcileConfigMap.reflectLoop, if_neg hn]
  simp only [memClient_Get]
  have hkey : (p.setNamespace n).ObjectMeta.key = ⟨n, p.ObjectMeta.Name⟩ := rfl
  cases h : storeLookup ConfigMap.ObjectMeta s
      ⟨(p.setNamespace n).ObjectMeta.Namespace, (p.setNamespace n).ObjectMeta.Name⟩ with
  | none =>
    have habs : storeLookup ConfigMap.ObjectMeta s (p.setNamespace n).ObjectMeta.key = none := h
    have hpres : storeLookup ConfigMap.ObjectMeta (s ++ [p.setNamespace n])
        (p.setNamespace n).ObjectMeta.key ≠ none := by
      rw [storeLookup_append _ _ _ _ habs]; simp
    simp only [IsNotFound, if_true]
    rw [memClient_Create_absent _ _ _ habs]
    simp only []
    rw [memClient_Update_present _ _ _ hpres]
    refine ⟨_, storeWF_replace _ _ (storeWF_append _ _ hwf habs), fun k => ?_, rfl⟩
    rw [storeLookup_replace _ _ _ _ hpres, storeLookup_append _ _ _ _ habs, hkey]
    by_cases hk : k = ⟨n, p.ObjectMeta.Name⟩ <;> simp [hk]
  | some o =>
    have hpres : storeLookup ConfigMap.ObjectMeta s (p.setNamespace n).ObjectMeta.key ≠ none := by
      change storeLookup ConfigMap.ObjectMeta s
        ⟨(p.setNamespace n).ObjectMeta.Namespace, (p.setNamespace n).ObjectMeta.Name⟩ ≠ none
      rw [h]; simp
    simp only []
    rw [memClient_Update_present _ _ _ hpres]
    refine ⟨_, storeWF_replace _ _ hwf, fun k => ?_, rfl⟩
    rw [storeLookup_replace _ _ _ _ hpres, hkey]

/-- On the in-memory store the ConfigMap reflect loop succeeds and leaves the projection
under every key (n, name) with n a non-empty entry of the list; other keys are
untouched. -/
theorem configMap_reflectLoop_mem (l : List String) :
    ∀ (p : ConfigMap) (s : List ConfigMap), StoreWF ConfigMap.ObjectMeta s →
    ∃ s', ReconcileConfigMap.reflectLoop (memClient ConfigMap.ObjectMeta) p l s = (none, s') ∧
      StoreWF ConfigMap.ObjectMeta s' ∧
      ∀ k, storeLookup ConfigMap.ObjectMeta s' k =
        if k.Name = p.ObjectMeta.Name ∧ k.Namespace ∈ l ∧ k.Namespace ≠ ""
        then some (p.setNamespace k.Namespace) else storeLookup ConfigMap.ObjectMeta s k := by
  induction l with
  | nil =>
    intro p s hwf
    exact ⟨s, by simp [ReconcileConfigMap.reflectLoop], hwf, by simp⟩
  | cons n rest ih =>
    intro p s hwf
    by_cases hn : n = ""
    · rw [ReconcileConfigMap.reflectLoop, if_pos hn]
      obtain ⟨s', h1, h2, h3⟩ := ih p s hwf
      refine ⟨s', h1, h2, fun k => ?_⟩
      rw [h3 k]
      by_cases hk : k.Namespace = "" <;> simp [hk, hn]
    · obtain ⟨s1, hwf1, hl1, hrun⟩ := configMap_reflectLoop_mem_step p n rest s hn hwf
      obtain ⟨s', h1, h2, h3⟩ := ih (p.setNamespace n) s1 hwf1
      refine ⟨s', hrun.trans h1, h2, fun k => ?_⟩
      rw [h3 k, hl1 k]
      rcases k with ⟨kns, kname⟩
      have hname : (p.setNamespace n).ObjectMeta.Name = p.ObjectMeta.Name := rfl
      simp only [hname, configMap_setNamespace_setNamespace, NamespacedName.mk.injEq,
        List.mem_cons]
      by_cases hk1 : kname = p.ObjectMeta.Name
      · by_cases hk2 : kns = n
        · subst hk2
          by_cases hk3 : kns ∈ rest <;> simp [hk1, hk3, hn]
        · simp [hk1, hk2]
      · simp [hk1]

theorem storeMap_replace_self {α : Type} (getMeta : α → ObjectMeta) (o : α) {s : List α}
    (hwf : StoreWF getMeta s) (h : storeLookup getMeta s (getMeta o).key = some o) :
    s.map (fun x => if (getMeta x).key = (getMeta o).key then o else x) = s := by
  conv_rhs => rw [← List.map_id s]
  apply List.map_congr_left
  intro x hx
  by_cases hk : (getMeta x).key = (getMeta o).key
  · have hx' := storeLookup_of_mem getMeta hwf hx
    rw [hk, h] at hx'
    simp [hk, Option.some.inj hx']
  · simp [hk]

theorem storeFilter_replace {α : Type} (getMeta : α → ObjectMeta) (o : α) (s : List α) :
    (s.map (fun x => if (getMeta x).key = (getMeta o).key then o else x)).filter
        (fun x => decide ((getMeta x).key ≠ (getMeta o).key))
      = s.filter (fun x => decide ((getMeta x).key ≠ (getMeta o).key)) := by
  induction s with
  | nil => rfl
  | cons x t ih =>
    by_cases hk : (getMeta x).key = (getMeta o).key
    · simpa [List.filter_cons, hk] using ih
    · simpa [List.filter_cons, hk] using ih

theorem StringSliceContains_iff (l : List String) (x : String) :
    StringSliceContains l x = true ↔ x ∈ l := by
  induction l with
  | nil => simp [StringSliceContains]
  | cons a t ih =>
    by_cases h : a = x
    · simp [StringSliceContains, h]
    · have h' : ¬ x = a := fun e => h e.symm
      simp [StringSliceContains, h, h', ih]

theorem matchesLabels_labelSelector (src o : ObjectMeta) :
    matchesLabels (ReconcileConfigMap.labelSelector src) o.Labels = carriesSourceLabels src o := by
  have hk : List.kerase LabelSourceNamespace
      [(⟨LabelSourceName, src.Name⟩ : Sigma (fun _ : String => String))]
      = [⟨LabelSourceName, src.Name⟩] := rfl
  simp [matchesLabels, ReconcileConfigMap.labelSelector, carriesSourceLabels, AList.insert_entries,
    hk, Bool.and_comm]

theorem SelectorFromSet_labelSelector (src : ObjectMeta) :
    SelectorFromSet (ReconcileConfigMap.labelSelector src) =
      if validSelector src = true then ReconcileConfigMap.labelSelector src else ∅ := by
  have hk : List.kerase LabelSourceNamespace
      [(⟨LabelSourceName, src.Name⟩ : Sigma (fun _ : String => String))]
      = [⟨LabelSourceName, src.Name⟩] := rfl
  have h1 : IsQualifiedName LabelSourceName = true := by decide
  have h2 : IsQualifiedName LabelSourceNamespace = true := by decide
  simp [SelectorFromSet, ReconcileConfigMap.labelSelector, validSelector, AList.insert_entries,
    hk, h1, h2, Bool.and_comm]

/-- What the dangling-copy `List` of the in-memory store tests on an object. -/
theorem matchesLabels_selectedBy (src o : ObjectMeta) :
    matchesLabels (SelectorFromSet (ReconcileConfigMap.labelSelector src)) o.Labels
      = selectedBy src o := by
  rw [SelectorFromSet_labelSelector]
  cases hv : validSelector src
  · simp [selectedBy, hv, matchesLabels]
  · simp [selectedBy, hv, matchesLabels_labelSelector]

theorem selectedBy_of_valid {src : ObjectMeta} (hv : validSelector src = true) (o : ObjectMeta) :
    selectedBy src o = carriesSourceLabels src o := by
  simp [selectedBy, hv]

theorem secret_labelSelector_eq (src : ObjectMeta) :
    ReconcileSecret.labelSelector src = ReconcileConfigMap.labelSelector src :=
  rfl

/-- The reflect loop changes nothing when every target already holds the projection. -/
theorem configMap_reflectLoop_mem_fixed (l : List String) :
    ∀ (p : ConfigMap) (s : List ConfigMap), StoreWF ConfigMap.ObjectMeta s →
    (∀ n ∈ l, n ≠ "" →
      storeLookup ConfigMap.ObjectMeta s ⟨n, p.ObjectMeta.Name⟩ = some (p.setNamespace n)) →
    ReconcileConfigMap.reflectLoop (memClient ConfigMap.ObjectMeta) p l s = (none, s) := by
  induction l with
  | nil =>
    intro p s _ _
    simp [ReconcileConfigMap.reflectLoop]
  | cons n rest ih =>
    intro p s hwf h
    rw [ReconcileConfigMap.reflectLoop]
    by_cases hn : n = ""
    · rw [if_pos hn]
      exact ih p s hwf (fun m hm => h m (List.mem_cons_of_mem _ hm))
    · rw [if_neg hn]
      have hl := h n (List.mem_cons_self _ _) hn
      have hl' : storeLookup ConfigMap.ObjectMeta s (p.setNamespace n).ObjectMeta.key
          = some (p.setNamespace n) := hl
      have hpres : storeLookup ConfigMap.ObjectMeta s (p.setNamespace n).ObjectMeta.key ≠ none := by
        rw [hl']; simp
      simp only [memClient_Get]
      have hl2 : storeLookup ConfigMap.ObjectMeta s
          ⟨(p.setNamespace n).ObjectMeta.Namespace, (p.setNamespace n).ObjectMeta.Name⟩
          = some (p.setNamespace n) := hl
      rw [hl2]
      simp only []
      rw [memClient_Update_present _ _ _ hpres, storeMap_replace_self _ _ hwf hl']
      simp only []
      exact ih (p.setNamespace n) s hwf (fun m hm hm' => h m (List.mem_cons_of_mem _ hm) hm')

/-- A delete loop over items that are all in the namespace list deletes nothing. -/
theorem configMap_deleteLoop_none {σ : Type} (c : Client σ ConfigMap)
    (namespaces : List String) (items : List ConfigMap) (s : σ)
    (h : ∀ o ∈ items, o.ObjectMeta.Namespace ∈ namespaces) :
    ReconcileConfigMap.deleteLoop c namespaces items s = (none, s) := by
  induction items with
  | nil => simp [ReconcileConfigMap.deleteLoop]
  | cons o rest ih =>
    rw [ReconcileConfigMap.deleteLoop]
    have ho : StringSliceContains namespaces o.ObjectMeta.Namespace = true :=
      (StringSliceContains_iff _ _).mpr (h o (List.mem_cons_self _ _))
    simp only [ho, Bool.not_true, Bool.false_eq_true, if_false]
    exact ih (fun x hx => h x (List.mem_cons_of_mem _ hx))

/-- On the in-memory store the ConfigMap delete loop succeeds and removes exactly the
keys of the listed items whose namespace is not in the list. -/
theorem configMap_deleteLoop_mem (namespaces : List String) (items : List ConfigMap) :
    ∀ (s : List ConfigMap), StoreWF ConfigMap.ObjectMeta s →
    (∀ o ∈ items, storeLookup ConfigMap.ObjectMeta s o.ObjectMeta.key ≠ none) →
    (items.map (fun o => o.ObjectMeta.key)).Nodup →
    ReconcileConfigMap.deleteLoop (memClient ConfigMap.ObjectMeta) namespaces items s =
      (none, s.filter (fun x => decide (x.ObjectMeta.key ∉
        (items.filter (fun o => !StringSliceContains namespaces o.ObjectMeta.Namespace)).map
          (fun o => o.ObjectMeta.key)))) := by
  induction items with
  | nil =>
    intro s _ _ _
    simp [ReconcileConfigMap.deleteLoop]
  | cons o rest ih =>
    intro s hwf hpres hnd
    rw [List.map_cons, List.nodup_cons] at hnd
    rw [ReconcileConfigMap.deleteLoop]
    by_cases hd : StringSliceContains namespaces o.ObjectMeta.Namespace = true
    · have hf : (o :: rest).filter (fun o => !StringSliceContains namespaces o.ObjectMeta.Namespace)
          = rest.filter (fun o => !StringSliceContains namespaces o.ObjectMeta.Namespace) := by
        simp [List.filter_cons, hd]
      simp only [hd, Bool.not_true, Bool.false_eq_true, if_false]
      rw [hf]
      exact ih s hwf (fun x hx => hpres x (List.mem_cons_of_mem _ hx)) hnd.2
    · have hf : (o :: rest).filter (fun o => !StringSliceContains namespaces o.ObjectMeta.Namespace)
          = o :: rest.filter (fun o => !StringSliceContains namespaces o.ObjectMeta.Namespace) := by
        simp [List.filter_cons, hd]
      simp only [hd, Bool.not_false, if_true]
      rw [memClient_Delete_present _ _ _ (hpres o (List.mem_cons_self _ _))]
      simp only []
      rw [ih _ (storeWF_filter _ _ hwf) ?_ hnd.2]
      · rw [List.filter_filter, hf]
        congr 1
        apply List.filter_congr
        intro x _
        simp [List.map_cons, List.mem_cons, Bool.and_comm]
      · intro x hx
        rw [storeLookup_remove]
        have hne : x.ObjectMeta.key ≠ o.ObjectMeta.key := fun e =>
          hnd.1 (e ▸ List.mem_map_of_mem (fun o => o.ObjectMeta.key) hx)
        simp only [hne, if_false]
        exact hpres x (List.mem_cons_of_mem _ hx)

theorem storeKey_mem_filter {α : Type} (getMeta : α → ObjectMeta) (q : α → Bool) {s : List α}
    (hwf : StoreWF getMeta s) {x : α} (hx : x ∈ s) :
    (getMeta x).key ∈ (s.filter q).map (fun o => (getMeta o).key) ↔ q x = true := by
  constructor
  · intro h
    rcases List.mem_map.mp h with ⟨y, hy, hk⟩
    have hy' := List.mem_filter.mp hy
    have h1 := storeLookup_of_mem getMeta hwf hy'.1
    have h2 := storeLookup_of_mem getMeta hwf hx
    rw [hk, h2] at h1
    rw [Option.some.inj h1]
    exact hy'.2
  · intro h
    exact List.mem_map_of_mem _ (List.mem_filter.mpr ⟨hx, h⟩)

/-- The ConfigMap delete loop run on the result of the label `List`: exactly the
objects that the selector matches and that live outside the namespace list are removed. -/
theorem configMap_deleteLoop_mem_listed (namespaces : List String) (sel : GoMap)
    (s : List ConfigMap) (hwf : StoreWF ConfigMap.ObjectMeta s) :
    ReconcileConfigMap.deleteLoop (memClient ConfigMap.ObjectMeta) namespaces
        (s.filter (fun o => matchesLabels sel o.ObjectMeta.Labels)) s =
      (none, s.filter (fun x => !(matchesLabels sel x.ObjectMeta.Labels &&
        !StringSliceContains namespaces x.ObjectMeta.Namespace))) := by
  rw [configMap_deleteLoop_mem namespaces _ s hwf]
  · congr 1
    apply List.filter_congr
    intro x hx
    rw [List.filter_filter]
    have := storeKey_mem_filter ConfigMap.ObjectMeta
      (fun a => (!StringSliceContains namespaces a.ObjectMeta.Namespace) &&
        matchesLabels sel a.ObjectMeta.Labels) hwf hx
    by_cases hq : ((!StringSliceContains namespaces x.ObjectMeta.Namespace) &&
        matchesLabels sel x.ObjectMeta.Labels) = true
    · have h1 := this.mpr hq
      simp only [h1, not_true_eq_false, decide_False]
      simp only [Bool.and_eq_true] at hq
      simp [hq.1, hq.2]
    · have h1 : ¬ _ := fun h => hq (this.mp h)
      simp only [h1, not_false_eq_true, decide_True]
      simp only [Bool.and_eq_true, not_and] at hq
      cases hm : matchesLabels sel x.ObjectMeta.Labels
      · simp
      · cases hc : StringSliceContains namespaces x.ObjectMeta.Namespace
        · simp [hm, hc] at hq
        · simp
  · intro o ho
    rw [storeLookup_of_mem _ hwf (List.mem_filter.mp ho).1]
    simp
  · exact List.Nodup.sublist (List.Sublist.map _ (List.filter_sublist s)) hwf

theorem SetControllerReference_newConfigMapFrom (inst : ConfigMap) :
    SetControllerReference inst.ObjectMeta "ConfigMap" (newConfigMapFrom inst).ObjectMeta =
      .ok (ReconcileConfigMap.projection inst "").ObjectMeta :=
  rfl

theorem SetControllerReference_newSecretFrom (inst : Secret) :
    SetControllerReference inst.ObjectMeta "Secret" (newSecretFrom inst).ObjectMeta =
      .ok (ReconcileSecret.projection inst "").ObjectMeta :=
  rfl

/-- The ConfigMap pass on the in-memory store, for a source that is under control: it
succeeds, and its final state is the state after the reflect loop minus the objects
returned by the `List` that live outside the namespace list. -/
theorem configMap_Reconcile_mem (S : List ConfigMap) (request : NamespacedName)
    (src : ConfigMap) (namespaces : List String) (hwf : StoreWF ConfigMap.ObjectMeta S)
    (hsrc : storeLookup ConfigMap.ObjectMeta S request = some src)
    (hns : GetReflectNamespaceList (mapIndex src.ObjectMeta.Annotations AnnotationReflectNamespaces)
      = some namespaces) :
    ∃ S', StoreWF ConfigMap.ObjectMeta S' ∧
      (∀ k, storeLookup ConfigMap.ObjectMeta S' k =
        if k.Name = src.ObjectMeta.Name ∧ k.Namespace ∈ namespaces ∧ k.Namespace ≠ ""
        then some (ReconcileConfigMap.projection src k.Namespace)
        else storeLookup ConfigMap.ObjectMeta S k) ∧
      ReconcileConfigMap.Reconcile (memClient ConfigMap.ObjectMeta) request S =
        (none, S'.filter (fun x => !(selectedBy src.ObjectMeta x.ObjectMeta &&
          !StringSliceContains namespaces x.ObjectMeta.Namespace))) := by
  obtain ⟨S', hrun, hwf', hl⟩ := configMap_reflectLoop_mem namespaces
    (ReconcileConfigMap.projection src "") S hwf
  refine ⟨S', hwf', hl, ?_⟩
  unfold ReconcileConfigMap.Reconcile
  simp only [memClient_Get, hsrc, hns, SetControllerReference_newConfigMapFrom]
  have hp : ({ newConfigMapFrom src with
      ObjectMeta := (ReconcileConfigMap.projection src "").ObjectMeta } : ConfigMap)
      = ReconcileConfigMap.projection src "" := rfl
  rw [hp, hrun]
  simp only [memClient_List]
  rw [configMap_deleteLoop_mem_listed _ _ _ hwf']
  simp only [matchesLabels_selectedBy]

theorem secret_reflectLoop_mem_step (inst p : Secret) (n : String)
    (rest : List String) (s : List Secret) (hn : n ≠ "") (hself : n ≠ inst.ObjectMeta.Namespace)
    (hwf : StoreWF Secret.ObjectMeta s) :
    ∃ s1, StoreWF Secret.ObjectMeta s1 ∧
      (∀ k, storeLookup Secret.ObjectMeta s1 k =
        if k = ⟨n, p.ObjectMeta.Name⟩ then some (p.setNamespace n)
        else storeLookup Secret.ObjectMeta s k) ∧
      ReconcileSecret.reflectLoop (memClient Secret.ObjectMeta) inst p (n :: rest) s =
        ReconcileSecret.reflectLoop (memClient Secret.ObjectMeta) inst (p.setNamespace n) rest s1 := by
  rw [ReconcileSecret.reflectLoop, if_neg hn, if_neg hself]
  simp only [memClient_Get]
  have hkey : (p.setNamespace n).ObjectMeta.key = ⟨n, p.ObjectMeta.Name⟩ := rfl
  cases h : storeLookup Secret.ObjectMeta s
      ⟨(p.setNamespace n).ObjectMeta.Namespace, (p.setNamespace n).ObjectMeta.Name⟩ with
  | none =>
    have habs : storeLookup Secret.ObjectMeta s (p.setNamespace n).ObjectMeta.key = none := h
    simp only [IsNotFound, if_true]
    rw [memClient_Create_absent _ _ _ habs]
    refine ⟨_, storeWF_append _ _ hwf habs, fun k => ?_, rfl⟩
    rw [storeLookup_append _ _ _ _ habs, hkey]
  | some o =>
    have hpres : storeLookup Secret.ObjectMeta s (p.setNamespace n).ObjectMeta.key ≠ none := by
      change storeLookup Secret.ObjectMeta s
        ⟨(p.setNamespace n).ObjectMeta.Namespace, (p.setNamespace n).ObjectMeta.Name⟩ ≠ none
      rw [h]; simp
    simp only []
    rw [memClient_Update_present _ _ _ hpres]
    refine ⟨_, storeWF_replace _ _ hwf, fun k => ?_, rfl⟩
    rw [storeLookup_replace _ _ _ _ hpres, hkey]

/-- On the in-memory store the Secret reflect loop succeeds and leaves the projection
under every key (n, name) with n an entry of the list that is neither empty nor the
source's own namespace; other keys are untouched. -/
theorem secret_reflectLoop_mem (inst : Secret) (l : List String) :
    ∀ (p : Secret) (s : List Secret), StoreWF Secret.ObjectMeta s →
    ∃ s', ReconcileSecret.reflectLoop (memClient Secret.ObjectMeta) inst p l s = (none, s') ∧
      StoreWF Secret.ObjectMeta s' ∧
      ∀ k, storeLookup Secret.ObjectMeta s' k =
        if k.Name = p.ObjectMeta.Name ∧ k.Namespace ∈ l ∧ k.Namespace ≠ "" ∧
          k.Namespace ≠ inst.ObjectMeta.Namespace
        then some (p.setNamespace k.Namespace) else storeLookup Secret.ObjectMeta s k := by
  induction l with
  | nil =>
    intro p s hwf
    exact ⟨s, by simp [ReconcileSecret.reflectLoop], hwf, by simp⟩
  | cons n rest ih =>
    intro p s hwf
    by_cases hn : n = ""
    · rw [ReconcileSecret.reflectLoop, if_pos hn]
      obtain ⟨s', h1, h2, h3⟩ := ih p s hwf
      refine ⟨s', h1, h2, fun k => ?_⟩
      rw [h3 k]
      by_cases hk : k.Namespace = "" <;> simp [hk, hn]
    · by_cases hself : n = inst.ObjectMeta.Namespace
      · rw [ReconcileSecret.reflectLoop, if_neg hn, if_pos hself]
        obtain ⟨s', h1, h2, h3⟩ := ih p s hwf
        refine ⟨s', h1, h2, fun k => ?_⟩
        rw [h3 k]
        by_cases hk : k.Namespace = inst.ObjectMeta.Namespace <;> simp [hk, hself]
      · obtain ⟨s1, hwf1, hl1, hrun⟩ :=
          secret_reflectLoop_mem_step inst p n rest s hn hself hwf
        obtain ⟨s', h1, h2, h3⟩ := ih (p.setNamespace n) s1 hwf1
        refine ⟨s', hrun.trans h1, h2, fun k => ?_⟩
        rw [h3 k, hl1 k]
        rcases k with ⟨kns, kname⟩
        have hname : (p.setNamespace n).ObjectMeta.Name = p.ObjectMeta.Name := rfl
        simp only [hname, secret_setNamespace_setNamespace, NamespacedName.mk.injEq,
          List.mem_cons]
        by_cases hk1 : kname = p.ObjectMeta.Name
        · by_cases hk2 : kns = n
          · subst hk2
            by_cases hk3 : kns ∈ rest <;> simp [hk1, hk3, hn, hself]
          · simp [hk1, hk2]
        · simp [hk1]

/-- The reflect loop changes nothing when every target already holds the projection. -/
theorem secret_reflectLoop_mem_fixed (inst : Secret) (l : List String) :
    ∀ (p : Secret) (s : List Secret), StoreWF Secret.ObjectMeta s →
    (∀ n ∈ l, n ≠ "" → n ≠ inst.ObjectMeta.Namespace →
      storeLookup Secret.ObjectMeta s ⟨n, p.ObjectMeta.Name⟩ = some (p.setNamespace n)) →
    ReconcileSecret.reflectLoop (memClient Secret.ObjectMeta) inst p l s = (none, s) := by
  induction l with
  | nil =>
    intro p s _ _
    simp [ReconcileSecret.reflectLoop]
  | cons n rest ih =>
    intro p s hwf h
    rw [ReconcileSecret.reflectLoop]
    by_cases hn : n = ""
    · rw [if_pos hn]
      exact ih p s hwf (fun m hm => h m (List.mem_cons_of_mem _ hm))
    · rw [if_neg hn]
      by_cases hself : n = inst.ObjectMeta.Namespace
      · rw [if_pos hself]
        exact ih p s hwf (fun m hm => h m (List.mem_cons_of_mem _ hm))
      · rw [if_neg hself]
        have hl := h n (List.mem_cons_self _ _) hn hself
        have hl' : storeLookup Secret.ObjectMeta s (p.setNamespace n).ObjectMeta.key
            = some (p.setNamespace n) := hl
        have hpres : storeLookup Secret.ObjectMeta s (p.setNamespace n).ObjectMeta.key ≠ none := by
          rw [hl']; simp
        simp only [memClient_Get]
        have hl2 : storeLookup Secret.ObjectMeta s
            ⟨(p.setNamespace n).ObjectMeta.Namespace, (p.setNamespace n).ObjectMeta.Name⟩
            = some (p.setNamespace n) := hl
        rw [hl2]
        simp only []
        rw [memClient_Update_present _ _ _ hpres, storeMap_replace_self _ _ hwf hl']
        simp only []
        exact ih (p.setNamespace n) s hwf
          (fun m hm hm' hm'' => h m (List.mem_cons_of_mem _ hm) hm' hm'')

/-- A delete loop over items that are all in the namespace list deletes nothing. -/
theorem secret_deleteLoop_none {σ : Type} (c : Client σ Secret)
    (namespaces : List String) (items : List Secret) (s : σ)
    (h : ∀ o ∈ items, o.ObjectMeta.Namespace ∈ namespaces) :
    ReconcileSecret.deleteLoop c namespaces items s = (none, s) := by
  induction items with
  | nil => simp [ReconcileSecret.deleteLoop]
  | cons o rest ih =>
    rw [ReconcileSecret.deleteLoop]
    have ho : StringSliceContains namespaces o.ObjectMeta.Namespace = true :=
      (StringSliceContains_iff _ _).mpr (h o (List.mem_cons_self _ _))
    simp only [ho, Bool.not_true, Bool.false_eq_true, if_false]
    exact ih (fun x hx => h x (List.mem_cons_of_mem _ hx))

/-- On the in-memory store the Secret delete loop succeeds and removes exactly the keys
of the listed items whose namespace is not in the list. -/
theorem secret_deleteLoop_mem (namespaces : List String) (items : List Secret) :
    ∀ (s : List Secret), StoreWF Secret.ObjectMeta s →
    (∀ o ∈ items, storeLookup Secret.ObjectMeta s o.ObjectMeta.key ≠ none) →
    (items.map (fun o => o.ObjectMeta.key)).Nodup →
    ReconcileSecret.deleteLoop (memClient Secret.ObjectMeta) namespaces items s =
      (none, s.filter (fun x => decide (x.ObjectMeta.key ∉
        (items.filter (fun o => !StringSliceContains namespaces o.ObjectMeta.Namespace)).map
          (fun o => o.ObjectMeta.key)))) := by
  induction items with
  | nil =>
    intro s _ _ _
    simp [ReconcileSecret.deleteLoop]
  | cons o rest ih =>
    intro s hwf hpres hnd
    rw [List.map_cons, List.nodup_cons] at hnd
    rw [ReconcileSecret.deleteLoop]
    by_cases hd : StringSliceContains namespaces o.ObjectMeta.Namespace = true
    · have hf : (o :: rest).filter (fun o => !StringSliceContains namespaces o.ObjectMeta.Namespace)
          = rest.filter (fun o => !StringSliceContains namespaces o.ObjectMeta.Namespace) := by
        simp [List.filter_cons, hd]
      simp only [hd, Bool.not_true, Bool.false_eq_true, if_false]
      rw [hf]
      exact ih s hwf (fun x hx => hpres x (List.mem_cons_of_mem _ hx)) hnd.2
    · have hf : (o :: rest).filter (fun o => !StringSliceContains namespaces o.ObjectMeta.Namespace)
          = o :: rest.filter (fun o => !StringSliceContains namespaces o.ObjectMeta.Namespace) := by
        simp [List.filter_cons, hd]
      have hkey : ({ o with ObjectMeta := DeleteSourceLabels o.ObjectMeta } : Secret).ObjectMeta.key
          = o.ObjectMeta.key := rfl
      have hp1 : storeLookup Secret.ObjectMeta s
          ({ o with ObjectMeta := DeleteSourceLabels o.ObjectMeta } : Secret).ObjectMeta.key ≠ none := by
        rw [hkey]; exact hpres o (List.mem_cons_self _ _)
      have hp2 : storeLookup Secret.ObjectMeta
          (s.map (fun x => if x.ObjectMeta.key =
            ({ o with ObjectMeta := DeleteSourceLabels o.ObjectMeta } : Secret).ObjectMeta.key
            then ({ o with ObjectMeta := DeleteSourceLabels o.ObjectMeta } : Secret) else x))
          ({ o with ObjectMeta := DeleteSourceLabels o.ObjectMeta } : Secret).ObjectMeta.key ≠ none := by
        rw [storeLookup_replace _ _ _ _ hp1]; simp
      simp only [hd, Bool.not_false, if_true]
      rw [memClient_Update_present _ _ _ hp1]
      simp only []
      rw [memClient_Delete_present _ _ _ hp2]
      have h3 := storeFilter_replace Secret.ObjectMeta
        ({ o with ObjectMeta := DeleteSourceLabels o.ObjectMeta } : Secret) s
      have hkey' : (DeleteSourceLabels o.ObjectMeta).key = o.ObjectMeta.key := rfl
      simp only [] at h3 ⊢
      rw [h3, hkey']
      rw [ih _ (storeWF_filter _ _ hwf) ?_ hnd.2]
      · rw [List.filter_filter, hf]
        congr 1
        apply List.filter_congr
        intro x _
        simp [List.map_cons, List.mem_cons, Bool.and_comm]
      · intro x hx
        rw [storeLookup_remove]
        have hne : x.ObjectMeta.key ≠ o.ObjectMeta.key := fun e =>
          hnd.1 (e ▸ List.mem_map_of_mem (fun o => o.ObjectMeta.key) hx)
        simp only [hne, if_false]
        exact hpres x (List.mem_cons_of_mem _ hx)

/-- The Secret delete loop run on the result of the label `List`: exactly the objects
that the selector matches and that live outside the namespace list are removed. -/
theorem secret_deleteLoop_mem_listed (namespaces : List String) (sel : GoMap)
    (s : List Secret) (hwf : StoreWF Secret.ObjectMeta s) :
    ReconcileSecret.deleteLoop (memClient Secret.ObjectMeta) namespaces
        (s.filter (fun o => matchesLabels sel o.ObjectMeta.Labels)) s =
      (none, s.filter (fun x => !(matchesLabels sel x.ObjectMeta.Labels &&
        !StringSliceContains namespaces x.ObjectMeta.Namespace))) := by
  rw [secret_deleteLoop_mem namespaces _ s hwf]
  · congr 1
    apply List.filter_congr
    intro x hx
    rw [List.filter_filter]
    have := storeKey_mem_filter Secret.ObjectMeta
      (fun a => (!StringSliceContains namespaces a.ObjectMeta.Namespace) &&
        matchesLabels sel a.ObjectMeta.Labels) hwf hx
    by_cases hq : ((!StringSliceContains namespaces x.ObjectMeta.Namespace) &&
        matchesLabels sel x.ObjectMeta.Labels) = true
    · have h1 := this.mpr hq
      simp only [h1, not_true_eq_false, decide_False]
      simp only [Bool.and_eq_true] at hq
      simp [hq.1, hq.2]
    · have h1 : ¬ _ := fun h => hq (this.mp h)
      simp only [h1, not_false_eq_true, decide_True]
      simp only [Bool.and_eq_true, not_and] at hq
      cases hm : matchesLabels sel x.ObjectMeta.Labels
      · simp
      · cases hc : StringSliceContains namespaces x.ObjectMeta.Namespace
        · simp [hm, hc] at hq
        · simp
  · intro o ho
    rw [storeLookup_of_mem _ hwf (List.mem_filter.mp ho).1]
    simp
  · exact List.Nodup.sublist (List.Sublist.map _ (List.filter_sublist s)) hwf

/-- The Secret pass on the in-memory store: it succeeds, whatever the annotation, and
its final state is the state after the reflect loop minus the objects returned by the
`List` that live outside the listed namespaces. -/
theorem secret_Reconcile_mem (S : List Secret) (request : NamespacedName)
    (src : Secret) (hwf : StoreWF Secret.ObjectMeta S)
    (hsrc : storeLookup Secret.ObjectMeta S request = some src) :
    ∃ S', StoreWF Secret.ObjectMeta S' ∧
      (∀ k, storeLookup Secret.ObjectMeta S' k =
        if k.Name = src.ObjectMeta.Name ∧
          k.Namespace ∈ sliceItems (GetReflectNamespaceList
            (mapIndex src.ObjectMeta.Annotations AnnotationReflectNamespaces)) ∧
          k.Namespace ≠ "" ∧ k.Namespace ≠ src.ObjectMeta.Namespace
        then some (ReconcileSecret.projection src k.Namespace)
        else storeLookup Secret.ObjectMeta S k) ∧
      ReconcileSecret.Reconcile (memClient Secret.ObjectMeta) request S =
        (none, S'.filter (fun x => !(selectedBy src.ObjectMeta x.ObjectMeta &&
          !StringSliceContains (sliceItems (GetReflectNamespaceList
            (mapIndex src.ObjectMeta.Annotations AnnotationReflectNamespaces)))
            x.ObjectMeta.Namespace))) := by
  obtain ⟨S', hrun, hwf', hl⟩ := secret_reflectLoop_mem src
    (sliceItems (GetReflectNamespaceList
      (mapIndex src.ObjectMeta.Annotations AnnotationReflectNamespaces)))
    (ReconcileSecret.projection src "") S hwf
  refine ⟨S', hwf', hl, ?_⟩
  unfold ReconcileSecret.Reconcile
  simp only [memClient_Get, hsrc, SetControllerReference_newSecretFrom]
  have hp : ({ newSecretFrom src with
      ObjectMeta := (ReconcileSecret.projection src "").ObjectMeta } : Secret)
      = ReconcileSecret.projection src "" := rfl
  rw [hp, hrun]
  simp only [memClient_List]
  rw [secret_deleteLoop_mem_listed _ _ _ hwf']
  simp only [secret_labelSelector_eq, matchesLabels_selectedBy]

/-! ## Convergence and idempotence on the in-memory store -/

theorem GetReflectNamespaceList_CopyAnnotationsFromMeta (src : ObjectMeta) :
    GetReflectNamespaceList (mapIndex (CopyAnnotationsFromMeta src) AnnotationReflectNamespaces)
      = none := by
  have hp : HasPrefix AnnotationReflectNamespaces Prefix = true := by decide
  simp [GetReflectNamespaceList, mapIndex, lookup_CopyAnnotationsFromMeta, hp]

/-- A store in which every target holds the projection and no object returned by the
`List` lives outside the namespace list is a fixed point of the ConfigMap pass. -/
theorem configMap_Reconcile_mem_fixed (F : List ConfigMap) (request : NamespacedName)
    (src : ConfigMap) (namespaces : List String) (hwf : StoreWF ConfigMap.ObjectMeta F)
    (hsrc : storeLookup ConfigMap.ObjectMeta F request = some src)
    (hns : GetReflectNamespaceList (mapIndex src.ObjectMeta.Annotations AnnotationReflectNamespaces)
      = some namespaces)
    (htargets : ∀ n ∈ namespaces, n ≠ "" →
      storeLookup ConfigMap.ObjectMeta F ⟨n, src.ObjectMeta.Name⟩
        = some (ReconcileConfigMap.projection src n))
    (hclean : ∀ o ∈ F, selectedBy src.ObjectMeta o.ObjectMeta = true →
      o.ObjectMeta.Namespace ∈ namespaces) :
    ReconcileConfigMap.Reconcile (memClient ConfigMap.ObjectMeta) request F = (none, F) := by
  unfold ReconcileConfigMap.Reconcile
  simp only [memClient_Get, hsrc, hns, SetControllerReference_newConfigMapFrom]
  have hp : ({ newConfigMapFrom src with
      ObjectMeta := (ReconcileConfigMap.projection src "").ObjectMeta } : ConfigMap)
      = ReconcileConfigMap.projection src "" := rfl
  rw [hp, configMap_reflectLoop_mem_fixed namespaces _ F hwf htargets]
  simp only [memClient_List]
  apply configMap_deleteLoop_none
  intro o ho
  have ho' := List.mem_filter.mp ho
  rw [matchesLabels_selectedBy] at ho'
  exact hclean o ho'.1 ho'.2

/-- A store in which every target holds the projection and no object returned by the
`List` lives outside the namespace list is a fixed point of the Secret pass. -/
theorem secret_Reconcile_mem_fixed (F : List Secret) (request : NamespacedName)
    (src : Secret) (hwf : StoreWF Secret.ObjectMeta F)
    (hsrc : storeLookup Secret.ObjectMeta F request = some src)
    (htargets : ∀ n ∈ sliceItems (GetReflectNamespaceList
        (mapIndex src.ObjectMeta.Annotations AnnotationReflectNamespaces)),
      n ≠ "" → n ≠ src.ObjectMeta.Namespace →
      storeLookup Secret.ObjectMeta F ⟨n, src.ObjectMeta.Name⟩
        = some (ReconcileSecret.projection src n))
    (hclean : ∀ o ∈ F, selectedBy src.ObjectMeta o.ObjectMeta = true →
      o.ObjectMeta.Namespace ∈ sliceItems (GetReflectNamespaceList
        (mapIndex src.ObjectMeta.Annotations AnnotationReflectNamespaces))) :
    ReconcileSecret.Reconcile (memClient Secret.ObjectMeta) request F = (none, F) := by
  unfold ReconcileSecret.Reconcile
  simp only [memClient_Get, hsrc, SetControllerReference_newSecretFrom]
  have hp : ({ newSecretFrom src with
      ObjectMeta := (ReconcileSecret.projection src "").ObjectMeta } : Secret)
      = ReconcileSecret.projection src "" := rfl
  rw [hp, secret_reflectLoop_mem_fixed src _ _ F hwf htargets]
  simp only [memClient_List]
  apply secret_deleteLoop_none
  intro o ho
  have ho' := List.mem_filter.mp ho
  rw [secret_labelSelector_eq, matchesLabels_selectedBy] at ho'
  exact hclean o ho'.1 ho'.2

/-- Without the source in the store the pass does nothing. -/
theorem configMap_Reconcile_mem_absent (F : List ConfigMap) (request : NamespacedName)
    (h : storeLookup ConfigMap.ObjectMeta F request = none) :
    ReconcileConfigMap.Reconcile (memClient ConfigMap.ObjectMeta) request F = (none, F) := by
  simp [ReconcileConfigMap.Reconcile, memClient_Get, h, IsNotFound]

/-- Without the reflect-namespaces annotation the ConfigMap pass does nothing. -/
theorem configMap_Reconcile_mem_gate (F : List ConfigMap) (request : NamespacedName)
    (x : ConfigMap) (h : storeLookup ConfigMap.ObjectMeta F request = some x)
    (hg : GetReflectNamespaceList
      (mapIndex x.ObjectMeta.Annotations AnnotationReflectNamespaces) = none) :
    ReconcileConfigMap.Reconcile (memClient ConfigMap.ObjectMeta) request F = (none, F) := by
  simp [ReconcileConfigMap.Reconcile, memClient_Get, h, hg]

/-- Without the source in the store the pass does nothing. -/
theorem secret_Reconcile_mem_absent (F : List Secret) (request : NamespacedName)
    (h : storeLookup Secret.ObjectMeta F request = none) :
    ReconcileSecret.Reconcile (memClient Secret.ObjectMeta) request F = (none, F) := by
  simp [ReconcileSecret.Reconcile, memClient_Get, h, IsNotFound]

/-- The ConfigMap pass on the in-memory store succeeds, and a second pass at the same
key changes nothing. -/
theorem configMap_idempotent_mem (S : List ConfigMap) (request : NamespacedName)
    (hwf : StoreWF ConfigMap.ObjectMeta S) :
    (ReconcileConfigMap.Reconcile (memClient ConfigMap.ObjectMeta) request S).1 = none ∧
    ReconcileConfigMap.Reconcile (memClient ConfigMap.ObjectMeta) request
        (ReconcileConfigMap.Reconcile (memClient ConfigMap.ObjectMeta) request S).2 =
      (none, (ReconcileConfigMap.Reconcile (memClient ConfigMap.ObjectMeta) request S).2) := by
  cases hsrc : storeLookup ConfigMap.ObjectMeta S request with
  | none =>
    have h := configMap_Reconcile_mem_absent S request hsrc
    rw [h]
    exact ⟨rfl, h⟩
  | some src =>
    cases hns : GetReflectNamespaceList
        (mapIndex src.ObjectMeta.Annotations AnnotationReflectNamespaces) with
    | none =>
      have h := configMap_Reconcile_mem_gate S request src hsrc hns
      rw [h]
      exact ⟨rfl, h⟩
    | some namespaces =>
      obtain ⟨S', hwf', hl, hrun⟩ := configMap_Reconcile_mem S request src namespaces hwf
        hsrc hns
      rw [hrun]
      refine ⟨rfl, ?_⟩
      simp only []
      have hwfF := storeWF_filter ConfigMap.ObjectMeta
        (fun x => !(selectedBy src.ObjectMeta x.ObjectMeta &&
          !StringSliceContains namespaces x.ObjectMeta.Namespace)) hwf'
      have hkeep : ∀ n ∈ namespaces,
          (fun x : ConfigMap => !(selectedBy src.ObjectMeta x.ObjectMeta &&
            !StringSliceContains namespaces x.ObjectMeta.Namespace))
            (ReconcileConfigMap.projection src n) = true := by
        intro n hn
        have hc : StringSliceContains namespaces
            (ReconcileConfigMap.projection src n).ObjectMeta.Namespace = true :=
          (StringSliceContains_iff _ _).mpr hn
        simp [hc]
      have hclean : ∀ o ∈ S'.filter (fun x => !(selectedBy src.ObjectMeta x.ObjectMeta &&
            !StringSliceContains namespaces x.ObjectMeta.Namespace)),
          selectedBy src.ObjectMeta o.ObjectMeta = true →
            o.ObjectMeta.Namespace ∈ namespaces := by
        intro o ho hc
        have hq := (List.mem_filter.mp ho).2
        simp only [hc, Bool.true_and, Bool.not_not] at hq
        exact (StringSliceContains_iff _ _).mp hq
      have htargets : ∀ n ∈ namespaces, n ≠ "" →
          storeLookup ConfigMap.ObjectMeta
            (S'.filter (fun x => !(selectedBy src.ObjectMeta x.ObjectMeta &&
              !StringSliceContains namespaces x.ObjectMeta.Namespace)))
            ⟨n, src.ObjectMeta.Name⟩ = some (ReconcileConfigMap.projection src n) := by
        intro n hn hne
        rw [storeLookup_filter _ _ hwf', hl]
        simp only [hn, hne, ne_eq, not_false_eq_true, and_self, if_true]
        simp only [Option.filter, hkeep n hn, if_true]
      cases hF : storeLookup ConfigMap.ObjectMeta
          (S'.filter (fun x => !(selectedBy src.ObjectMeta x.ObjectMeta &&
            !StringSliceContains namespaces x.ObjectMeta.Namespace))) request with
      | none => exact configMap_Reconcile_mem_absent _ request hF
      | some x =>
        have hx := hF
        rw [storeLookup_filter _ _ hwf', hl, hsrc] at hx
        by_cases hcond : request.Name = src.ObjectMeta.Name ∧ request.Namespace ∈ namespaces ∧
            request.Namespace ≠ ""
        · rw [if_pos hcond] at hx
          have hxe : x = ReconcileConfigMap.projection src request.Namespace := by
            simp only [Option.filter] at hx
            split at hx
            · exact (Option.some.inj hx).symm
            · cases hx
          have hgate : GetReflectNamespaceList
              (mapIndex x.ObjectMeta.Annotations AnnotationReflectNamespaces) = none := by
            rw [hxe]
            exact GetReflectNamespaceList_CopyAnnotationsFromMeta src.ObjectMeta
          exact configMap_Reconcile_mem_gate _ request x hF hgate
        · rw [if_neg hcond] at hx
          have hxe : x = src := by
            simp only [Option.filter] at hx
            split at hx
            · exact (Option.some.inj hx).symm
            · cases hx
          rw [hxe] at hF
          exact configMap_Reconcile_mem_fixed _ request src namespaces hwfF hF hns
            htargets hclean

/-- The Secret pass on the in-memory store succeeds, and a second pass at the same key
changes nothing. -/
theorem secret_idempotent_mem (S : List Secret) (request : NamespacedName)
    (hwf : StoreWF Secret.ObjectMeta S) :
    (ReconcileSecret.Reconcile (memClient Secret.ObjectMeta) request S).1 = none ∧
    ReconcileSecret.Reconcile (memClient Secret.ObjectMeta) request
        (ReconcileSecret.Reconcile (memClient Secret.ObjectMeta) request S).2 =
      (none, (ReconcileSecret.Reconcile (memClient Secret.ObjectMeta) request S).2) := by
  cases hsrc : storeLookup Secret.ObjectMeta S request with
  | none =>
    have h := secret_Reconcile_mem_absent S request hsrc
    rw [h]
    exact ⟨rfl, h⟩
  | some src =>
    obtain ⟨S', hwf', hl, hrun⟩ := secret_Reconcile_mem S request src hwf hsrc
    rw [hrun]
    refine ⟨rfl, ?_⟩
    simp only []
    generalize hN : sliceItems (GetReflectNamespaceList
      (mapIndex src.ObjectMeta.Annotations AnnotationReflectNamespaces)) = namespaces at hl ⊢
    have hwfF := storeWF_filter Secret.ObjectMeta
      (fun x => !(selectedBy src.ObjectMeta x.ObjectMeta &&
        !StringSliceContains namespaces x.ObjectMeta.Namespace)) hwf'
    have hkeep : ∀ n ∈ namespaces,
        (fun x : Secret => !(selectedBy src.ObjectMeta x.ObjectMeta &&
          !StringSliceContains namespaces x.ObjectMeta.Namespace))
          (ReconcileSecret.projection src n) = true := by
      intro n hn
      have hc : StringSliceContains namespaces
          (ReconcileSecret.projection src n).ObjectMeta.Namespace = true :=
        (StringSliceContains_iff _ _).mpr hn
      simp [hc]
    have hclean : ∀ o ∈ S'.filter (fun x => !(selectedBy src.ObjectMeta x.ObjectMeta &&
          !StringSliceContains namespaces x.ObjectMeta.Namespace)),
        selectedBy src.ObjectMeta o.ObjectMeta = true →
          o.ObjectMeta.Namespace ∈ namespaces := by
      intro o ho hc
      have hq := (List.mem_filter.mp ho).2
      simp only [hc, Bool.true_and, Bool.not_not] at hq
      exact (StringSliceContains_iff _ _).mp hq
    have htargets : ∀ n ∈ namespaces, n ≠ "" → n ≠ src.ObjectMeta.Namespace →
        storeLookup Secret.ObjectMeta
          (S'.filter (fun x => !(selectedBy src.ObjectMeta x.ObjectMeta &&
            !StringSliceContains namespaces x.ObjectMeta.Namespace)))
          ⟨n, src.ObjectMeta.Name⟩ = some (ReconcileSecret.projection src n) := by
      intro n hn hne hself
      rw [storeLookup_filter _ _ hwf', hl]
      simp only [hn, hne, hself, ne_eq, not_false_eq_true, and_self, if_true]
      simp only [Option.filter, hkeep n hn, if_true]
    cases hF : storeLookup Secret.ObjectMeta
        (S'.filter (fun x => !(selectedBy src.ObjectMeta x.ObjectMeta &&
          !StringSliceContains namespaces x.ObjectMeta.Namespace))) request with
    | none => exact secret_Reconcile_mem_absent _ request hF
    | some x =>
      have hx := hF
      have hkey : request.Namespace = src.ObjectMeta.Namespace := by
        rw [← storeLookup_key _ hsrc]; rfl
      rw [storeLookup_filter _ _ hwf', hl, hsrc] at hx
      have hcond : ¬ (request.Name = src.ObjectMeta.Name ∧ request.Namespace ∈ namespaces ∧
          request.Namespace ≠ "" ∧ request.Namespace ≠ src.ObjectMeta.Namespace) :=
        fun h => h.2.2.2 hkey
      rw [if_neg hcond] at hx
      have hxe : x = src := by
        simp only [Option.filter] at hx
        split at hx
        · exact (Option.some.inj hx).symm
        · cases hx
      rw [hxe] at hF
      subst hN
      exact secret_Reconcile_mem_fixed _ request src hwfF hF htargets hclean

/-! ## Claims on a whole pass over the in-memory store -/

/-- C2: for both reconcilers, over the in-memory store, for every store state `S` and
every request key (the source's key in particular): the pass on `S` returns success with
a state `S1`, and the pass run again on `S1` returns success with a state equal to
`S1`. -/
theorem Reconcile_idempotent (SC : List ConfigMap) (SS : List Secret)
    (request : NamespacedName)
    (hwfC : StoreWF ConfigMap.ObjectMeta SC) (hwfS : StoreWF Secret.ObjectMeta SS) :
    ((ReconcileConfigMap.Reconcile (memClient ConfigMap.ObjectMeta) request SC).1 = none ∧
      ReconcileConfigMap.Reconcile (memClient ConfigMap.ObjectMeta) request
          (ReconcileConfigMap.Reconcile (memClient ConfigMap.ObjectMeta) request SC).2 =
        (none, (ReconcileConfigMap.Reconcile (memClient ConfigMap.ObjectMeta) request SC).2)) ∧
    ((ReconcileSecret.Reconcile (memClient Secret.ObjectMeta) request SS).1 = none ∧
      ReconcileSecret.Reconcile (memClient Secret.ObjectMeta) request
          (ReconcileSecret.Reconcile (memClient Secret.ObjectMeta) request SS).2 =
        (none, (ReconcileSecret.Reconcile (memClient Secret.ObjectMeta) request SS).2)) :=
  ⟨configMap_idempotent_mem SC request hwfC,
   secret_idempotent_mem SS request hwfS⟩

/-- Witness for C2: a store with the source, one copy to update and one stale copy to
remove; the second pass leaves the result of the first untouched. -/
theorem Reconcile_idempotent_witness :
    ReconcileConfigMap.Reconcile (memClient ConfigMap.ObjectMeta) ⟨"ns-a", "cm1"⟩
        (ReconcileConfigMap.Reconcile (memClient ConfigMap.ObjectMeta) ⟨"ns-a", "cm1"⟩
          [cmSource "ns-b,ns-c", cmCopy "ns-b", cmCopy "ns-d"]).2 =
      (none, (ReconcileConfigMap.Reconcile (memClient ConfigMap.ObjectMeta) ⟨"ns-a", "cm1"⟩
          [cmSource "ns-b,ns-c", cmCopy "ns-b", cmCopy "ns-d"]).2) ∧
    ReconcileSecret.Reconcile (memClient Secret.ObjectMeta) ⟨"ns-a", "cm1"⟩
        (ReconcileSecret.Reconcile (memClient Secret.ObjectMeta) ⟨"ns-a", "cm1"⟩
          [sampleSecret "ns-a" "cm1" [] [(AnnotationReflectNamespaces, "ns-b,ns-c")],
            sampleSecret "ns-d" "cm1" (provenance "ns-a" "cm1") []]).2 =
      (none, (ReconcileSecret.Reconcile (memClient Secret.ObjectMeta) ⟨"ns-a", "cm1"⟩
          [sampleSecret "ns-a" "cm1" [] [(AnnotationReflectNamespaces, "ns-b,ns-c")],
            sampleSecret "ns-d" "cm1" (provenance "ns-a" "cm1") []]).2) :=
  have h := Reconcile_idempotent [cmSource "ns-b,ns-c", cmCopy "ns-b", cmCopy "ns-d"]
    [sampleSecret "ns-a" "cm1" [] [(AnnotationReflectNamespaces, "ns-b,ns-c")],
      sampleSecret "ns-d" "cm1" (provenance "ns-a" "cm1") []]
    ⟨"ns-a", "cm1"⟩ (by decide) (by decide)
  ⟨h.1.2, h.2.2⟩

/-- C3, the code at the failing input: the ConfigMap `ns-a/cm1` lists its own namespace
`ns-a`.  The ConfigMap pass finds the source itself at (`ns-a`, `cm1`) and issues an
`Update` of the projection under that key: the source is replaced by its projection and
has lost its reflect-namespaces annotation.  The Secret pass on the same input skips the
entry and leaves the source alone. -/
theorem configMap_self_namespace_overwrites_source :
    ReconcileConfigMap.Reconcile (traced (memClient ConfigMap.ObjectMeta)) ⟨"ns-a", "cm1"⟩
        ([cmSource "ns-a"], []) =
      (none,
        ([ReconcileConfigMap.projection (cmSource "ns-a") "ns-a"],
          [Event.Get ⟨"ns-a", "cm1"⟩ (.ok (cmSource "ns-a")),
           Event.Get ⟨"ns-a", "cm1"⟩ (.ok (cmSource "ns-a")),
           Event.Update (ReconcileConfigMap.projection (cmSource "ns-a") "ns-a") none,
           Event.List (ReconcileConfigMap.labelSelector (cmSource "ns-a").ObjectMeta)
             (.ok [ReconcileConfigMap.projection (cmSource "ns-a") "ns-a"])])) ∧
    mapIndex (ReconcileConfigMap.projection (cmSource "ns-a") "ns-a").ObjectMeta.Annotations
        AnnotationReflectNamespaces = "" ∧
    ReconcileSecret.Reconcile (traced (memClient Secret.ObjectMeta)) ⟨"ns-a", "s1"⟩
        ([secSource "ns-a"], []) =
      (none,
        ([secSource "ns-a"],
          [Event.Get ⟨"ns-a", "s1"⟩ (.ok (secSource "ns-a")),
           Event.List (ReconcileSecret.labelSelector (secSource "ns-a").ObjectMeta) (.ok [])])) :=
  ⟨rfl, by decide, rfl⟩

/-- C4, the code at the failing input: the Secret `ns-a/s1` has no reflect-namespaces
annotation and the store holds a reflected copy in `ns-b`.  The Secret pass has no gate:
it lists the copy, strips its labels with an `Update` and issues `Delete`, so the copy is
gone.  The ConfigMap pass on the same input returns after the source `Get`. -/
theorem secret_without_annotation_deletes_copies :
    ReconcileSecret.Reconcile (traced (memClient Secret.ObjectMeta)) ⟨"ns-a", "s1"⟩
        ([secPlain, secCopy "ns-b"], []) =
      (none,
        ([secPlain],
          [Event.Get ⟨"ns-a", "s1"⟩ (.ok secPlain),
           Event.List (ReconcileSecret.labelSelector secPlain.ObjectMeta) (.ok [secCopy "ns-b"]),
           Event.Update (secCopyStripped "ns-b") none,
           Event.Delete (secCopyStripped "ns-b") none])) ∧
    ReconcileConfigMap.Reconcile (traced (memClient ConfigMap.ObjectMeta)) ⟨"ns-a", "cm1"⟩
        ([cmPlain, cmCopy "ns-b"], []) =
      (none, ([cmPlain, cmCopy "ns-b"], [Event.Get ⟨"ns-a", "cm1"⟩ (.ok cmPlain)])) :=
  ⟨rfl, rfl⟩

/-- C5, the code at the failing input: the ConfigMap `ns-a/cm1` lists `ns-b` and the
store holds copies in `ns-b` and `ns-c`.  The ConfigMap pass issues `Delete` for the
dangling copy of `ns-c` as listed, with both provenance labels still on it and no
`Update` before.  The Secret pass on the same input first issues the `Update` that
strips the labels. -/
theorem configMap_deletes_copy_with_labels :
    ReconcileConfigMap.Reconcile (traced (memClient ConfigMap.ObjectMeta)) ⟨"ns-a", "cm1"⟩
        ([cmSource "ns-b", cmCopy "ns-b", cmCopy "ns-c"], []) =
      (none,
        ([cmSource "ns-b", ReconcileConfigMap.projection (cmSource "ns-b") "ns-b"],
          [Event.Get ⟨"ns-a", "cm1"⟩ (.ok (cmSource "ns-b")),
           Event.Get ⟨"ns-b", "cm1"⟩ (.ok (cmCopy "ns-b")),
           Event.Update (ReconcileConfigMap.projection (cmSource "ns-b") "ns-b") none,
           Event.List (ReconcileConfigMap.labelSelector (cmSource "ns-b").ObjectMeta)
             (.ok [ReconcileConfigMap.projection (cmSource "ns-b") "ns-b", cmCopy "ns-c"]),
           Event.Delete (cmCopy "ns-c") none])) ∧
    HasSourceLabels (cmCopy "ns-c").ObjectMeta = true ∧
    ReconcileSecret.Reconcile (traced (memClient Secret.ObjectMeta)) ⟨"ns-a", "s1"⟩
        ([secSource "ns-b", secCopy "ns-b", secCopy "ns-c"], []) =
      (none,
        ([secSource "ns-b", ReconcileSecret.projection (secSource "ns-b") "ns-b"],
          [Event.Get ⟨"ns-a", "s1"⟩ (.ok (secSource "ns-b")),
           Event.Get ⟨"ns-b", "s1"⟩ (.ok (secCopy "ns-b")),
           Event.Update (ReconcileSecret.projection (secSource "ns-b") "ns-b") none,
           Event.List (ReconcileSecret.labelSelector (secSource "ns-b").ObjectMeta)
             (.ok [ReconcileSecret.projection (secSource "ns-b") "ns-b", secCopy "ns-c"]),
           Event.Update (secCopyStripped "ns-c") none,
           Event.Delete (secCopyStripped "ns-c") none])) :=
  ⟨rfl, by decide, rfl⟩

/-! ## Claims on the watches -/

theorem watch_of_projected_meta (src m : ObjectMeta) (hl : m.Labels = CopyLabelsFromMeta src)
    (ha : m.Annotations = CopyAnnotationsFromMeta src) (hn : src.Name ≠ "")
    (hs : src.Namespace ≠ "") :
    HasSourceLabels m = true ∧ HasControllerAnnotations m = false ∧
      mapIndex m.Labels LabelSourceName = src.Name ∧
      mapIndex m.Labels LabelSourceNamespace = src.Namespace := by
  have hne : LabelSourceName ≠ LabelSourceNamespace := by decide
  have hp : HasPrefix AnnotationReflectNamespaces Prefix = true := by decide
  have h1 : mapIndex m.Labels LabelSourceName = src.Name := by
    simp [mapIndex, hl, lookup_CopyLabelsFromMeta, hne]
  have h2 : mapIndex m.Labels LabelSourceNamespace = src.Namespace := by
    simp [mapIndex, hl, lookup_CopyLabelsFromMeta]
  refine ⟨?_, ?_, h1, h2⟩
  · simp [HasSourceLabels, h1, h2, hn, hs]
  · simp [HasControllerAnnotations, mapIndex, ha, lookup_CopyAnnotationsFromMeta, hp]

/-- C11: for every source with non-empty name and namespace, whatever its labels and
annotations, the projection built by `newConfigMapFrom` / `newSecretFrom` (and the copy
of it stored in any namespace `n`) satisfies `HasSourceLabels` and not
`HasControllerAnnotations`, so it passes the delete predicate of the reflected-copy
watch, and the mapper maps it to exactly one request, the source's (namespace, name);
that request differs from the key of the projection as built, and from the key of the
stored copy whenever `n` is not the source's own namespace. -/
theorem projection_round_trip_through_delete_watch (cm : ConfigMap) (sec : Secret)
    (hcn : cm.ObjectMeta.Name ≠ "") (hcs : cm.ObjectMeta.Namespace ≠ "")
    (hsn : sec.ObjectMeta.Name ≠ "") (hss : sec.ObjectMeta.Namespace ≠ "") :
    (HasSourceLabels (newConfigMapFrom cm).ObjectMeta = true ∧
      HasControllerAnnotations (newConfigMapFrom cm).ObjectMeta = false ∧
      ReconcileConfigMap.reflectedDeleteFunc (newConfigMapFrom cm).ObjectMeta = true ∧
      ReconcileConfigMap.mapper (newConfigMapFrom cm).ObjectMeta = [cm.ObjectMeta.key] ∧
      cm.ObjectMeta.key ≠ (newConfigMapFrom cm).ObjectMeta.key ∧
      ∀ n, ReconcileConfigMap.reflectedDeleteFunc (ReconcileConfigMap.projection cm n).ObjectMeta = true ∧
        ReconcileConfigMap.mapper (ReconcileConfigMap.projection cm n).ObjectMeta = [cm.ObjectMeta.key] ∧
        (n ≠ cm.ObjectMeta.Namespace →
          cm.ObjectMeta.key ≠ (ReconcileConfigMap.projection cm n).ObjectMeta.key)) ∧
    (HasSourceLabels (newSecretFrom sec).ObjectMeta = true ∧
      HasControllerAnnotations (newSecretFrom sec).ObjectMeta = false ∧
      ReconcileSecret.reflectedDeleteFunc (newSecretFrom sec).ObjectMeta = true ∧
      ReconcileSecret.mapper (newSecretFrom sec).ObjectMeta = [sec.ObjectMeta.key] ∧
      sec.ObjectMeta.key ≠ (newSecretFrom sec).ObjectMeta.key ∧
      ∀ n, ReconcileSecret.reflectedDeleteFunc (ReconcileSecret.projection sec n).ObjectMeta = true ∧
        ReconcileSecret.mapper (ReconcileSecret.projection sec n).ObjectMeta = [sec.ObjectMeta.key] ∧
        (n ≠ sec.ObjectMeta.Namespace →
          sec.ObjectMeta.key ≠ (ReconcileSecret.projection sec n).ObjectMeta.key)) := by
  constructor
  · obtain ⟨h1, h2, h3, h4⟩ :=
      watch_of_projected_meta cm.ObjectMeta (newConfigMapFrom cm).ObjectMeta rfl rfl hcn hcs
    refine ⟨h1, h2, by simp [ReconcileConfigMap.reflectedDeleteFunc, h1, h2],
      by simp [ReconcileConfigMap.mapper, h3, h4, ObjectMeta.key], ?_, fun n => ?_⟩
    · intro h
      have := congrArg NamespacedName.Namespace h
      exact hcs this
    · obtain ⟨g1, g2, g3, g4⟩ := watch_of_projected_meta cm.ObjectMeta
        (ReconcileConfigMap.projection cm n).ObjectMeta rfl rfl hcn hcs
      refine ⟨by simp [ReconcileConfigMap.reflectedDeleteFunc, g1, g2],
        by simp [ReconcileConfigMap.mapper, g3, g4, ObjectMeta.key], fun hn h => ?_⟩
      have := congrArg NamespacedName.Namespace h
      exact hn this.symm
  · obtain ⟨h1, h2, h3, h4⟩ :=
      watch_of_projected_meta sec.ObjectMeta (newSecretFrom sec).ObjectMeta rfl rfl hsn hss
    refine ⟨h1, h2, by simp [ReconcileSecret.reflectedDeleteFunc, h1, h2],
      by simp [ReconcileSecret.mapper, h3, h4, ObjectMeta.key], ?_, fun n => ?_⟩
    · intro h
      have := congrArg NamespacedName.Namespace h
      exact hss this
    · obtain ⟨g1, g2, g3, g4⟩ := watch_of_projected_meta sec.ObjectMeta
        (ReconcileSecret.projection sec n).ObjectMeta rfl rfl hsn hss
      refine ⟨by simp [ReconcileSecret.reflectedDeleteFunc, g1, g2],
        by simp [ReconcileSecret.mapper, g3, g4, ObjectMeta.key], fun hn h => ?_⟩
      have := congrArg NamespacedName.Namespace h
      exact hn this.symm

/-- Witness for C11: a source that carries control annotations, reflect-annotations
included, and a label under the key source-name; its projection still passes the delete
predicate and is mapped to the source's key. -/
theorem projection_round_trip_through_delete_watch_witness :
    ReconcileConfigMap.reflectedDeleteFunc (newConfigMapFrom (sampleConfigMap "ns-a" "cm1"
        [(LabelSourceName, "other")]
        [(AnnotationReflectNamespaces, "ns-b"), (AnnotationReflectAnnotations, "yes"),
          (AnnotationReflectLabels, "yes")])).ObjectMeta = true ∧
    ReconcileSecret.mapper (newSecretFrom (secSource "ns-b")).ObjectMeta = [⟨"ns-a", "s1"⟩] :=
  have h := projection_round_trip_through_delete_watch
    (sampleConfigMap "ns-a" "cm1" [(LabelSourceName, "other")]
      [(AnnotationReflectNamespaces, "ns-b"), (AnnotationReflectAnnotations, "yes"),
        (AnnotationReflectLabels, "yes")])
    (secSource "ns-b") (by decide) (by decide) (by decide) (by decide)
  ⟨h.1.2.2.1, h.2.2.2.2.1⟩

/-- C15, the code at the failing input: an update that adds a non-empty
reflect-namespaces annotation to the ConfigMap `ns-a/cm1`, which had none.
`HasControllerAnnotations` holds for the new object, yet the ConfigMap `UpdateFunc`
tests the old object only and rejects the event.  The Secret `UpdateFunc` tests both
and accepts the same event. -/
theorem configMap_UpdateFunc_misses_entry_into_control :
    HasControllerAnnotations (cmSource "ns-b").ObjectMeta = true ∧
    ReconcileConfigMap.sourceUpdateFunc cmPlain.ObjectMeta (cmSource "ns-b").ObjectMeta = false ∧
    ReconcileSecret.sourceUpdateFunc secPlain.ObjectMeta (secSource "ns-b").ObjectMeta = true := by
  decide

/-! ## Claims on the sequence of store calls -/

/-- C16, the code at the failing input: the ConfigMap `ns-a/cm1` lists `ns-b`, where no
copy exists yet.  `Get` at (`ns-b`, `cm1`) reports `NotFound` and `Create` succeeds, and
the ConfigMap pass then also issues `Update` of the same object for that entry: one
`Create` and one `Update`.  The Secret pass on the same input issues the `Create`
alone. -/
theorem configMap_updates_after_create :
    ReconcileConfigMap.Reconcile (traced (memClient ConfigMap.ObjectMeta)) ⟨"ns-a", "cm1"⟩
        ([cmSource "ns-b"], []) =
      (none,
        ([cmSource "ns-b", ReconcileConfigMap.projection (cmSource "ns-b") "ns-b"],
          [Event.Get ⟨"ns-a", "cm1"⟩ (.ok (cmSource "ns-b")),
           Event.Get ⟨"ns-b", "cm1"⟩ (.error GoError.NotFound),
           Event.Create (ReconcileConfigMap.projection (cmSource "ns-b") "ns-b") none,
           Event.Update (ReconcileConfigMap.projection (cmSource "ns-b") "ns-b") none,
           Event.List (ReconcileConfigMap.labelSelector (cmSource "ns-b").ObjectMeta)
             (.ok [ReconcileConfigMap.projection (cmSource "ns-b") "ns-b"])])) ∧
    ReconcileSecret.Reconcile (traced (memClient Secret.ObjectMeta)) ⟨"ns-a", "s1"⟩
        ([secSource "ns-b"], []) =
      (none,
        ([secSource "ns-b", ReconcileSecret.projection (secSource "ns-b") "ns-b"],
          [Event.Get ⟨"ns-a", "s1"⟩ (.ok (secSource "ns-b")),
           Event.Get ⟨"ns-b", "s1"⟩ (.error GoError.NotFound),
           Event.Create (ReconcileSecret.projection (secSource "ns-b") "ns-b") none,
           Event.List (ReconcileSecret.labelSelector (secSource "ns-b").ObjectMeta)
             (.ok [ReconcileSecret.projection (secSource "ns-b") "ns-b"])])) :=
  ⟨rfl, rfl⟩

/-- C14, the code at the failing input: a ConfigMap and a Secret with the same metadata
(`ns-a/x`, reflected into `ns-b`) on stores holding nothing else.  The two passes issue
different call sequences: the ConfigMap pass issues `Update` after its `Create`, the
Secret pass does not.  The sequences differ in three more situations: an entry equal to
the source's own namespace, a source without annotation next to a reflected copy, and a
dangling copy. -/
theorem reconcilers_issue_different_calls :
    ([sampleConfigMap "ns-a" "x" [] [(AnnotationReflectNamespaces, "ns-b")]].map ConfigMap.ObjectMeta
        = [sampleSecret "ns-a" "x" [] [(AnnotationReflectNamespaces, "ns-b")]].map Secret.ObjectMeta) ∧
    ((ReconcileConfigMap.Reconcile (traced (memClient ConfigMap.ObjectMeta)) ⟨"ns-a", "x"⟩
        ([sampleConfigMap "ns-a" "x" [] [(AnnotationReflectNamespaces, "ns-b")]], [])).2.2.map
        (fun e => (e.opName, e.key ConfigMap.ObjectMeta))
      = [("Get", some ⟨"ns-a", "x"⟩), ("Get", some ⟨"ns-b", "x"⟩), ("Create", some ⟨"ns-b", "x"⟩),
          ("Update", some ⟨"ns-b", "x"⟩), ("List", none)]) ∧
    ((ReconcileSecret.Reconcile (traced (memClient Secret.ObjectMeta)) ⟨"ns-a", "x"⟩
        ([sampleSecret "ns-a" "x" [] [(AnnotationReflectNamespaces, "ns-b")]], [])).2.2.map
        (fun e => (e.opName, e.key Secret.ObjectMeta))
      = [("Get", some ⟨"ns-a", "x"⟩), ("Get", some ⟨"ns-b", "x"⟩), ("Create", some ⟨"ns-b", "x"⟩),
          ("List", none)]) ∧
    ((ReconcileConfigMap.Reconcile (traced (memClient ConfigMap.ObjectMeta)) ⟨"ns-a", "x"⟩
        ([sampleConfigMap "ns-a" "x" [] [(AnnotationReflectNamespaces, "ns-a")]], [])).2.2.map
        (fun e => (e.opName, e.key ConfigMap.ObjectMeta))
      ≠ (ReconcileSecret.Reconcile (traced (memClient Secret.ObjectMeta)) ⟨"ns-a", "x"⟩
        ([sampleSecret "ns-a" "x" [] [(AnnotationReflectNamespaces, "ns-a")]], [])).2.2.map
        (fun e => (e.opName, e.key Secret.ObjectMeta))) ∧
    ((ReconcileConfigMap.Reconcile (traced (memClient ConfigMap.ObjectMeta)) ⟨"ns-a", "x"⟩
        ([sampleConfigMap "ns-a" "x" [] [], sampleConfigMap "ns-b" "x" (provenance "ns-a" "x") []],
          [])).2.2.map (fun e => (e.opName, e.key ConfigMap.ObjectMeta))
      ≠ (ReconcileSecret.Reconcile (traced (memClient Secret.ObjectMeta)) ⟨"ns-a", "x"⟩
        ([sampleSecret "ns-a" "x" [] [], sampleSecret "ns-b" "x" (provenance "ns-a" "x") []],
          [])).2.2.map (fun e => (e.opName, e.key Secret.ObjectMeta))) ∧
    ((ReconcileConfigMap.Reconcile (traced (memClient ConfigMap.ObjectMeta)) ⟨"ns-a", "x"⟩
        ([sampleConfigMap "ns-a" "x" [] [(AnnotationReflectNamespaces, "ns-b")],
          sampleConfigMap "ns-b" "x" (provenance "ns-a" "x") [],
          sampleConfigMap "ns-c" "x" (provenance "ns-a" "x") []], [])).2.2.map
        (fun e => (e.opName, e.key ConfigMap.ObjectMeta))
      ≠ (ReconcileSecret.Reconcile (traced (memClient Secret.ObjectMeta)) ⟨"ns-a", "x"⟩
        ([sampleSecret "ns-a" "x" [] [(AnnotationReflectNamespaces, "ns-b")],
          sampleSecret "ns-b" "x" (provenance "ns-a" "x") [],
          sampleSecret "ns-c" "x" (provenance "ns-a" "x") []], [])).2.2.map
        (fun e => (e.opName, e.key Secret.ObjectMeta))) :=
  ⟨rfl, by decide, by decide, by decide, by decide, by decide⟩

/-! ## Claims on the stored copies and on the frame of a pass -/

theorem configMap_target_after_pass (S : List ConfigMap) (src : ConfigMap)
    (hwf : StoreWF ConfigMap.ObjectMeta S) (hsrc : src ∈ S) (n : String)
    (hn : n ∈ desiredSet src.ObjectMeta) :
    storeLookup ConfigMap.ObjectMeta
        (ReconcileConfigMap.Reconcile (memClient ConfigMap.ObjectMeta) src.ObjectMeta.key S).2
        ⟨n, src.ObjectMeta.Name⟩ = some (ReconcileConfigMap.projection src n) := by
  simp only [desiredSet, List.mem_filter, Bool.and_eq_true, decide_eq_true_eq] at hn
  obtain ⟨hmem, hne, _⟩ := hn
  cases hns : GetReflectNamespaceList
      (mapIndex src.ObjectMeta.Annotations AnnotationReflectNamespaces) with
  | none => simp [hns, sliceItems] at hmem
  | some namespaces =>
    simp only [hns, sliceItems, Option.getD_some] at hmem
    obtain ⟨S', hwf', hl, hrun⟩ := configMap_Reconcile_mem S src.ObjectMeta.key src namespaces
      hwf (storeLookup_of_mem _ hwf hsrc) hns
    rw [hrun]
    simp only []
    rw [storeLookup_filter _ _ hwf', hl]
    simp only [hmem, hne, ne_eq, not_false_eq_true, and_self, if_true]
    have hc : StringSliceContains namespaces
        (ReconcileConfigMap.projection src n).ObjectMeta.Namespace = true :=
      (StringSliceContains_iff _ _).mpr hmem
    simp [Option.filter, hc]

theorem secret_target_after_pass (S : List Secret) (src : Secret)
    (hwf : StoreWF Secret.ObjectMeta S) (hsrc : src ∈ S) (n : String)
    (hn : n ∈ desiredSet src.ObjectMeta) :
    storeLookup Secret.ObjectMeta
        (ReconcileSecret.Reconcile (memClient Secret.ObjectMeta) src.ObjectMeta.key S).2
        ⟨n, src.ObjectMeta.Name⟩ = some (ReconcileSecret.projection src n) := by
  simp only [desiredSet, List.mem_filter, Bool.and_eq_true, decide_eq_true_eq] at hn
  obtain ⟨hmem, hne, hself⟩ := hn
  obtain ⟨S', hwf', hl, hrun⟩ := secret_Reconcile_mem S src.ObjectMeta.key src
    hwf (storeLookup_of_mem _ hwf hsrc)
  rw [hrun]
  simp only []
  rw [storeLookup_filter _ _ hwf', hl]
  simp only [hmem, hne, hself, ne_eq, not_false_eq_true, and_self, if_true]
  have hc : StringSliceContains
      (sliceItems (GetReflectNamespaceList
        (mapIndex src.ObjectMeta.Annotations AnnotationReflectNamespaces)))
      (ReconcileSecret.projection src n).ObjectMeta.Namespace = true :=
    (StringSliceContains_iff _ _).mpr hmem
  simp [Option.filter, hc]

/-- C13: for both reconcilers, over the in-memory store, for every source in the store
and every prior store state: after the pass, for every namespace `n` of the desired set,
the object stored at (`n`, source name) has the source's name and the source's payload
(ConfigMap: `Data` and `BinaryData`; Secret: `Type`, `Data` and `StringData`), whatever
was stored at that key before. -/
theorem stored_copy_has_source_payload (SC : List ConfigMap) (SS : List Secret)
    (cm : ConfigMap) (sec : Secret)
    (hwfC : StoreWF ConfigMap.ObjectMeta SC) (hwfS : StoreWF Secret.ObjectMeta SS)
    (hC : cm ∈ SC) (hS : sec ∈ SS) :
    (∀ n ∈ desiredSet cm.ObjectMeta, ∃ o,
      storeLookup ConfigMap.ObjectMeta
        (ReconcileConfigMap.Reconcile (memClient ConfigMap.ObjectMeta) cm.ObjectMeta.key SC).2
        ⟨n, cm.ObjectMeta.Name⟩ = some o ∧
      o.ObjectMeta.Name = cm.ObjectMeta.Name ∧ o.Data = cm.Data ∧ o.BinaryData = cm.BinaryData) ∧
    (∀ n ∈ desiredSet sec.ObjectMeta, ∃ o,
      storeLookup Secret.ObjectMeta
        (ReconcileSecret.Reconcile (memClient Secret.ObjectMeta) sec.ObjectMeta.key SS).2
        ⟨n, sec.ObjectMeta.Name⟩ = some o ∧
      o.ObjectMeta.Name = sec.ObjectMeta.Name ∧ o.Type_ = sec.Type_ ∧ o.Data = sec.Data ∧
        o.StringData = sec.StringData) :=
  ⟨fun n hn => ⟨ReconcileConfigMap.projection cm n,
      configMap_target_after_pass SC cm hwfC hC n hn, rfl, rfl, rfl⟩,
   fun n hn => ⟨ReconcileSecret.projection sec n,
      secret_target_after_pass SS sec hwfS hS n hn, rfl, rfl, rfl, rfl⟩⟩

/-- Witness for C13: `ns-b` already holds an object named like the source with another
payload, `ns-c` holds nothing; after the pass both hold the source's payload. -/
theorem stored_copy_has_source_payload_witness :
    (∀ n ∈ desiredSet (cmSource "ns-b, ns-c").ObjectMeta, ∃ o,
      storeLookup ConfigMap.ObjectMeta
        (ReconcileConfigMap.Reconcile (memClient ConfigMap.ObjectMeta)
          (cmSource "ns-b, ns-c").ObjectMeta.key
          [cmSource "ns-b, ns-c",
            { ObjectMeta := sampleMeta "ns-b" "cm1" [] [], Data := mapOf [("old", "data")],
              BinaryData := ∅ }]).2
        ⟨n, (cmSource "ns-b, ns-c").ObjectMeta.Name⟩ = some o ∧
      o.ObjectMeta.Name = (cmSource "ns-b, ns-c").ObjectMeta.Name ∧
      o.Data = (cmSource "ns-b, ns-c").Data ∧ o.BinaryData = (cmSource "ns-b, ns-c").BinaryData) ∧
    (∀ n ∈ desiredSet (secSource "ns-b, ns-c").ObjectMeta, ∃ o,
      storeLookup Secret.ObjectMeta
        (ReconcileSecret.Reconcile (memClient Secret.ObjectMeta)
          (secSource "ns-b, ns-c").ObjectMeta.key
          [secSource "ns-b, ns-c",
            { ObjectMeta := sampleMeta "ns-b" "s1" [] [], Type_ := "kubernetes.io/tls", Data := ∅,
              StringData := mapOf [("old", "data")] }]).2
        ⟨n, (secSource "ns-b, ns-c").ObjectMeta.Name⟩ = some o ∧
      o.ObjectMeta.Name = (secSource "ns-b, ns-c").ObjectMeta.Name ∧
      o.Type_ = (secSource "ns-b, ns-c").Type_ ∧ o.Data = (secSource "ns-b, ns-c").Data ∧
      o.StringData = (secSource "ns-b, ns-c").StringData) :=
  stored_copy_has_source_payload _ _ (cmSource "ns-b, ns-c") (secSource "ns-b, ns-c")
    (by decide) (by decide) (List.mem_cons_self _ _) (List.mem_cons_self _ _)

theorem option_filter_keep {α : Type} (q : α → Bool) (x : Option α)
    (h : ∀ o, x = some o → q o = true) : x.filter q = x := by
  cases x with
  | none => rfl
  | some o => simp [Option.filter, h o rfl]

theorem configMap_frame_mem (S : List ConfigMap) (request : NamespacedName) (src : ConfigMap)
    (hwf : StoreWF ConfigMap.ObjectMeta S)
    (hsrc : storeLookup ConfigMap.ObjectMeta S request = some src) (k : NamespacedName)
    (hk : ¬ ∃ n ∈ reflectEntries src.ObjectMeta, k = ⟨n, src.ObjectMeta.Name⟩)
    (hlab : ∀ o, storeLookup ConfigMap.ObjectMeta S k = some o →
      carriesSourceLabels src.ObjectMeta o.ObjectMeta = false ∧
        (validSelector src.ObjectMeta = true ∨
          o.ObjectMeta.Namespace ∈ reflectEntries src.ObjectMeta)) :
    storeLookup ConfigMap.ObjectMeta
        (ReconcileConfigMap.Reconcile (memClient ConfigMap.ObjectMeta) request S).2 k
      = storeLookup ConfigMap.ObjectMeta S k := by
  cases hns : GetReflectNamespaceList
      (mapIndex src.ObjectMeta.Annotations AnnotationReflectNamespaces) with
  | none => rw [configMap_Reconcile_mem_gate S request src hsrc hns]
  | some namespaces =>
    obtain ⟨S', hwf', hl, hrun⟩ := configMap_Reconcile_mem S request src namespaces hwf hsrc hns
    have hE : reflectEntries src.ObjectMeta = namespaces := by
      simp [reflectEntries, hns, sliceItems]
    rw [hrun]
    simp only []
    have hcond : ¬ (k.Name = src.ObjectMeta.Name ∧ k.Namespace ∈ namespaces ∧ k.Namespace ≠ "") := by
      intro h
      apply hk
      refine ⟨k.Namespace, by rw [hE]; exact h.2.1, ?_⟩
      rcases k with ⟨kns, kname⟩
      simp only [NamespacedName.mk.injEq, true_and]
      exact h.1
    rw [storeLookup_filter _ _ hwf', hl, if_neg hcond]
    apply option_filter_keep
    intro o ho
    obtain ⟨hc, hv | hin⟩ := hlab o ho
    · simp [selectedBy_of_valid hv, hc]
    · have hq : StringSliceContains namespaces o.ObjectMeta.Namespace = true :=
        (StringSliceContains_iff _ _).mpr (hE ▸ hin)
      simp [hq]

theorem secret_frame_mem (S : List Secret) (request : NamespacedName) (src : Secret)
    (hwf : StoreWF Secret.ObjectMeta S)
    (hsrc : storeLookup Secret.ObjectMeta S request = some src) (k : NamespacedName)
    (hk : ¬ ∃ n ∈ reflectEntries src.ObjectMeta, k = ⟨n, src.ObjectMeta.Name⟩)
    (hlab : ∀ o, storeLookup Secret.ObjectMeta S k = some o →
      carriesSourceLabels src.ObjectMeta o.ObjectMeta = false ∧
        (validSelector src.ObjectMeta = true ∨
          o.ObjectMeta.Namespace ∈ reflectEntries src.ObjectMeta)) :
    storeLookup Secret.ObjectMeta
        (ReconcileSecret.Reconcile (memClient Secret.ObjectMeta) request S).2 k
      = storeLookup Secret.ObjectMeta S k := by
  obtain ⟨S', hwf', hl, hrun⟩ := secret_Reconcile_mem S request src hwf hsrc
  rw [hrun]
  simp only []
  have hcond : ¬ (k.Name = src.ObjectMeta.Name ∧
      k.Namespace ∈ sliceItems (GetReflectNamespaceList
        (mapIndex src.ObjectMeta.Annotations AnnotationReflectNamespaces)) ∧
      k.Namespace ≠ "" ∧ k.Namespace ≠ src.ObjectMeta.Namespace) := by
    intro h
    apply hk
    refine ⟨k.Namespace, h.2.1, ?_⟩
    rcases k with ⟨kns, kname⟩
    simp only [NamespacedName.mk.injEq, true_and]
    exact h.1
  rw [storeLookup_filter _ _ hwf', hl, if_neg hcond]
  apply option_filter_keep
  intro o ho
  obtain ⟨hc, hv | hin⟩ := hlab o ho
  · simp [selectedBy_of_valid hv, hc]
  · have hq : StringSliceContains (sliceItems (GetReflectNamespaceList
        (mapIndex src.ObjectMeta.Annotations AnnotationReflectNamespaces)))
        o.ObjectMeta.Namespace = true :=
      (StringSliceContains_iff _ _).mpr hin
    simp [hq]

/-- Counterexample to C19.  First, an unrelated object under a target key is touched: the
source `ns-a/cm1` (`ns-a/s1`) lists `ns-b`, where an object of the same name lives that
carries no provenance label; the pass replaces it by the projection, labels and payload.
Second, the frame itself fails for a source whose name is no valid label value: the
source `ns-a/longName` lists `ns-b`; the selector of the dangling-copy `List` then has
no requirement and returns every object, and the pass deletes `ns-c/other`, whose key is
not (`n`, source name) for any entry `n` and which carries no provenance label. -/
theorem frame_fails_for_unrelated_objects :
    (HasSourceLabels cmUnrelated.ObjectMeta = false ∧
      storeLookup ConfigMap.ObjectMeta [cmSource "ns-b", cmUnrelated] ⟨"ns-b", "cm1"⟩
        = some cmUnrelated ∧
      storeLookup ConfigMap.ObjectMeta
          (ReconcileConfigMap.Reconcile (memClient ConfigMap.ObjectMeta) ⟨"ns-a", "cm1"⟩
            [cmSource "ns-b", cmUnrelated]).2 ⟨"ns-b", "cm1"⟩
        = some (ReconcileConfigMap.projection (cmSource "ns-b") "ns-b") ∧
      HasSourceLabels (ReconcileConfigMap.projection (cmSource "ns-b") "ns-b").ObjectMeta = true ∧
      mapIndex cmUnrelated.Data "old" = "data" ∧
      mapIndex (ReconcileConfigMap.projection (cmSource "ns-b") "ns-b").Data "old" = "") ∧
    (HasSourceLabels secUnrelated.ObjectMeta = false ∧
      storeLookup Secret.ObjectMeta [secSource "ns-b", secUnrelated] ⟨"ns-b", "s1"⟩
        = some secUnrelated ∧
      storeLookup Secret.ObjectMeta
          (ReconcileSecret.Reconcile (memClient Secret.ObjectMeta) ⟨"ns-a", "s1"⟩
            [secSource "ns-b", secUnrelated]).2 ⟨"ns-b", "s1"⟩
        = some (ReconcileSecret.projection (secSource "ns-b") "ns-b") ∧
      HasSourceLabels (ReconcileSecret.projection (secSource "ns-b") "ns-b").ObjectMeta = true ∧
      mapIndex secUnrelated.StringData "old" = "data" ∧
      mapIndex (ReconcileSecret.projection (secSource "ns-b") "ns-b").StringData "old" = "") ∧
    (IsValidLabelValue longName = false ∧
      (¬ ∃ n ∈ reflectEntries
          (sampleConfigMap "ns-a" longName [] [(AnnotationReflectNamespaces, "ns-b")]).ObjectMeta,
        (⟨"ns-c", "other"⟩ : NamespacedName) = ⟨n, longName⟩) ∧
      carriesSourceLabels
          (sampleConfigMap "ns-a" longName [] [(AnnotationReflectNamespaces, "ns-b")]).ObjectMeta
          (sampleConfigMap "ns-c" "other" [] []).ObjectMeta = false ∧
      storeLookup ConfigMap.ObjectMeta
          [sampleConfigMap "ns-a" longName [] [(AnnotationReflectNamespaces, "ns-b")],
            sampleConfigMap "ns-c" "other" [] []] ⟨"ns-c", "other"⟩
        = some (sampleConfigMap "ns-c" "other" [] []) ∧
      storeLookup ConfigMap.ObjectMeta
          (ReconcileConfigMap.Reconcile (memClient ConfigMap.ObjectMeta) ⟨"ns-a", longName⟩
            [sampleConfigMap "ns-a" longName [] [(AnnotationReflectNamespaces, "ns-b")],
              sampleConfigMap "ns-c" "other" [] []]).2 ⟨"ns-c", "other"⟩
        = none) ∧
    ((¬ ∃ n ∈ reflectEntries
          (sampleSecret "ns-a" longName [] [(AnnotationReflectNamespaces, "ns-b")]).ObjectMeta,
        (⟨"ns-c", "other"⟩ : NamespacedName) = ⟨n, longName⟩) ∧
      carriesSourceLabels
          (sampleSecret "ns-a" longName [] [(AnnotationReflectNamespaces, "ns-b")]).ObjectMeta
          (sampleSecret "ns-c" "other" [] []).ObjectMeta = false ∧
      storeLookup Secret.ObjectMeta
          [sampleSecret "ns-a" longName [] [(AnnotationReflectNamespaces, "ns-b")],
            sampleSecret "ns-c" "other" [] []] ⟨"ns-c", "other"⟩
        = some (sampleSecret "ns-c" "other" [] []) ∧
      storeLookup Secret.ObjectMeta
          (ReconcileSecret.Reconcile (memClient Secret.ObjectMeta) ⟨"ns-a", longName⟩
            [sampleSecret "ns-a" longName [] [(AnnotationReflectNamespaces, "ns-b")],
              sampleSecret "ns-c" "other" [] []]).2 ⟨"ns-c", "other"⟩
        = none) :=
  ⟨⟨by decide, rfl, rfl, by decide, by decide, by decide⟩,
   ⟨by decide, rfl, rfl, by decide, by decide, by decide⟩,
   ⟨by decide, by decide, by decide, rfl, rfl⟩,
   ⟨by decide, by decide, rfl, rfl⟩⟩

/-- C19, amended: for both reconcilers, over the in-memory store, every source and every
store state: whatever is stored under a key is left as it was by the pass (an object
there is neither updated nor deleted, and none is created there) whenever the key is not
(`n`, source name) for an entry `n` of the parsed reflect-namespaces list, the object
under it, if any, does not carry both provenance labels of the source, and either the
source's name and namespace are valid label values or the object's namespace is an entry
of the list.  When the request key holds no object the pass changes nothing at all, and
neither does the ConfigMap pass for a source without the annotation.  Nothing is said of
what is stored under a key (`n`, source name). -/
theorem frame_of_pass_valid_selector (SC : List ConfigMap) (SS : List Secret)
    (request : NamespacedName)
    (hwfC : StoreWF ConfigMap.ObjectMeta SC) (hwfS : StoreWF Secret.ObjectMeta SS) :
    (∀ src, storeLookup ConfigMap.ObjectMeta SC request = some src → ∀ k,
      (¬ ∃ n ∈ reflectEntries src.ObjectMeta, k = ⟨n, src.ObjectMeta.Name⟩) →
      (∀ o, storeLookup ConfigMap.ObjectMeta SC k = some o →
        carriesSourceLabels src.ObjectMeta o.ObjectMeta = false ∧
          (validSelector src.ObjectMeta = true ∨
            o.ObjectMeta.Namespace ∈ reflectEntries src.ObjectMeta)) →
      storeLookup ConfigMap.ObjectMeta
          (ReconcileConfigMap.Reconcile (memClient ConfigMap.ObjectMeta) request SC).2 k
        = storeLookup ConfigMap.ObjectMeta SC k) ∧
    (storeLookup ConfigMap.ObjectMeta SC request = none →
      (ReconcileConfigMap.Reconcile (memClient ConfigMap.ObjectMeta) request SC).2 = SC) ∧
    (∀ src, storeLookup ConfigMap.ObjectMeta SC request = some src →
      mapIndex src.ObjectMeta.Annotations AnnotationReflectNamespaces = "" →
      (ReconcileConfigMap.Reconcile (memClient ConfigMap.ObjectMeta) request SC).2 = SC) ∧
    (∀ src, storeLookup Secret.ObjectMeta SS request = some src → ∀ k,
      (¬ ∃ n ∈ reflectEntries src.ObjectMeta, k = ⟨n, src.ObjectMeta.Name⟩) →
      (∀ o, storeLookup Secret.ObjectMeta SS k = some o →
        carriesSourceLabels src.ObjectMeta o.ObjectMeta = false ∧
          (validSelector src.ObjectMeta = true ∨
            o.ObjectMeta.Namespace ∈ reflectEntries src.ObjectMeta)) →
      storeLookup Secret.ObjectMeta
          (ReconcileSecret.Reconcile (memClient Secret.ObjectMeta) request SS).2 k
        = storeLookup Secret.ObjectMeta SS k) ∧
    (storeLookup Secret.ObjectMeta SS request = none →
      (ReconcileSecret.Reconcile (memClient Secret.ObjectMeta) request SS).2 = SS) :=
  ⟨fun src hsrc k hk hlab => configMap_frame_mem SC request src hwfC hsrc k hk hlab,
   fun h => by rw [configMap_Reconcile_mem_absent SC request h],
   fun src hsrc ha => by
    rw [configMap_Reconcile_mem_gate SC request src hsrc (by simp [GetReflectNamespaceList, ha])],
   fun src hsrc k hk hlab => secret_frame_mem SS request src hwfS hsrc k hk hlab,
   fun h => by rw [secret_Reconcile_mem_absent SS request h]⟩

/-- Witness for C19, amended: next to the source `ns-a/cm1` (`ns-a/s1`), reflected into
`ns-b`, the store holds in `ns-c` a copy of the source `ns-z/cm1` (`ns-z/s1`) of the same
name; the pass leaves it as it was. -/
theorem frame_of_pass_valid_selector_witness :
    storeLookup ConfigMap.ObjectMeta
        (ReconcileConfigMap.Reconcile (memClient ConfigMap.ObjectMeta) ⟨"ns-a", "cm1"⟩
          [cmSource "ns-b", sampleConfigMap "ns-c" "cm1" (provenance "ns-z" "cm1") []]).2
        ⟨"ns-c", "cm1"⟩
      = storeLookup ConfigMap.ObjectMeta
        [cmSource "ns-b", sampleConfigMap "ns-c" "cm1" (provenance "ns-z" "cm1") []]
        ⟨"ns-c", "cm1"⟩ ∧
    storeLookup Secret.ObjectMeta
        (ReconcileSecret.Reconcile (memClient Secret.ObjectMeta) ⟨"ns-a", "s1"⟩
          [secSource "ns-b", sampleSecret "ns-c" "s1" (provenance "ns-z" "s1") []]).2
        ⟨"ns-c", "s1"⟩
      = storeLookup Secret.ObjectMeta
        [secSource "ns-b", sampleSecret "ns-c" "s1" (provenance "ns-z" "s1") []]
        ⟨"ns-c", "s1"⟩ :=
  have h := frame_of_pass_valid_selector
    [cmSource "ns-b", sampleConfigMap "ns-c" "cm1" (provenance "ns-z" "cm1") []]
    [secSource "ns-b", sampleSecret "ns-c" "s1" (provenance "ns-z" "s1") []]
  ⟨(h ⟨"ns-a", "cm1"⟩ (by decide) (by decide)).1 (cmSource "ns-b") rfl ⟨"ns-c", "cm1"⟩
      (by decide)
      (fun o ho => by
        have hk : storeLookup ConfigMap.ObjectMeta
            [cmSource "ns-b", sampleConfigMap "ns-c" "cm1" (provenance "ns-z" "cm1") []]
            ⟨"ns-c", "cm1"⟩ = some (sampleConfigMap "ns-c" "cm1" (provenance "ns-z" "cm1") []) := rfl
        rw [hk] at ho
        cases ho
        exact ⟨by decide, Or.inl (by decide)⟩),
   (h ⟨"ns-a", "s1"⟩ (by decide) (by decide)).2.2.2.1 (secSource "ns-b") rfl ⟨"ns-c", "s1"⟩
      (by decide)
      (fun o ho => by
        have hk : storeLookup Secret.ObjectMeta
            [secSource "ns-b", sampleSecret "ns-c" "s1" (provenance "ns-z" "s1") []]
            ⟨"ns-c", "s1"⟩ = some (sampleSecret "ns-c" "s1" (provenance "ns-z" "s1") []) := rfl
        rw [hk] at ho
        cases ho
        exact ⟨by decide, Or.inl (by decide)⟩)⟩

/-! ## Claims on the annotation codec -/

theorem intercalate_cons_cons (sep x y : List Char) (ys : List (List Char)) :
    sep.intercalate (x :: y :: ys) = x ++ sep ++ sep.intercalate (y :: ys) := by
  simp [List.intercalate, List.intersperse]

theorem splitComma_spec (l : List Char) :
    ∃ p ps, splitComma l = p :: ps ∧ [','].intercalate (p :: ps) = l ∧
      (∀ q ∈ p :: ps, ',' ∉ q) ∧ ps.length = l.count ',' := by
  induction l with
  | nil => exact ⟨[], [], rfl, by simp [List.intercalate], by simp, rfl⟩
  | cons c cs ih =>
    obtain ⟨p, ps, hs, hj, hc, hn⟩ := ih
    by_cases hcomma : c = ','
    · refine ⟨[], p :: ps, by simp [splitComma, hcomma, hs], ?_, ?_, ?_⟩
      · rw [intercalate_cons_cons, hj, hcomma]; rfl
      · intro q hq
        rcases List.mem_cons.mp hq with rfl | hq'
        · simp
        · exact hc q hq'
      · simp [hcomma, hn]
    · refine ⟨c :: p, ps, by simp [splitComma, hcomma, hs], ?_, ?_, ?_⟩
      · cases ps with
        | nil =>
          have hp : p = cs := by simpa [List.intercalate, List.intersperse] using hj
          simp [List.intercalate, List.intersperse, hp]
        | cons y ys =>
          rw [intercalate_cons_cons] at hj ⊢
          simp only [List.cons_append]
          rw [hj]
      · intro q hq
        rcases List.mem_cons.mp hq with rfl | hq'
        · intro hmem
          rcases List.mem_cons.mp hmem with h | h
          · exact hcomma h.symm
          · exact hc p (List.mem_cons_self _ _) h
        · exact hc q (List.mem_cons_of_mem _ hq')
      · simp [List.count_cons, hn, hcomma]

theorem head?_dropWhile_isSpace (l : List Char) (c : Char)
    (h : (l.dropWhile isSpace).head? = some c) : isSpace c = false := by
  have := List.head?_dropWhile_not isSpace l
  rw [h] at this
  exact this

theorem trim_isTrimOf (p : List Char) :
    IsTrimOf ((p.dropWhile isSpace).reverse.dropWhile isSpace).reverse p := by
  refine ⟨⟨p.takeWhile isSpace, ((p.dropWhile isSpace).reverse.takeWhile isSpace).reverse,
    ?_, ?_, ?_⟩, ?_, ?_⟩
  · have h1 : (p.dropWhile isSpace)
        = ((p.dropWhile isSpace).reverse.dropWhile isSpace).reverse ++
          ((p.dropWhile isSpace).reverse.takeWhile isSpace).reverse := by
      rw [← List.reverse_append, List.takeWhile_append_dropWhile, List.reverse_reverse]
    calc p = p.takeWhile isSpace ++ p.dropWhile isSpace :=
          (List.takeWhile_append_dropWhile isSpace p).symm
      _ = p.takeWhile isSpace ++ (((p.dropWhile isSpace).reverse.dropWhile isSpace).reverse ++
            ((p.dropWhile isSpace).reverse.takeWhile isSpace).reverse) := by rw [← h1]
      _ = _ := by simp only [List.append_assoc]
  · intro c hc
    exact List.mem_takeWhile_imp hc
  · intro c hc
    exact List.mem_takeWhile_imp (List.mem_reverse.mp hc)
  · intro c hc
    -- the trimmed sequence is a prefix of the sequence without its leading white space
    have h1 : (p.dropWhile isSpace)
        = ((p.dropWhile isSpace).reverse.dropWhile isSpace).reverse ++
          ((p.dropWhile isSpace).reverse.takeWhile isSpace).reverse := by
      rw [← List.reverse_append, List.takeWhile_append_dropWhile, List.reverse_reverse]
    apply head?_dropWhile_isSpace p c
    rw [h1, List.head?_append, hc]
    rfl
  · intro c hc
    apply head?_dropWhile_isSpace (p.dropWhile isSpace).reverse c
    rw [List.getLast?_reverse] at hc
    exact hc

/-- C12: for every string `raw`, `GetReflectNamespaceList raw` is `nil` if and only if
`raw` is empty; for a non-empty `raw` it is the list of the pieces of `raw` between its
commas (the pieces contain no comma and, joined by commas, give back `raw`), each with
its leading and trailing white space removed, in the original order, empty elements
kept: its length is the number of commas of `raw` plus one, and no element starts
or ends with white space or contains a comma. -/
theorem GetReflectNamespaceList_parses (raw : String) :
    (GetReflectNamespaceList raw = none ↔ raw = "") ∧
    (raw ≠ "" → ∃ (pieces : List (List Char)) (l : List String),
      [','].intercalate pieces = raw.data ∧ (∀ p ∈ pieces, ',' ∉ p) ∧
      GetReflectNamespaceList raw = some l ∧
      List.Forall₂ (fun x p => IsTrimOf x.data p) l pieces ∧
      l.length = raw.data.count ',' + 1 ∧
      ∀ x ∈ l, ',' ∉ x.data ∧ (∀ c, x.data.head? = some c → isSpace c = false) ∧
        (∀ c, x.data.getLast? = some c → isSpace c = false)) := by
  constructor
  · by_cases h : raw = "" <;> simp [GetReflectNamespaceList, h]
  · intro h
    obtain ⟨p, ps, hs, hj, hc, hn⟩ := splitComma_spec raw.data
    refine ⟨p :: ps, ((p :: ps).map String.mk).map TrimSpace, hj, hc, ?_, ?_, ?_, ?_⟩
    · simp [GetReflectNamespaceList, h, Split, hs]
    · rw [List.map_map, List.forall₂_map_left_iff, List.forall₂_same]
      intro q _
      exact trim_isTrimOf q
    · simp [hn]
    · intro x hx
      rw [List.map_map] at hx
      obtain ⟨q, hq, rfl⟩ := List.mem_map.mp hx
      obtain ⟨⟨a, b, hab, _, _⟩, hhead, hlast⟩ := trim_isTrimOf q
      refine ⟨fun hmem => ?_, hhead, hlast⟩
      apply hc q hq
      rw [hab]
      exact List.mem_append_left _ (List.mem_append_right _ hmem)

/-- Witness for C12: the raw value ` ns-b ,, ns-c` has two commas and parses to the three
elements `ns-b`, the empty string and `ns-c`. -/
theorem GetReflectNamespaceList_parses_witness :
    GetReflectNamespaceList " ns-b ,, ns-c" = some ["ns-b", "", "ns-c"] ∧
    ∃ (pieces : List (List Char)) (l : List String),
      [','].intercalate pieces = " ns-b ,, ns-c".data ∧ (∀ p ∈ pieces, ',' ∉ p) ∧
      GetReflectNamespaceList " ns-b ,, ns-c" = some l ∧
      List.Forall₂ (fun x p => IsTrimOf x.data p) l pieces ∧
      l.length = " ns-b ,, ns-c".data.count ',' + 1 ∧
      ∀ x ∈ l, ',' ∉ x.data ∧ (∀ c, x.data.head? = some c → isSpace c = false) ∧
        (∀ c, x.data.getLast? = some c → isSpace c = false) :=
  ⟨by decide, (GetReflectNamespaceList_parses " ns-b ,, ns-c").2 (by decide)⟩

/-! ## The calls of a pass and the store they leave, for every client -/

theorem replay_nil {σ α : Type} (c : Client σ α) (s : σ) : replay c [] s = s :=
  rfl

theorem replay_cons {σ α : Type} (c : Client σ α) (ev : Event α) (evs : List (Event α)) (s : σ) :
    replay c (ev :: evs) s = replay c evs (ev.apply c s) :=
  rfl

theorem replay_append {σ α : Type} (c : Client σ α) (evs₁ evs₂ : List (Event α)) (s : σ) :
    replay c (evs₁ ++ evs₂) s = replay c evs₂ (replay c evs₁ s) := by
  simp [replay, List.foldl_append]

theorem configMap_reflectLoop_calls {σ : Type} (c : Client σ ConfigMap) (l : List String) :
    ∀ (p : ConfigMap) (s : σ) (tr : List (Event ConfigMap)),
    ∃ evs, (ReconcileConfigMap.reflectLoop (traced c) p l (s, tr)).2 = (replay c evs s, tr ++ evs) ∧
      ∀ e ∈ evs, e.opName ≠ "List" ∧ e.opName ≠ "Delete" := by
  induction l with
  | nil =>
    intro p s tr
    exact ⟨[], by simp [ReconcileConfigMap.reflectLoop, replay_nil], by simp⟩
  | cons n rest ih =>
    intro p s tr
    rw [ReconcileConfigMap.reflectLoop]
    by_cases hn : n = ""
    · rw [if_pos hn]; exact ih p s tr
    · rw [if_neg hn]
      simp only [traced_Get]
      rcases hG : c.Get ⟨(p.setNamespace n).ObjectMeta.Namespace, (p.setNamespace n).ObjectMeta.Name⟩ s
        with ⟨rG, s1⟩
      cases rG with
      | error e =>
        simp only []
        by_cases hnf : IsNotFound e = true
        · simp only [hnf, if_true, traced_Create]
          rcases hC : c.Create (p.setNamespace n) s1 with ⟨rC, s2⟩
          cases rC with
          | some e2 =>
            refine ⟨[Event.Get ⟨(p.setNamespace n).ObjectMeta.Namespace,
              (p.setNamespace n).ObjectMeta.Name⟩ (.error e),
              Event.Create (p.setNamespace n) (some e2)], ?_, ?_⟩
            · simp [replay_cons, replay_nil, Event.apply, hG, hC]
            · simp [Event.opName]
          | none =>
            simp only [traced_Update]
            rcases hU : c.Update (p.setNamespace n) s2 with ⟨rU, s3⟩
            cases rU with
            | some e3 =>
              refine ⟨[Event.Get ⟨(p.setNamespace n).ObjectMeta.Namespace,
                (p.setNamespace n).ObjectMeta.Name⟩ (.error e),
                Event.Create (p.setNamespace n) none,
                Event.Update (p.setNamespace n) (some e3)], ?_, ?_⟩
              · simp [replay_cons, replay_nil, Event.apply, hG, hC, hU]
              · simp [Event.opName]
            | none =>
              simp only []
              obtain ⟨evs, h1, h2⟩ := ih (p.setNamespace n) s3
                (tr ++ [Event.Get ⟨(p.setNamespace n).ObjectMeta.Namespace,
                  (p.setNamespace n).ObjectMeta.Name⟩ (.error e)] ++
                  [Event.Create (p.setNamespace n) none] ++ [Event.Update (p.setNamespace n) none])
              refine ⟨Event.Get ⟨(p.setNamespace n).ObjectMeta.Namespace,
                (p.setNamespace n).ObjectMeta.Name⟩ (.error e) ::
                Event.Create (p.setNamespace n) none ::
                Event.Update (p.setNamespace n) none :: evs, ?_, ?_⟩
              · rw [h1]
                simp [replay_cons, Event.apply, hG, hC, hU]
              · intro ev hev
                simp only [List.mem_cons] at hev
                rcases hev with rfl | rfl | rfl | hev
                · simp [Event.opName]
                · simp [Event.opName]
                · simp [Event.opName]
                · exact h2 ev hev
        · simp only [hnf]
          refine ⟨[Event.Get ⟨(p.setNamespace n).ObjectMeta.Namespace,
            (p.setNamespace n).ObjectMeta.Name⟩ (.error e)], ?_, ?_⟩
          · simp [replay_cons, replay_nil, Event.apply, hG]
          · simp [Event.opName]
      | ok o =>
        simp only [traced_Update]
        rcases hU : c.Update (p.setNamespace n) s1 with ⟨rU, s3⟩
        cases rU with
        | some e3 =>
          refine ⟨[Event.Get ⟨(p.setNamespace n).ObjectMeta.Namespace,
            (p.setNamespace n).ObjectMeta.Name⟩ (.ok o),
            Event.Update (p.setNamespace n) (some e3)], ?_, ?_⟩
          · simp [replay_cons, replay_nil, Event.apply, hG, hU]
          · simp [Event.opName]
        | none =>
          simp only []
          obtain ⟨evs, h1, h2⟩ := ih (p.setNamespace n) s3
            (tr ++ [Event.Get ⟨(p.setNamespace n).ObjectMeta.Namespace,
              (p.setNamespace n).ObjectMeta.Name⟩ (.ok o)] ++ [Event.Update (p.setNamespace n) none])
          refine ⟨Event.Get ⟨(p.setNamespace n).ObjectMeta.Namespace,
            (p.setNamespace n).ObjectMeta.Name⟩ (.ok o) ::
            Event.Update (p.setNamespace n) none :: evs, ?_, ?_⟩
          · rw [h1]
            simp [replay_cons, Event.apply, hG, hU]
          · intro ev hev
            simp only [List.mem_cons] at hev
            rcases hev with rfl | rfl | hev
            · simp [Event.opName]
            · simp [Event.opName]
            · exact h2 ev hev

theorem configMap_deleteLoop_calls {σ : Type} (c : Client σ ConfigMap)
    (namespaces : List String) (items : List ConfigMap) :
    ∀ (s : σ) (tr : List (Event ConfigMap)),
    ∃ evs, (ReconcileConfigMap.deleteLoop (traced c) namespaces items (s, tr)).2
        = (replay c evs s, tr ++ evs) ∧
      ((ReconcileConfigMap.deleteLoop (traced c) namespaces items (s, tr)).1 = none →
        evs = ReconcileConfigMap.danglingCalls namespaces items) := by
  induction items with
  | nil =>
    intro s tr
    exact ⟨[], by simp [ReconcileConfigMap.deleteLoop, replay_nil],
      by simp [ReconcileConfigMap.danglingCalls]⟩
  | cons o rest ih =>
    intro s tr
    rw [ReconcileConfigMap.deleteLoop]
    by_cases hd : StringSliceContains namespaces o.ObjectMeta.Namespace = true
    · simp only [hd, Bool.not_true, Bool.false_eq_true, if_false]
      obtain ⟨evs, h1, h2⟩ := ih s tr
      refine ⟨evs, h1, fun h => ?_⟩
      rw [h2 h]
      simp [ReconcileConfigMap.danglingCalls, List.filter_cons, hd]
    · simp only [hd, Bool.not_false, if_true, traced_Delete]
      rcases hD : c.Delete o s with ⟨rD, s1⟩
      cases rD with
      | some e =>
        refine ⟨[Event.Delete o (some e)], ?_, ?_⟩
        · simp [replay_cons, replay_nil, Event.apply, hD]
        · intro h
          simp at h
      | none =>
        simp only []
        obtain ⟨evs, h1, h2⟩ := ih s1 (tr ++ [Event.Delete o none])
        refine ⟨Event.Delete o none :: evs, ?_, fun h => ?_⟩
        · rw [h1]
          simp [replay_cons, Event.apply, hD]
        · rw [h2 h]
          simp [ReconcileConfigMap.danglingCalls, List.filter_cons, hd]

theorem secret_reflectLoop_calls {σ : Type} (c : Client σ Secret) (inst : Secret)
    (l : List String) : ∀ (p : Secret) (s : σ) (tr : List (Event Secret)),
    ∃ evs, (ReconcileSecret.reflectLoop (traced c) inst p l (s, tr)).2
        = (replay c evs s, tr ++ evs) ∧
      ∀ e ∈ evs, e.opName ≠ "List" ∧ e.opName ≠ "Delete" := by
  induction l with
  | nil =>
    intro p s tr
    exact ⟨[], by simp [ReconcileSecret.reflectLoop, replay_nil], by simp⟩
  | cons n rest ih =>
    intro p s tr
    rw [ReconcileSecret.reflectLoop]
    by_cases hn : n = ""
    · rw [if_pos hn]; exact ih p s tr
    · rw [if_neg hn]
      by_cases hself : n = inst.ObjectMeta.Namespace
      · rw [if_pos hself]; exact ih p s tr
      · rw [if_neg hself]
        simp only [traced_Get]
        rcases hG : c.Get ⟨(p.setNamespace n).ObjectMeta.Namespace,
          (p.setNamespace n).ObjectMeta.Name⟩ s with ⟨rG, s1⟩
        cases rG with
        | error e =>
          simp only []
          by_cases hnf : IsNotFound e = true
          · simp only [hnf, if_true, traced_Create]
            rcases hC : c.Create (p.setNamespace n) s1 with ⟨rC, s2⟩
            cases rC with
            | some e2 =>
              refine ⟨[Event.Get ⟨(p.setNamespace n).ObjectMeta.Namespace,
                (p.setNamespace n).ObjectMeta.Name⟩ (.error e),
                Event.Create (p.setNamespace n) (some e2)], ?_, ?_⟩
              · simp [replay_cons, replay_nil, Event.apply, hG, hC]
              · simp [Event.opName]
            | none =>
              simp only []
              obtain ⟨evs, h1, h2⟩ := ih (p.setNamespace n) s2
                (tr ++ [Event.Get ⟨(p.setNamespace n).ObjectMeta.Namespace,
                  (p.setNamespace n).ObjectMeta.Name⟩ (.error e)] ++
                  [Event.Create (p.setNamespace n) none])
              refine ⟨Event.Get ⟨(p.setNamespace n).ObjectMeta.Namespace,
                (p.setNamespace n).ObjectMeta.Name⟩ (.error e) ::
                Event.Create (p.setNamespace n) none :: evs, ?_, ?_⟩
              · rw [h1]
                simp [replay_cons, Event.apply, hG, hC]
              · intro ev hev
                simp only [List.mem_cons] at hev
                rcases hev with rfl | rfl | hev
                · simp [Event.opName]
                · simp [Event.opName]
                · exact h2 ev hev
          · simp only [hnf]
            refine ⟨[Event.Get ⟨(p.setNamespace n).ObjectMeta.Namespace,
              (p.setNamespace n).ObjectMeta.Name⟩ (.error e)], ?_, ?_⟩
            · simp [replay_cons, replay_nil, Event.apply, hG]
            · simp [Event.opName]
        | ok o =>
          simp only [traced_Update]
          rcases hU : c.Update (p.setNamespace n) s1 with ⟨rU, s3⟩
          cases rU with
          | some e3 =>
            refine ⟨[Event.Get ⟨(p.setNamespace n).ObjectMeta.Namespace,
              (p.setNamespace n).ObjectMeta.Name⟩ (.ok o),
              Event.Update (p.setNamespace n) (some e3)], ?_, ?_⟩
            · simp [replay_cons, replay_nil, Event.apply, hG, hU]
            · simp [Event.opName]
          | none =>
            simp only []
            obtain ⟨evs, h1, h2⟩ := ih (p.setNamespace n) s3
              (tr ++ [Event.Get ⟨(p.setNamespace n).ObjectMeta.Namespace,
                (p.setNamespace n).ObjectMeta.Name⟩ (.ok o)] ++
                [Event.Update (p.setNamespace n) none])
            refine ⟨Event.Get ⟨(p.setNamespace n).ObjectMeta.Namespace,
              (p.setNamespace n).ObjectMeta.Name⟩ (.ok o) ::
              Event.Update (p.setNamespace n) none :: evs, ?_, ?_⟩
            · rw [h1]
              simp [replay_cons, Event.apply, hG, hU]
            · intro ev hev
              simp only [List.mem_cons] at hev
              rcases hev with rfl | rfl | hev
              · simp [Event.opName]
              · simp [Event.opName]
              · exact h2 ev hev

theorem secret_deleteLoop_calls {σ : Type} (c : Client σ Secret)
    (namespaces : List String) (items : List Secret) :
    ∀ (s : σ) (tr : List (Event Secret)),
    ∃ evs, (ReconcileSecret.deleteLoop (traced c) namespaces items (s, tr)).2
        = (replay c evs s, tr ++ evs) ∧
      ((ReconcileSecret.deleteLoop (traced c) namespaces items (s, tr)).1 = none →
        evs = ReconcileSecret.danglingCalls namespaces items) := by
  induction items with
  | nil =>
    intro s tr
    exact ⟨[], by simp [ReconcileSecret.deleteLoop, replay_nil],
      by simp [ReconcileSecret.danglingCalls]⟩
  | cons o rest ih =>
    intro s tr
    rw [ReconcileSecret.deleteLoop]
    by_cases hd : StringSliceContains namespaces o.ObjectMeta.Namespace = true
    · simp only [hd, Bool.not_true, Bool.false_eq_true, if_false]
      obtain ⟨evs, h1, h2⟩ := ih s tr
      refine ⟨evs, h1, fun h => ?_⟩
      rw [h2 h]
      simp [ReconcileSecret.danglingCalls, List.filter_cons, hd]
    · simp only [hd, Bool.not_false, if_true, traced_Update]
      rcases hU : c.Update { o with ObjectMeta := DeleteSourceLabels o.ObjectMeta } s with ⟨rU, s1⟩
      cases rU with
      | some e =>
        refine ⟨[Event.Update { o with ObjectMeta := DeleteSourceLabels o.ObjectMeta } (some e)],
          ?_, ?_⟩
        · simp [replay_cons, replay_nil, Event.apply, hU]
        · intro h
          simp at h
      | none =>
        simp only [traced_Delete]
        rcases hD : c.Delete { o with ObjectMeta := DeleteSourceLabels o.ObjectMeta } s1
          with ⟨rD, s2⟩
        cases rD with
        | some e =>
          refine ⟨[Event.Update { o with ObjectMeta := DeleteSourceLabels o.ObjectMeta } none,
            Event.Delete { o with ObjectMeta := DeleteSourceLabels o.ObjectMeta } (some e)], ?_, ?_⟩
          · simp [replay_cons, replay_nil, Event.apply, hU, hD]
          · intro h
            simp at h
        | none =>
          simp only []
          obtain ⟨evs, h1, h2⟩ := ih s2
            (tr ++ [Event.Update { o with ObjectMeta := DeleteSourceLabels o.ObjectMeta } none] ++
              [Event.Delete { o with ObjectMeta := DeleteSourceLabels o.ObjectMeta } none])
          refine ⟨Event.Update { o with ObjectMeta := DeleteSourceLabels o.ObjectMeta } none ::
            Event.Delete { o with ObjectMeta := DeleteSourceLabels o.ObjectMeta } none :: evs,
            ?_, fun h => ?_⟩
          · rw [h1]
            simp [replay_cons, Event.apply, hU, hD]
          · rw [h2 h]
            simp [ReconcileSecret.danglingCalls, List.filter_cons, hd]

theorem event_split_unique {α : Type} {A B A' B' : List (Event α)} {x x' : Event α}
    (h : A ++ x :: B = A' ++ x' :: B') (hA : ∀ e ∈ A, e.opName ≠ "List")
    (hB : ∀ e ∈ B, e.opName ≠ "List") (hx' : x'.opName = "List") :
    A = A' ∧ x = x' ∧ B = B' := by
  rcases List.append_eq_append_iff.mp h with ⟨a, ha, hb⟩ | ⟨b, ha, hb⟩
  · cases a with
    | nil =>
      simp only [List.nil_append, List.cons.injEq] at hb
      exact ⟨by simpa using ha.symm, hb.1, hb.2⟩
    | cons y a =>
      simp only [List.cons_append, List.cons.injEq] at hb
      exact absurd hx' (hB x' (by rw [hb.2]; simp))
  · cases b with
    | nil =>
      simp only [List.nil_append, List.cons.injEq] at hb
      exact ⟨by simpa using ha, hb.1.symm, hb.2.symm⟩
    | cons y b =>
      simp only [List.cons_append, List.cons.injEq] at hb
      exact absurd hx' (hA x' (by rw [ha, hb.1]; simp))

theorem configMap_danglingCalls_opName (namespaces : List String) (items : List ConfigMap) :
    ∀ e ∈ ReconcileConfigMap.danglingCalls namespaces items, e.opName ≠ "List" := by
  intro e he
  simp only [ReconcileConfigMap.danglingCalls, List.mem_map] at he
  obtain ⟨o, _, rfl⟩ := he
  simp [Event.opName]

theorem secret_danglingCalls_opName (namespaces : List String) (items : List Secret) :
    ∀ e ∈ ReconcileSecret.danglingCalls namespaces items, e.opName ≠ "List" := by
  intro e he
  simp only [ReconcileSecret.danglingCalls, List.mem_flatten, List.mem_map] at he
  obtain ⟨l, ⟨o, _, rfl⟩, hl⟩ := he
  simp only [List.mem_cons, List.mem_singleton] at hl
  rcases hl with rfl | rfl | hl
  · simp [Event.opName]
  · simp [Event.opName]
  · cases hl

/-- The calls of a ConfigMap pass, for every client: the store after the pass is the one
the calls leave, and a pass that fetched its source and returned success either issued
no `List`, or ended on a `List` that failed, or issued after its single successful
`List` exactly the `Delete` calls for the listed items outside the namespace list. -/
theorem configMap_Reconcile_calls {σ : Type} (c : Client σ ConfigMap)
    (request : NamespacedName) (s : σ) :
    ∃ evs, (ReconcileConfigMap.Reconcile (traced c) request (s, [])).2 = (replay c evs s, evs) ∧
      ∀ inst, (c.Get request s).1 = .ok inst →
        (ReconcileConfigMap.Reconcile (traced c) request (s, [])).1 = none →
        (∀ e ∈ evs, e.opName ≠ "List") ∨
        (∃ pre sel e, evs = pre ++ [Event.List sel (.error e)] ∧ ∀ x ∈ pre, x.opName ≠ "List") ∨
        (∃ pre sel items, evs = pre ++ Event.List sel (.ok items) ::
            ReconcileConfigMap.danglingCalls (sliceItems (GetReflectNamespaceList
              (mapIndex inst.ObjectMeta.Annotations AnnotationReflectNamespaces))) items ∧
          ∀ x ∈ pre, x.opName ≠ "List" ∧ x.opName ≠ "Delete") := by
  unfold ReconcileConfigMap.Reconcile
  simp only [traced_Get]
  rcases hG : c.Get request s with ⟨rG, s1⟩
  cases rG with
  | error e =>
    refine ⟨[Event.Get request (.error e)], ?_, ?_⟩
    · by_cases hnf : IsNotFound e = true <;>
        simp [hnf, replay_cons, replay_nil, Event.apply, hG]
    · intro inst hinst
      simp at hinst
  | ok inst =>
    simp only [List.nil_append]
    cases hns : GetReflectNamespaceList
        (mapIndex inst.ObjectMeta.Annotations AnnotationReflectNamespaces) with
    | none =>
      refine ⟨[Event.Get request (.ok inst)], ?_, ?_⟩
      · simp [replay_cons, replay_nil, Event.apply, hG]
      · intro _ _ _
        left
        simp [Event.opName]
    | some namespaces =>
      simp only []
      cases SetControllerReference inst.ObjectMeta "ConfigMap" (newConfigMapFrom inst).ObjectMeta with
      | error err =>
        refine ⟨[Event.Get request (.ok inst)], ?_, ?_⟩
        · simp [replay_cons, replay_nil, Event.apply, hG]
        · intro _ _ _
          left
          simp [Event.opName]
      | ok m =>
        simp only []
        obtain ⟨evs, h1, h2⟩ := configMap_reflectLoop_calls c namespaces
          { newConfigMapFrom inst with ObjectMeta := m } s1 [Event.Get request (.ok inst)]
        rcases hL : ReconcileConfigMap.reflectLoop (traced c)
          { newConfigMapFrom inst with ObjectMeta := m } namespaces
          (s1, [Event.Get request (.ok inst)]) with ⟨r, s2, tr2⟩
        rw [hL] at h1
        simp only [Prod.mk.injEq] at h1
        obtain ⟨hs2, htr2⟩ := h1
        subst hs2
        subst htr2
        have hpre : ∀ x ∈ Event.Get request (.ok inst) :: evs, x.opName ≠ "List" := by
          intro x hx
          rcases List.mem_cons.mp hx with rfl | hx
          · simp [Event.opName]
          · exact (h2 x hx).1
        have hpreD : ∀ x ∈ Event.Get request (.ok inst) :: evs,
            x.opName ≠ "List" ∧ x.opName ≠ "Delete" := by
          intro x hx
          rcases List.mem_cons.mp hx with rfl | hx
          · simp [Event.opName]
          · exact h2 x hx
        cases r with
        | some err =>
          refine ⟨Event.Get request (.ok inst) :: evs, ?_, ?_⟩
          · simp [replay_cons, Event.apply, hG]
          · intro _ _ h
            simp at h
        | none =>
          simp only [traced_List]
          rcases hLi : c.List (ReconcileConfigMap.labelSelector inst.ObjectMeta) (replay c evs s1)
            with ⟨rL, s3⟩
          cases rL with
          | error e =>
            refine ⟨(Event.Get request (.ok inst) :: evs) ++
              [Event.List (ReconcileConfigMap.labelSelector inst.ObjectMeta) (.error e)], ?_, ?_⟩
            · by_cases hnf : IsNotFound e = true <;>
                simp [hnf, replay_append, replay_cons, replay_nil, Event.apply, hG, hLi]
            · intro _ _ _
              right; left
              exact ⟨Event.Get request (.ok inst) :: evs,
                ReconcileConfigMap.labelSelector inst.ObjectMeta, e, rfl, hpre⟩
          | ok items =>
            simp only []
            obtain ⟨evs2, h3, h4⟩ := configMap_deleteLoop_calls c namespaces items s3
              ([Event.Get request (.ok inst)] ++ evs ++
                [Event.List (ReconcileConfigMap.labelSelector inst.ObjectMeta) (.ok items)])
            refine ⟨(Event.Get request (.ok inst) :: evs) ++
              Event.List (ReconcileConfigMap.labelSelector inst.ObjectMeta) (.ok items) :: evs2,
              ?_, ?_⟩
            · rw [h3]
              simp [replay_append, replay_cons, Event.apply, hG, hLi]
            · intro inst' hinst' hres
              right; right
              simp only [Except.ok.injEq] at hinst'
              subst hinst'
              refine ⟨Event.Get request (.ok inst) :: evs,
                ReconcileConfigMap.labelSelector inst.ObjectMeta, items, ?_, hpreD⟩
              rw [h4 hres, hns]
              rfl

/-- The calls of a Secret pass, for every client: the store after the pass is the one the
calls leave, and a pass that fetched its source and returned success either issued no
`List`, or ended on a `List` that failed, or issued after its single successful `List`
exactly the `Update` and `Delete` calls for the listed items outside the namespace
list. -/
theorem secret_Reconcile_calls {σ : Type} (c : Client σ Secret)
    (request : NamespacedName) (s : σ) :
    ∃ evs, (ReconcileSecret.Reconcile (traced c) request (s, [])).2 = (replay c evs s, evs) ∧
      ∀ inst, (c.Get request s).1 = .ok inst →
        (ReconcileSecret.Reconcile (traced c) request (s, [])).1 = none →
        (∀ e ∈ evs, e.opName ≠ "List") ∨
        (∃ pre sel e, evs = pre ++ [Event.List sel (.error e)] ∧ ∀ x ∈ pre, x.opName ≠ "List") ∨
        (∃ pre sel items, evs = pre ++ Event.List sel (.ok items) ::
            ReconcileSecret.danglingCalls (sliceItems (GetReflectNamespaceList
              (mapIndex inst.ObjectMeta.Annotations AnnotationReflectNamespaces))) items ∧
          ∀ x ∈ pre, x.opName ≠ "List" ∧ x.opName ≠ "Delete") := by
  unfold ReconcileSecret.Reconcile
  simp only [traced_Get]
  rcases hG : c.Get request s with ⟨rG, s1⟩
  cases rG with
  | error e =>
    refine ⟨[Event.Get request (.error e)], ?_, ?_⟩
    · by_cases hnf : IsNotFound e = true <;>
        simp [hnf, replay_cons, replay_nil, Event.apply, hG]
    · intro inst hinst
      simp at hinst
  | ok inst =>
    simp only [List.nil_append]
    cases SetControllerReference inst.ObjectMeta "Secret" (newSecretFrom inst).ObjectMeta with
    | error err =>
      refine ⟨[Event.Get request (.ok inst)], ?_, ?_⟩
      · simp [replay_cons, replay_nil, Event.apply, hG]
      · intro _ _ _
        left
        simp [Event.opName]
    | ok m =>
      simp only []
      obtain ⟨evs, h1, h2⟩ := secret_reflectLoop_calls c inst
        (sliceItems (GetReflectNamespaceList
          (mapIndex inst.ObjectMeta.Annotations AnnotationReflectNamespaces)))
        { newSecretFrom inst with ObjectMeta := m } s1 [Event.Get request (.ok inst)]
      rcases hL : ReconcileSecret.reflectLoop (traced c) inst
        { newSecretFrom inst with ObjectMeta := m }
        (sliceItems (GetReflectNamespaceList
          (mapIndex inst.ObjectMeta.Annotations AnnotationReflectNamespaces)))
        (s1, [Event.Get request (.ok inst)]) with ⟨r, s2, tr2⟩
      rw [hL] at h1
      simp only [Prod.mk.injEq] at h1
      obtain ⟨hs2, htr2⟩ := h1
      subst hs2
      subst htr2
      have hpre : ∀ x ∈ Event.Get request (.ok inst) :: evs, x.opName ≠ "List" := by
        intro x hx
        rcases List.mem_cons.mp hx with rfl | hx
        · simp [Event.opName]
        · exact (h2 x hx).1
      have hpreD : ∀ x ∈ Event.Get request (.ok inst) :: evs,
          x.opName ≠ "List" ∧ x.opName ≠ "Delete" := by
        intro x hx
        rcases List.mem_cons.mp hx with rfl | hx
        · simp [Event.opName]
        · exact h2 x hx
      cases r with
      | some err =>
        refine ⟨Event.Get request (.ok inst) :: evs, ?_, ?_⟩
        · simp [replay_cons, Event.apply, hG]
        · intro _ _ h
          simp at h
      | none =>
        simp only [traced_List]
        rcases hLi : c.List (ReconcileSecret.labelSelector inst.ObjectMeta) (replay c evs s1)
          with ⟨rL, s3⟩
        cases rL with
        | error e =>
          refine ⟨(Event.Get request (.ok inst) :: evs) ++
            [Event.List (ReconcileSecret.labelSelector inst.ObjectMeta) (.error e)], ?_, ?_⟩
          · by_cases hnf : IsNotFound e = true <;>
              simp [hnf, replay_append, replay_cons, replay_nil, Event.apply, hG, hLi]
          · intro _ _ _
            right; left
            exact ⟨Event.Get request (.ok inst) :: evs,
              ReconcileSecret.labelSelector inst.ObjectMeta, e, rfl, hpre⟩
        | ok items =>
          simp only []
          obtain ⟨evs2, h3, h4⟩ := secret_deleteLoop_calls c
            (sliceItems (GetReflectNamespaceList
              (mapIndex inst.ObjectMeta.Annotations AnnotationReflectNamespaces))) items s3
            ([Event.Get request (.ok inst)] ++ evs ++
              [Event.List (ReconcileSecret.labelSelector inst.ObjectMeta) (.ok items)])
          refine ⟨(Event.Get request (.ok inst) :: evs) ++
            Event.List (ReconcileSecret.labelSelector inst.ObjectMeta) (.ok items) :: evs2,
            ?_, ?_⟩
          · rw [h3]
            simp [replay_append, replay_cons, Event.apply, hG, hLi]
          · intro inst' hinst' hres
            right; right
            simp only [Except.ok.injEq] at hinst'
            subst hinst'
            refine ⟨Event.Get request (.ok inst) :: evs,
              ReconcileSecret.labelSelector inst.ObjectMeta, items, ?_, hpreD⟩
            rw [h4 hres]

/-! ## The `Delete` calls of a pass -/

theorem deletedKeys_append {α : Type} (getMeta : α → ObjectMeta) (a b : List (Event α)) :
    deletedKeys getMeta (a ++ b) = deletedKeys getMeta a ++ deletedKeys getMeta b := by
  simp [deletedKeys, List.filterMap_append]

theorem deletedKeys_of_no_delete {α : Type} (getMeta : α → ObjectMeta) (evs : List (Event α))
    (h : ∀ e ∈ evs, e.opName ≠ "Delete") : deletedKeys getMeta evs = [] := by
  induction evs with
  | nil => rfl
  | cons e rest ih =>
    have hrest := ih (fun x hx => h x (List.mem_cons_of_mem _ hx))
    have he := h e (List.mem_cons_self _ _)
    cases e with
    | Delete obj err => exact absurd rfl he
    | Get key res => simpa [deletedKeys, Event.deletedKey] using hrest
    | List sel res => simpa [deletedKeys, Event.deletedKey] using hrest
    | Create obj err => simpa [deletedKeys, Event.deletedKey] using hrest
    | Update obj err => simpa [deletedKeys, Event.deletedKey] using hrest

theorem configMap_deletedKeys_danglingCalls (namespaces : List String) (items : List ConfigMap) :
    deletedKeys ConfigMap.ObjectMeta (ReconcileConfigMap.danglingCalls namespaces items)
      = (items.filter (fun o => !StringSliceContains namespaces o.ObjectMeta.Namespace)).map
          (fun o => o.ObjectMeta.key) := by
  unfold ReconcileConfigMap.danglingCalls
  generalize items.filter (fun o => !StringSliceContains namespaces o.ObjectMeta.Namespace) = l
  induction l with
  | nil => rfl
  | cons o rest ih =>
    simpa [deletedKeys, Event.deletedKey] using ih

theorem secret_deletedKeys_danglingCalls (namespaces : List String) (items : List Secret) :
    deletedKeys Secret.ObjectMeta (ReconcileSecret.danglingCalls namespaces items)
      = (items.filter (fun o => !StringSliceContains namespaces o.ObjectMeta.Namespace)).map
          (fun o => o.ObjectMeta.key) := by
  unfold ReconcileSecret.danglingCalls
  generalize items.filter (fun o => !StringSliceContains namespaces o.ObjectMeta.Namespace) = l
  induction l with
  | nil => rfl
  | cons o rest ih =>
    have hkey : (DeleteSourceLabels o.ObjectMeta).key = o.ObjectMeta.key := rfl
    simpa [deletedKeys, Event.deletedKey, hkey] using ih

theorem namespace_of_dangling_key {α : Type} (getMeta : α → ObjectMeta)
    (namespaces : List String) (items : List α) {k : NamespacedName}
    (hk : k ∈ (items.filter (fun o => !StringSliceContains namespaces (getMeta o).Namespace)).map
      (fun o => (getMeta o).key)) :
    k.Namespace ∉ namespaces := by
  obtain ⟨o, ho, rfl⟩ := List.mem_map.mp hk
  have hq := (List.mem_filter.mp ho).2
  intro hin
  have hc : StringSliceContains namespaces (getMeta o).Namespace = true :=
    (StringSliceContains_iff _ _).mpr hin
  simp [hc] at hq

/-! ## Claims on the dangling copies and on store errors -/

/-- Counterexample to C17: the source lists `ns-a,ns-b`, its own namespace `ns-a`
included, so the desired set is `ns-b` alone.  The `List` returns an object of `ns-a`
that carries the source's provenance labels; both passes compare its namespace with the
unfiltered list, find it there and issue no call for it: it is still in the store after
the pass. -/
theorem own_namespace_copy_not_dangling :
    ReconcileSecret.Reconcile (traced (memClient Secret.ObjectMeta)) ⟨"ns-a", "s1"⟩
        ([secSource "ns-a,ns-b", secStray], []) =
      (none,
        ([secSource "ns-a,ns-b", secStray,
            ReconcileSecret.projection (secSource "ns-a,ns-b") "ns-b"],
          [Event.Get ⟨"ns-a", "s1"⟩ (.ok (secSource "ns-a,ns-b")),
           Event.Get ⟨"ns-b", "s1"⟩ (.error GoError.NotFound),
           Event.Create (ReconcileSecret.projection (secSource "ns-a,ns-b") "ns-b") none,
           Event.List (ReconcileSecret.labelSelector (secSource "ns-a,ns-b").ObjectMeta)
             (.ok [secStray, ReconcileSecret.projection (secSource "ns-a,ns-b") "ns-b"])])) ∧
    secStray.ObjectMeta.Namespace ∉ desiredSet (secSource "ns-a,ns-b").ObjectMeta ∧
    ReconcileConfigMap.Reconcile (traced (memClient ConfigMap.ObjectMeta)) ⟨"ns-a", "cm1"⟩
        ([cmSource "ns-a,ns-b", cmStray], []) =
      (none,
        ([ReconcileConfigMap.projection (cmSource "ns-a,ns-b") "ns-a", cmStray,
            ReconcileConfigMap.projection (cmSource "ns-a,ns-b") "ns-b"],
          [Event.Get ⟨"ns-a", "cm1"⟩ (.ok (cmSource "ns-a,ns-b")),
           Event.Get ⟨"ns-a", "cm1"⟩ (.ok (cmSource "ns-a,ns-b")),
           Event.Update (ReconcileConfigMap.projection (cmSource "ns-a,ns-b") "ns-a") none,
           Event.Get ⟨"ns-b", "cm1"⟩ (.error GoError.NotFound),
           Event.Create (ReconcileConfigMap.projection (cmSource "ns-a,ns-b") "ns-b") none,
           Event.Update (ReconcileConfigMap.projection (cmSource "ns-a,ns-b") "ns-b") none,
           Event.List (ReconcileConfigMap.labelSelector (cmSource "ns-a,ns-b").ObjectMeta)
             (.ok [ReconcileConfigMap.projection (cmSource "ns-a,ns-b") "ns-a", cmStray,
               ReconcileConfigMap.projection (cmSource "ns-a,ns-b") "ns-b"])])) ∧
    cmStray.ObjectMeta.Namespace ∉ desiredSet (cmSource "ns-a,ns-b").ObjectMeta :=
  ⟨rfl, by decide, rfl, by decide⟩

/-- C17, amended: for both reconcilers, every client and every store state, when the
pass fetched its source and returns success: the `Delete` calls of the pass address, in
the order of the listing, exactly the keys of the objects returned by the
provenance-label `List` whose namespace is not an entry of the parsed reflect-namespaces
list as it stands, unfiltered.  No `Delete` addresses a key whose namespace is an entry
of that list: a listed object living in the source's own namespace, when the annotation
lists that namespace, is not treated as dangling. -/
theorem dangling_test_uses_parsed_list {σ τ : Type} (cm : Client σ ConfigMap)
    (sc : Client τ Secret) (request : NamespacedName) (s : σ) (t : τ) :
    (∀ inst, (cm.Get request s).1 = .ok inst →
      (ReconcileConfigMap.Reconcile (traced cm) request (s, [])).1 = none →
      ∀ pre sel items post,
        (ReconcileConfigMap.Reconcile (traced cm) request (s, [])).2.2
            = pre ++ Event.List sel (.ok items) :: post →
        deletedKeys ConfigMap.ObjectMeta
            (ReconcileConfigMap.Reconcile (traced cm) request (s, [])).2.2
          = (items.filter (fun o =>
              !StringSliceContains (reflectEntries inst.ObjectMeta) o.ObjectMeta.Namespace)).map
              (fun o => o.ObjectMeta.key) ∧
        ∀ k ∈ deletedKeys ConfigMap.ObjectMeta
            (ReconcileConfigMap.Reconcile (traced cm) request (s, [])).2.2,
          k.Namespace ∉ reflectEntries inst.ObjectMeta) ∧
    (∀ inst, (sc.Get request t).1 = .ok inst →
      (ReconcileSecret.Reconcile (traced sc) request (t, [])).1 = none →
      ∀ pre sel items post,
        (ReconcileSecret.Reconcile (traced sc) request (t, [])).2.2
            = pre ++ Event.List sel (.ok items) :: post →
        deletedKeys Secret.ObjectMeta
            (ReconcileSecret.Reconcile (traced sc) request (t, [])).2.2
          = (items.filter (fun o =>
              !StringSliceContains (reflectEntries inst.ObjectMeta) o.ObjectMeta.Namespace)).map
              (fun o => o.ObjectMeta.key) ∧
        ∀ k ∈ deletedKeys Secret.ObjectMeta
            (ReconcileSecret.Reconcile (traced sc) request (t, [])).2.2,
          k.Namespace ∉ reflectEntries inst.ObjectMeta) := by
  constructor
  · intro inst hinst hres pre sel items post htr
    obtain ⟨evs, h1, h2⟩ := configMap_Reconcile_calls cm request s
    have hevs : (ReconcileConfigMap.Reconcile (traced cm) request (s, [])).2.2 = evs := by
      rw [h1]
    rw [hevs] at htr ⊢
    have hkeys : deletedKeys ConfigMap.ObjectMeta evs
        = (items.filter (fun o =>
            !StringSliceContains (reflectEntries inst.ObjectMeta) o.ObjectMeta.Namespace)).map
            (fun o => o.ObjectMeta.key) := by
      rcases h2 inst hinst hres with hno | ⟨pre', sel', e, he, hpre'⟩ | ⟨pre', sel', items', he, hpre'⟩
      · exact absurd rfl (hno (Event.List sel (.ok items)) (by rw [htr]; simp))
      · rw [he] at htr
        have := (event_split_unique htr hpre' (by simp) rfl).2.1
        cases this
      · rw [he] at htr
        obtain ⟨_, hx, _⟩ := event_split_unique htr (fun e h => (hpre' e h).1)
          (configMap_danglingCalls_opName _ _) rfl
        cases hx
        rw [he, deletedKeys_append, deletedKeys_of_no_delete _ _ (fun e h => (hpre' e h).2)]
        exact configMap_deletedKeys_danglingCalls _ _
    refine ⟨hkeys, fun k hk => ?_⟩
    rw [hkeys] at hk
    exact namespace_of_dangling_key ConfigMap.ObjectMeta _ _ hk
  · intro inst hinst hres pre sel items post htr
    obtain ⟨evs, h1, h2⟩ := secret_Reconcile_calls sc request t
    have hevs : (ReconcileSecret.Reconcile (traced sc) request (t, [])).2.2 = evs := by
      rw [h1]
    rw [hevs] at htr ⊢
    have hkeys : deletedKeys Secret.ObjectMeta evs
        = (items.filter (fun o =>
            !StringSliceContains (reflectEntries inst.ObjectMeta) o.ObjectMeta.Namespace)).map
            (fun o => o.ObjectMeta.key) := by
      rcases h2 inst hinst hres with hno | ⟨pre', sel', e, he, hpre'⟩ | ⟨pre', sel', items', he, hpre'⟩
      · exact absurd rfl (hno (Event.List sel (.ok items)) (by rw [htr]; simp))
      · rw [he] at htr
        have := (event_split_unique htr hpre' (by simp) rfl).2.1
        cases this
      · rw [he] at htr
        obtain ⟨_, hx, _⟩ := event_split_unique htr (fun e h => (hpre' e h).1)
          (secret_danglingCalls_opName _ _) rfl
        cases hx
        rw [he, deletedKeys_append, deletedKeys_of_no_delete _ _ (fun e h => (hpre' e h).2)]
        exact secret_deletedKeys_danglingCalls _ _
    refine ⟨hkeys, fun k hk => ?_⟩
    rw [hkeys] at hk
    exact namespace_of_dangling_key Secret.ObjectMeta _ _ hk

/-- Witness for C17, amended: the source lists `ns-b`; the `List` returns the copies of
`ns-b` and `ns-c`, and the one `Delete` of the pass addresses the copy of `ns-c`. -/
theorem dangling_test_uses_parsed_list_witness :
    deletedKeys ConfigMap.ObjectMeta
        (ReconcileConfigMap.Reconcile (traced (memClient ConfigMap.ObjectMeta)) ⟨"ns-a", "cm1"⟩
          ([cmSource "ns-b", cmCopy "ns-b", cmCopy "ns-c"], [])).2.2
      = [⟨"ns-c", "cm1"⟩] ∧
    deletedKeys Secret.ObjectMeta
        (ReconcileSecret.Reconcile (traced (memClient Secret.ObjectMeta)) ⟨"ns-a", "s1"⟩
          ([secSource "ns-b", secCopy "ns-b", secCopy "ns-c"], [])).2.2
      = [⟨"ns-c", "s1"⟩] :=
  have h := dangling_test_uses_parsed_list (memClient ConfigMap.ObjectMeta)
    (memClient Secret.ObjectMeta) ⟨"ns-a", "cm1"⟩
    [cmSource "ns-b", cmCopy "ns-b", cmCopy "ns-c"]
    [sampleSecret "ns-a" "cm1" [] [(AnnotationReflectNamespaces, "ns-b")],
      sampleSecret "ns-b" "cm1" (provenance "ns-a" "cm1") [],
      sampleSecret "ns-c" "cm1" (provenance "ns-a" "cm1") []]
  have h' := dangling_test_uses_parsed_list (memClient ConfigMap.ObjectMeta)
    (memClient Secret.ObjectMeta) ⟨"ns-a", "s1"⟩
    [cmSource "ns-b", cmCopy "ns-b", cmCopy "ns-c"]
    [secSource "ns-b", secCopy "ns-b", secCopy "ns-c"]
  ⟨(h.1 (cmSource "ns-b") rfl rfl
      [Event.Get ⟨"ns-a", "cm1"⟩ (.ok (cmSource "ns-b")),
       Event.Get ⟨"ns-b", "cm1"⟩ (.ok (cmCopy "ns-b")),
       Event.Update (ReconcileConfigMap.projection (cmSource "ns-b") "ns-b") none]
      (ReconcileConfigMap.labelSelector (cmSource "ns-b").ObjectMeta)
      [ReconcileConfigMap.projection (cmSource "ns-b") "ns-b", cmCopy "ns-c"]
      [Event.Delete (cmCopy "ns-c") none] rfl).1,
   (h'.2 (secSource "ns-b") rfl rfl
      [Event.Get ⟨"ns-a", "s1"⟩ (.ok (secSource "ns-b")),
       Event.Get ⟨"ns-b", "s1"⟩ (.ok (secCopy "ns-b")),
       Event.Update (ReconcileSecret.projection (secSource "ns-b") "ns-b") none]
      (ReconcileSecret.labelSelector (secSource "ns-b").ObjectMeta)
      [ReconcileSecret.projection (secSource "ns-b") "ns-b", secCopy "ns-c"]
      [Event.Update (secCopyStripped "ns-c") none, Event.Delete (secCopyStripped "ns-c") none]
      rfl).1⟩

/-- Counterexample to C18: the `List` of the dangling-copy phase fails with `NotFound`,
which is not one of the enumerated benign errors (`AlreadyExists` on create, `NotFound`
on delete).  Both passes return success instead of that error, and the dangling copy of
`ns-c` stays in the store. -/
theorem list_not_found_is_swallowed :
    ReconcileConfigMap.Reconcile (traced (listNotFoundClient ConfigMap.ObjectMeta)) ⟨"ns-a", "cm1"⟩
        ([cmSource "ns-b", cmCopy "ns-b", cmCopy "ns-c"], []) =
      (none,
        ([cmSource "ns-b", ReconcileConfigMap.projection (cmSource "ns-b") "ns-b", cmCopy "ns-c"],
          [Event.Get ⟨"ns-a", "cm1"⟩ (.ok (cmSource "ns-b")),
           Event.Get ⟨"ns-b", "cm1"⟩ (.ok (cmCopy "ns-b")),
           Event.Update (ReconcileConfigMap.projection (cmSource "ns-b") "ns-b") none,
           Event.List (ReconcileConfigMap.labelSelector (cmSource "ns-b").ObjectMeta)
             (.error GoError.NotFound)])) ∧
    ReconcileSecret.Reconcile (traced (listNotFoundClient Secret.ObjectMeta)) ⟨"ns-a", "s1"⟩
        ([secSource "ns-b", secCopy "ns-b", secCopy "ns-c"], []) =
      (none,
        ([secSource "ns-b", ReconcileSecret.projection (secSource "ns-b") "ns-b", secCopy "ns-c"],
          [Event.Get ⟨"ns-a", "s1"⟩ (.ok (secSource "ns-b")),
           Event.Get ⟨"ns-b", "s1"⟩ (.ok (secCopy "ns-b")),
           Event.Update (ReconcileSecret.projection (secSource "ns-b") "ns-b") none,
           Event.List (ReconcileSecret.labelSelector (secSource "ns-b").ObjectMeta)
             (.error GoError.NotFound)])) :=
  ⟨rfl, rfl⟩

/-- C18, amended: for both reconcilers, every client and every store state: if any
`Get`, `Create`, `Update`, `List` or `Delete` of the pass fails with an error, a
`NotFound` reported by `Get` or by `List` apart, then that call is the last store call
of the pass, `Reconcile` returns exactly that error, and the store after the pass is the
store left by the calls issued up to and including the failing one. -/
theorem store_error_aborts_pass {σ τ : Type} (cm : Client σ ConfigMap) (sc : Client τ Secret)
    (request : NamespacedName) (s : σ) (t : τ) :
    (∀ pre ev post e,
      (ReconcileConfigMap.Reconcile (traced cm) request (s, [])).2.2 = pre ++ ev :: post →
      ev.failure = some e →
        post = [] ∧ (ReconcileConfigMap.Reconcile (traced cm) request (s, [])).1 = some e ∧
        (ReconcileConfigMap.Reconcile (traced cm) request (s, [])).2.1
          = replay cm (pre ++ [ev]) s) ∧
    (∀ pre ev post e,
      (ReconcileSecret.Reconcile (traced sc) request (t, [])).2.2 = pre ++ ev :: post →
      ev.failure = some e →
        post = [] ∧ (ReconcileSecret.Reconcile (traced sc) request (t, [])).1 = some e ∧
        (ReconcileSecret.Reconcile (traced sc) request (t, [])).2.1
          = replay sc (pre ++ [ev]) t) := by
  constructor
  · intro pre ev post e htr hf
    obtain ⟨hpost, hres⟩ := configMap_Reconcile_abortsOnFailure cm request s pre ev post e htr hf
    refine ⟨hpost, hres, ?_⟩
    obtain ⟨evs, h1, _⟩ := configMap_Reconcile_calls cm request s
    rw [h1] at htr ⊢
    simp only [] at htr ⊢
    rw [htr, hpost]
  · intro pre ev post e htr hf
    obtain ⟨hpost, hres⟩ := secret_Reconcile_abortsOnFailure sc request t pre ev post e htr hf
    refine ⟨hpost, hres, ?_⟩
    obtain ⟨evs, h1, _⟩ := secret_Reconcile_calls sc request t
    rw [h1] at htr ⊢
    simp only [] at htr ⊢
    rw [htr, hpost]

/-- Witness for C18, amended: `Update` of the copy in `ns-b` fails with a server error;
both passes return that error. -/
theorem store_error_aborts_pass_witness :
    (ReconcileConfigMap.Reconcile (traced (updateFailClient ConfigMap.ObjectMeta)) ⟨"ns-a", "cm1"⟩
        ([cmSource "ns-b,ns-c", cmCopy "ns-b"], [])).1 = some (GoError.Other "internal error") ∧
    (ReconcileSecret.Reconcile (traced (updateFailClient Secret.ObjectMeta)) ⟨"ns-a", "s1"⟩
        ([secSource "ns-b,ns-c", secCopy "ns-b"], [])).1 = some (GoError.Other "internal error") :=
  ⟨((store_error_aborts_pass (updateFailClient ConfigMap.ObjectMeta)
        (updateFailClient Secret.ObjectMeta) ⟨"ns-a", "cm1"⟩
        [cmSource "ns-b,ns-c", cmCopy "ns-b"] [secSource "ns-b,ns-c", secCopy "ns-b"]).1
      [Event.Get ⟨"ns-a", "cm1"⟩ (.ok (cmSource "ns-b,ns-c")),
       Event.Get ⟨"ns-b", "cm1"⟩ (.ok (cmCopy "ns-b"))]
      (Event.Update (ReconcileConfigMap.projection (cmSource "ns-b,ns-c") "ns-b")
        (some (GoError.Other "internal error")))
      [] (GoError.Other "internal error") rfl rfl).2.1,
   ((store_error_aborts_pass (updateFailClient ConfigMap.ObjectMeta)
        (updateFailClient Secret.ObjectMeta) ⟨"ns-a", "s1"⟩
        [cmSource "ns-b,ns-c", cmCopy "ns-b"] [secSource "ns-b,ns-c", secCopy "ns-b"]).2
      [Event.Get ⟨"ns-a", "s1"⟩ (.ok (secSource "ns-b,ns-c")),
       Event.Get ⟨"ns-b", "s1"⟩ (.ok (secCopy "ns-b"))]
      (Event.Update (ReconcileSecret.projection (secSource "ns-b,ns-c") "ns-b")
        (some (GoError.Other "internal error")))
      [] (GoError.Other "internal error") rfl rfl).2.1⟩

end ConfigReflector
